import Mathlib

/-!
# DetectTypeOfQueryWB: classification and partitioned persistence

A shallow embedding of the two savers of the repository, `saver/saver.go` (the root
variant) and `searchType/saver/saver.go` (the searchType variant), together with the parts
of the Go standard library they call (`strings`, `net/url`, `regexp`).

A Go string is modelled by the list of its bytes, each byte written as the character with
that code, so that ASCII text reads as itself. A response body is given by what
`json.Unmarshal` makes of it. The calls into the file system (opening, writing, flushing and
closing the files) are taken to succeed, so that a writer is the text written through it.
-/

set_option autoImplicit false

namespace Wbx

/-- A Go string: the sequence of its bytes. -/
abbrev Str := List Char

/-! ## Package `strings` -/

/-- Go `strings.Contains(s, substr)`: `substr` occurs somewhere in `s`. -/
def Contains : Str → Str → Bool
  | [], substr => substr.isPrefixOf []
  | c :: s, substr => substr.isPrefixOf (c :: s) || Contains s substr

/-- Go `strings.ReplaceAll(s, old, new)` for a one-byte `old`, given as that byte. -/
def ReplaceAll : Str → Char → Str → Str
  | [], _, _ => []
  | c :: s, old, new => if c = old then new ++ ReplaceAll s old new else c :: ReplaceAll s old new

/-- Go `strings.Cut(s, sep)` for a one-byte `sep`: the text before the first `sep`, the text
after it, and whether `sep` was found. -/
def Cut : Str → Char → Str × Str × Bool
  | [], _ => ([], [], false)
  | c :: s, sep =>
    if c = sep then ([], s, true)
    else
      let r := Cut s sep
      (c :: r.1, r.2.1, r.2.2)

/-- The white space of Go `unicode.IsSpace`, each character as the bytes of its UTF-8
encoding: the six of ASCII, U+0085, U+00A0, U+1680, U+2000 to U+200A, U+2028, U+2029,
U+202F, U+205F and U+3000. -/
def whiteSpace : List Str :=
  [['\t'], ['\n'], [Char.ofNat 0x0B], [Char.ofNat 0x0C], ['\r'], [' ']] ++
  [[0xC2, 0x85], [0xC2, 0xA0], [0xE1, 0x9A, 0x80], [0xE2, 0x80, 0x80], [0xE2, 0x80, 0x81],
    [0xE2, 0x80, 0x82], [0xE2, 0x80, 0x83], [0xE2, 0x80, 0x84], [0xE2, 0x80, 0x85],
    [0xE2, 0x80, 0x86], [0xE2, 0x80, 0x87], [0xE2, 0x80, 0x88], [0xE2, 0x80, 0x89],
    [0xE2, 0x80, 0x8A], [0xE2, 0x80, 0xA8], [0xE2, 0x80, 0xA9], [0xE2, 0x80, 0xAF],
    [0xE2, 0x81, 0x9F], [0xE3, 0x80, 0x80]].map (fun bytes => bytes.map Char.ofNat)

/-- The loop of Go `strings.TrimLeftFunc(s, unicode.IsSpace)`, run for at most `fuel`
characters; every step shortens `s`, so `s.length` steps always suffice. -/
def trimLeftLoop : Nat → Str → Str
  | 0, s => s
  | fuel + 1, s =>
    match whiteSpace.find? (fun space => space.isPrefixOf s) with
    | some space => trimLeftLoop fuel (s.drop space.length)
    | none => s

/-- The loop of Go `strings.TrimRightFunc(s, unicode.IsSpace)`, run for at most `fuel`
characters. -/
def trimRightLoop : Nat → Str → Str
  | 0, s => s
  | fuel + 1, s =>
    match whiteSpace.find? (fun space => space.isSuffixOf s) with
    | some space => trimRightLoop fuel (s.take (s.length - space.length))
    | none => s

/-- Go `strings.TrimSpace(s)`: `s` without its leading and trailing white space. -/
def TrimSpace (s : Str) : Str :=
  trimRightLoop s.length (trimLeftLoop s.length s)

/-- Go `strings.Join(elems, sep)`. -/
def Join : List Str → Str → Str
  | [], _ => []
  | [a], _ => a
  | a :: b :: rest, sep => a ++ sep ++ Join (b :: rest) sep

/-! ## Package `net/url` -/

/-- Go `url.ishex`. -/
def ishex (c : Char) : Bool :=
  ('0'.toNat ≤ c.toNat && c.toNat ≤ '9'.toNat) ||
  ('a'.toNat ≤ c.toNat && c.toNat ≤ 'f'.toNat) ||
  ('A'.toNat ≤ c.toNat && c.toNat ≤ 'F'.toNat)

/-- Go `url.unhex`. -/
def unhex (c : Char) : Nat :=
  if '0'.toNat ≤ c.toNat && c.toNat ≤ '9'.toNat then c.toNat - '0'.toNat
  else if 'a'.toNat ≤ c.toNat && c.toNat ≤ 'f'.toNat then c.toNat - 'a'.toNat + 10
  else if 'A'.toNat ≤ c.toNat && c.toNat ≤ 'F'.toNat then c.toNat - 'A'.toNat + 10
  else 0

/-- Go `url.shouldEscape(c, encodePathSegment)`. -/
def shouldEscapePathSegment (c : Char) : Bool :=
  if ('a'.toNat ≤ c.toNat && c.toNat ≤ 'z'.toNat) || ('A'.toNat ≤ c.toNat && c.toNat ≤ 'Z'.toNat)
      || ('0'.toNat ≤ c.toNat && c.toNat ≤ '9'.toNat) then false
  else if c = '-' ∨ c = '_' ∨ c = '.' ∨ c = '~' then false
  else if c = '$' ∨ c = '&' ∨ c = '+' ∨ c = ',' ∨ c = '/' ∨ c = ':' ∨ c = ';' ∨ c = '='
      ∨ c = '?' ∨ c = '@' then
    decide (c = '/' ∨ c = ';' ∨ c = ',' ∨ c = '?')
  else true

/-- The digits of Go `url.upperhex`. -/
def upperhex : Str := "0123456789ABCDEF".toList

/-- Go `url.PathEscape(s)`: every byte that must be escaped becomes `%XX`. -/
def PathEscape : Str → Str
  | [] => []
  | c :: s =>
    if shouldEscapePathSegment c then
      '%' :: upperhex.getD (c.toNat / 16) '0' :: upperhex.getD (c.toNat % 16) '0' :: PathEscape s
    else c :: PathEscape s

/-- The errors of decoding a response body. -/
inductive DecodeError where
  /-- An error of `json.Unmarshal`. -/
  | json (detail : Str)
  /-- Go `url.EscapeError`: the offending text. -/
  | escape (s : Str)
  /-- The `invalid semicolon separator in query` error of `url.ParseQuery`. -/
  | semicolonSeparator
  /-- The `number of URL query parameters exceeded limit` error of `url.ParseQuery`. -/
  | tooManyParameters
  deriving DecidableEq

/-- First pass of Go `url.unescape` in mode `encodeQueryComponent`: checks that every `%` is
followed by two hex digits, counting the `%` and noting whether a `+` occurs. -/
def unescapeScan : Str → Nat → Bool → Except DecodeError (Nat × Bool)
  | [], n, hasPlus => .ok (n, hasPlus)
  | c :: s, n, hasPlus =>
    if c = '%' then
      match s with
      | a :: b :: s' =>
        if !ishex a || !ishex b then .error (.escape [c, a, b])
        else unescapeScan s' (n + 1) hasPlus
      | _ => .error (.escape (c :: s))
    else if c = '+' then unescapeScan s n true
    else unescapeScan s n hasPlus

/-- Second pass of Go `url.unescape` in mode `encodeQueryComponent`, run on a string that
passed the first: `%XX` becomes the byte it denotes and `+` becomes a space. -/
def unescapeBuild : Str → Str
  | [] => []
  | c :: s =>
    if c = '%' then
      match s with
      | a :: b :: s' => Char.ofNat (unhex a * 16 + unhex b) :: unescapeBuild s'
      | _ => []
    else if c = '+' then ' ' :: unescapeBuild s
    else c :: unescapeBuild s

/-- Go `url.QueryUnescape(s)`. -/
def QueryUnescape (s : Str) : Except DecodeError Str :=
  match unescapeScan s 0 false with
  | .error e => .error e
  | .ok (n, hasPlus) => if n = 0 ∧ hasPlus = false then .ok s else .ok (unescapeBuild s)

/-- Go `url.Values`, a `map[string][]string`: the keys are distinct, and the order of the
entries stands for one possible iteration order of the map. -/
abbrev Values := List (Str × List Str)

/-- The statement `m[key] = append(m[key], value)`. -/
def Values.add : Values → Str → Str → Values
  | [], key, value => [(key, [value])]
  | (k, vs) :: rest, key, value =>
    if k = key then (k, vs ++ [value]) :: rest else (k, vs) :: Values.add rest key value

/-- The two-valued index expression `m[key]`. -/
def Values.get : Values → Str → Option (List Str)
  | [], _ => none
  | (k, vs) :: rest, key => if k = key then some vs else Values.get rest key

/-- One iteration of the loop of Go `url.parseQuery` on the piece `key` cut off the
query: the map and the error after it. -/
def parseQueryStep (m : Values) (err : Option DecodeError) (key : Str) :
    Values × Option DecodeError :=
  if Contains key [';'] then (m, some .semicolonSeparator)
  else if key = [] then (m, err)
  else
    let kv := Cut key '='
    match QueryUnescape kv.1 with
    | .error err1 => (m, if err = none then some err1 else err)
    | .ok key =>
      match QueryUnescape kv.2.1 with
      | .error err1 => (m, if err = none then some err1 else err)
      | .ok value => (m.add key value, err)

/-- The loop `for query != ""` of Go `url.parseQuery`, run for at most `fuel` iterations;
every iteration shortens `query`, so `query.length` iterations always suffice. -/
def parseQueryLoop : Nat → Values → Str → Option DecodeError → Values × Option DecodeError
  | 0, m, _, err => (m, err)
  | fuel + 1, m, query, err =>
    if query = [] then (m, err)
    else
      let c := Cut query '&'
      let r := parseQueryStep m err c.1
      parseQueryLoop fuel r.1 c.2.1 r.2

/-- Go `strings.Count(s, substr)` for a one-byte `substr`, given as that byte. -/
def Count (s : Str) (substr : Char) : Nat :=
  s.count substr

/-- The constant `defaultMaxParams` of `net/url`. -/
def defaultMaxParams : Nat := 10000

/-- Go `url.urlParamsWithinMax(params)` when the setting `urlmaxqueryparams` of `GODEBUG`
is not given. -/
def urlParamsWithinMax (params : Nat) : Bool :=
  decide (params ≤ defaultMaxParams)

/-- Go `url.ParseQuery(query)`: the parsed values together with the first error. A query
of more than `defaultMaxParams` pieces between `&` is refused before the loop, with the
empty map. -/
def ParseQuery (query : Str) : Values × Option DecodeError :=
  if !urlParamsWithinMax (Count query '&' + 1) then ([], some .tooManyParameters)
  else parseQueryLoop query.length [] query none

/-! ## Package `regexp` -/

/-- A compiled regular expression over bytes. -/
abbrev Regexp := RegularExpression Char

/-- The operator `+`: one or more repetitions. -/
def Regexp.plus (r : Regexp) : Regexp := r * RegularExpression.star r

/-- The Perl class `\d`, which in Go is the ASCII digits. -/
def Regexp.perlDigit : Regexp :=
  .char '0' + .char '1' + .char '2' + .char '3' + .char '4' + .char '5' + .char '6' + .char '7'
    + .char '8' + .char '9'

/-- The bracket class `[lo-hi]` over bytes, the byte `lo` followed by `n` more. -/
def Regexp.range (lo : Char) : Nat → Regexp
  | 0 => .char lo
  | n + 1 => Regexp.range lo n + .char (Char.ofNat (lo.toNat + (n + 1)))

/-- The pattern `_st\d+` of the searchType saver. -/
def tokenPatternPerl : Regexp :=
  .char '_' * .char 's' * .char 't' * Regexp.plus Regexp.perlDigit

/-- The pattern `_st[0-9]+` of the root saver. -/
def tokenPatternRange : Regexp :=
  .char '_' * .char 's' * .char 't' * Regexp.plus (Regexp.range '0' 9)

/-- Go `(*Regexp).MatchString(s)`: some substring of `s` matches the expression. The
patterns here are ASCII, so that matching byte by byte is matching rune by rune. -/
def MatchString (re : Regexp) (s : Str) : Bool :=
  s.tails.any (fun t => t.inits.any (fun p => re.rmatch p))

/-! ## Data shared by the two savers -/

/-- The constants of type `QueryCategory`. -/
inductive QueryCategory where
  | preset
  | extendSearch
  | merger
  | unknown
  deriving DecidableEq

/-- The variable `allExistedValidTypes`. -/
def allExistedValidTypes : List QueryCategory := [.preset, .extendSearch, .merger]

/-- The struct `queryInfo`. -/
structure queryInfo where
  text : Str
  category : QueryCategory
  filterValue : Str
  presets : List Str
  deriving DecidableEq

/-- The variable `unknownQueryInfo`. -/
def unknownQueryInfo : queryInfo := ⟨[], .unknown, [], []⟩

/-- The field `Metadata` of `ExactMatchResponse`. -/
structure Metadata where
  Name : Str
  CatalogValue : Str
  deriving DecidableEq

/-- The struct `ExactMatchResponse`. -/
structure ExactMatchResponse where
  Metadata : Metadata
  deriving DecidableEq

/-- A response body, given by what `json.Unmarshal` makes of it: either the decoding fails
with an error, or it succeeds and fills the envelope. -/
inductive Body where
  | malformed (detail : Str)
  | envelope (resp : ExactMatchResponse)
  deriving DecidableEq

/-- Go `json.Unmarshal(textBytes, respData)`. -/
def Unmarshal : Body → Except DecodeError ExactMatchResponse
  | .malformed detail => .error (.json detail)
  | .envelope resp => .ok resp

/-- The body `{"metadata": {"name": name, "catalog_value": catalogValue}}`. -/
def Body.ofStrings (name catalogValue : String) : Body :=
  .envelope ⟨⟨name.toList, catalogValue.toList⟩⟩

/-- The constant `semicolon`. -/
def semicolon : Char := ';'

/-- The constant `newline`. -/
def newline : Str := ['\n']

/-- The part of `config.Config` the savers read. -/
structure Config where
  CsvSeparator : Str
  PresetsSeparator : Str
  deriving DecidableEq

/-- The configuration with the default separators of the command line: a tab between the
two fields of a line and a comma between preset identifiers. -/
def defaultConfig : Config := ⟨['\t'], [',']⟩

/-- A Go map keyed by `QueryCategory`; `none` stands for an absent key. -/
abbrev CategoryMap (α : Type) := QueryCategory → Option α

/-- The assignment `m[k] = v`. -/
def CategoryMap.set {α : Type} (m : CategoryMap α) (k : QueryCategory) (v : α) : CategoryMap α :=
  fun c => if c = k then some v else m c

/-- The assignment `presetMap[presetID] = struct{}{}` on a set of strings, kept as a list
without repetition. -/
def setInsert (presetMap : List Str) (presetID : Str) : List Str :=
  if presetID ∈ presetMap then presetMap else presetMap ++ [presetID]

/-- Byte-wise lexicographic order on strings, the order of Go `slices.Sort` on `[]string`. -/
def strLe : Str → Str → Bool
  | [], _ => true
  | _ :: _, [] => false
  | a :: s, b :: t => a.toNat < b.toNat || (a.toNat = b.toNat && strLe s t)

/-- Go `slices.Sort` on a `[]string`. -/
def slicesSort (l : List Str) : List Str :=
  l.insertionSort (fun a b => strLe a b = true)

/-- The method `getSortedPresets`, the same in both savers. -/
def getSortedPresets (setOfPresets : List Str) : List Str :=
  slicesSort setOfPresets

/-- How a call of `Run` ends. -/
inductive Outcome (ε : Type) where
  /-- It returns `nil`. -/
  | ok
  /-- It returns the error `e`. -/
  | error (e : ε)
  /-- It does not return: a method is called on a nil `*bufio.Writer`. -/
  | nilWriterPanic
  /-- It does not return: its deferred function closes a closed channel, and panics before
  it flushes and closes the files. -/
  | closedChannelPanic
  deriving DecidableEq

/-- The state of a saver: for each category the bytes written so far to its queries file
(the header line included) and its set of preset identifiers. -/
structure Saver where
  cfg : Config
  categoryToWriter : CategoryMap Str
  categoryToSetPresets : CategoryMap (List Str)

/-- What `Run` leaves behind: the saver, the content of each `list.presets` file that
`writePresets` wrote (`none` when it was not written), and how `Run` ended. -/
structure RunResult (ε : Type) where
  saver : Saver
  presetFiles : CategoryMap Str
  outcome : Outcome ε

/-- The method `writePresets`, the same in both savers: every category of
`categoryToSetPresets` gets its sorted identifiers joined with `PresetsSeparator`. -/
def Saver.writePresets (s : Saver) : CategoryMap Str :=
  fun c => (s.categoryToSetPresets c).map (fun setOfPresets =>
    Join (getSortedPresets setOfPresets) s.cfg.PresetsSeparator)

/-- The loop `for _, presetID := range qInfo.presets`, guarded by the lookup of the
category in `categoryToSetPresets`. -/
def Saver.addPresets (s : Saver) (category : QueryCategory) (presets : List Str) : Saver :=
  match s.categoryToSetPresets category with
  | some presetMap =>
    { s with categoryToSetPresets :=
        s.categoryToSetPresets.set category (presets.foldl setInsert presetMap) }
  | none => s

/-! ## The searchType saver, `searchType/saver/saver.go` -/

namespace SearchType

/-- The errors the searchType saver returns. -/
inductive Error where
  | decode (e : DecodeError)
  | ErrSeparator
  | ErrEmptyResponse
  | ErrUnknownCategory
  /-- The value of `ErrInvalidResponseSeparator(text, sep)`, which wraps `ErrSeparator`. -/
  | ErrInvalidResponseSeparator (text sep : Str)
  deriving DecidableEq

/-- Go `errors.Is(err, target)` on these errors. -/
def Error.Is (err target : Error) : Bool :=
  decide (err = target) ||
    (match err with
     | .ErrInvalidResponseSeparator _ _ => decide (target = .ErrSeparator)
     | _ => false)

/-- The header line `openFileByType` writes into a fresh queries file. -/
def openFileByType (cfg : Config) : Str :=
  "text".toList ++ cfg.CsvSeparator ++ "query".toList ++ newline

/-- The function `NewSaver`. -/
def NewSaver (cfg : Config) : Saver :=
  allExistedValidTypes.foldl
    (fun s queryType =>
      { s with
        categoryToWriter := s.categoryToWriter.set queryType (openFileByType cfg)
        categoryToSetPresets := s.categoryToSetPresets.set queryType [] })
    ⟨cfg, fun _ => none, fun _ => none⟩

/-- The function `checkTokenInside`; the entries of `queryParams` come in the order the
map is iterated. -/
def checkTokenInside : Values → Bool
  | [] => false
  | (name, values) :: rest =>
    if values.length = 0 then checkTokenInside rest
    else if MatchString tokenPatternPerl name then true
    else checkTokenInside rest

/-- The function `detectCategory`. -/
def detectCategory (isTokenInside isPresetInside : Bool) : QueryCategory :=
  if isPresetInside && isTokenInside then .extendSearch
  else if isPresetInside then .preset
  else if isTokenInside then .merger
  else .unknown

/-- The function `parseResponse`: the record and the error it returns. -/
def parseResponse (textBytes : Body) : queryInfo × Option DecodeError :=
  match Unmarshal textBytes with
  | .error err => (unknownQueryInfo, some err)
  | .ok respData =>
    let queryParamsStr := ReplaceAll respData.Metadata.CatalogValue semicolon (PathEscape [semicolon])
    match ParseQuery queryParamsStr with
    | (_, some err) => (unknownQueryInfo, some err)
    | (queryParams, none) =>
      let presetsStr := (queryParams.get "preset".toList).getD []
      let isPresetInside := (queryParams.get "preset".toList).isSome
      let isTokenInside := checkTokenInside queryParams
      let qInfo : queryInfo := ⟨respData.Metadata.Name, .unknown, respData.Metadata.CatalogValue, []⟩
      let qInfo := { qInfo with presets := presetsStr }
      let qInfo := { qInfo with category := detectCategory isTokenInside isPresetInside }
      (qInfo, none)

/-- The method `validate`; `none` is the `nil` error. -/
def validate (s : Saver) (info : queryInfo) : Option Error :=
  if info.text = [] ∨ info.filterValue = [] then some .ErrEmptyResponse
  else if Contains info.text s.cfg.CsvSeparator then
    some (.ErrInvalidResponseSeparator info.text s.cfg.CsvSeparator)
  else if Contains info.filterValue s.cfg.CsvSeparator then
    some (.ErrInvalidResponseSeparator info.filterValue s.cfg.CsvSeparator)
  else if info.category = .unknown then some .ErrUnknownCategory
  else none

/-- The method `Run` on the bodies the channel `responseBodies` delivers until it is
closed. The deferred function joins the error with those of flushing and closing the
files, of which there are none here. -/
def Run (s : Saver) : List Body → RunResult Error
  | [] => ⟨s, s.writePresets, .ok⟩
  | value :: rest =>
    match parseResponse value with
    | (_, some err) => ⟨s, fun _ => none, .error (.decode err)⟩
    | (qInfo, none) =>
      match validate s qInfo with
      | some err =>
        if err.Is .ErrUnknownCategory then Run s rest
        else ⟨s, fun _ => none, .error err⟩
      | none =>
        let text := qInfo.text ++ s.cfg.CsvSeparator ++ qInfo.filterValue ++ newline
        match s.categoryToWriter qInfo.category with
        | none => ⟨s, fun _ => none, .nilWriterPanic⟩
        | some written =>
          let s := { s with categoryToWriter := s.categoryToWriter.set qInfo.category (written ++ text) }
          Run (s.addPresets qInfo.category qInfo.presets) rest

end SearchType

/-! ## The root saver, `saver/saver.go` -/

namespace Root

/-- The errors the root saver returns. -/
inductive Error where
  | decode (e : DecodeError)
  | InvalidEmptyResponse
  /-- The value of `InvalidResponseSeparator(text, sep)`. -/
  | InvalidResponseSeparator (text sep : Str)
  deriving DecidableEq

/-- The header line `openFileByType` writes into a fresh queries file. -/
def openFileByType (cfg : Config) : Str :=
  Join ["text".toList, "query\n".toList] cfg.CsvSeparator

/-- The function `NewSaver`. -/
def NewSaver (cfg : Config) : Saver :=
  allExistedValidTypes.foldl
    (fun s queryType =>
      { s with
        categoryToWriter := s.categoryToWriter.set queryType (openFileByType cfg)
        categoryToSetPresets := s.categoryToSetPresets.set queryType [] })
    ⟨cfg, fun _ => none, fun _ => none⟩

/-- Go `regexp.MatchString(pattern, s)` for the constant pattern `_st[0-9]+`, which
compiles, so that the error is always `nil`. -/
def regexpMatchString (s : Str) : Bool × Option DecodeError :=
  (MatchString tokenPatternRange s, none)

/-- The function `checkTokenInside`; the entries of `queryParams` come in the order the
map is iterated. -/
def checkTokenInside : Values → Bool × Option DecodeError
  | [] => (false, none)
  | (name, values) :: rest =>
    if values.length = 0 then checkTokenInside rest
    else
      match regexpMatchString name with
      | (_, some err) => (false, some err)
      | (matched, none) => if matched then (true, none) else checkTokenInside rest

/-- The function `detectCategory`. -/
def detectCategory (isTokenInside isPresetInside : Bool) : QueryCategory :=
  if isPresetInside && isTokenInside then .extendSearch
  else if isPresetInside && !isTokenInside then .preset
  else if !isPresetInside && isTokenInside then .merger
  else .unknown

/-- The function `parseResponse`: the record and the error it returns. -/
def parseResponse (textBytes : Body) : queryInfo × Option DecodeError :=
  match Unmarshal textBytes with
  | .error err => (unknownQueryInfo, some err)
  | .ok respData =>
    let queryParamsStr := ReplaceAll respData.Metadata.CatalogValue semicolon (PathEscape [semicolon])
    match ParseQuery queryParamsStr with
    | (_, some err) => (unknownQueryInfo, some err)
    | (queryParams, none) =>
      let presetsStr := (queryParams.get "preset".toList).getD []
      let isPresetInside := (queryParams.get "preset".toList).isSome
      match checkTokenInside queryParams with
      | (_, some err) => (unknownQueryInfo, some err)
      | (isTokenInside, none) =>
        let qInfo : queryInfo := ⟨respData.Metadata.Name, .unknown, respData.Metadata.CatalogValue, []⟩
        let qInfo := { qInfo with presets := presetsStr }
        let qInfo := { qInfo with category := detectCategory isTokenInside isPresetInside }
        (qInfo, none)

/-- The loop of the method `Run` on the bodies the channel `responseBodies` delivers until
it is closed, and what `Run` returns when the channel `done` is open as the loop ends:
after an error the deferred function then closes `done` and receives the bodies still
coming without looking at them, which leaves the saver as it is. The method for either
state of `done` is `RunDone`. -/
def Run (s : Saver) : List Body → RunResult Error
  | [] => ⟨s, s.writePresets, .ok⟩
  | value :: rest =>
    match parseResponse value with
    | (_, some err) => ⟨s, fun _ => none, .error (.decode err)⟩
    | (qInfo, none) =>
      if qInfo.text = [] ∨ qInfo.filterValue = [] then
        ⟨s, fun _ => none, .error .InvalidEmptyResponse⟩
      else if Contains qInfo.text s.cfg.CsvSeparator then
        ⟨s, fun _ => none, .error (.InvalidResponseSeparator qInfo.text s.cfg.CsvSeparator)⟩
      else if Contains qInfo.filterValue s.cfg.CsvSeparator then
        ⟨s, fun _ => none, .error (.InvalidResponseSeparator qInfo.filterValue s.cfg.CsvSeparator)⟩
      else
        let text := Join [qInfo.text, qInfo.filterValue] s.cfg.CsvSeparator ++ newline
        match s.categoryToWriter qInfo.category with
        | none => ⟨s, fun _ => none, .nilWriterPanic⟩
        | some written =>
          let s := { s with categoryToWriter := s.categoryToWriter.set qInfo.category (written ++ text) }
          Run (s.addPresets qInfo.category qInfo.presets) rest

end Root

/-! ## Definitions used to state the properties -/

/-- The text `_st`. -/
def tokenText : Str := ['_', 's', 't']

/-- Go `strings.Split(s, sep)` for a one-byte `sep`: the pieces of `s` between the
occurrences of `sep`. -/
def Split : Str → Char → List Str
  | [], _ => [[]]
  | c :: s, sep =>
    if c = sep then [] :: Split s sep
    else (c :: (Split s sep).headD []) :: (Split s sep).tail

/-- A string has a malformed percent escape when the scan of `url.unescape` meets a `%`
that is not followed by two hex digits. -/
def badEscape : Str → Bool
  | [] => false
  | c :: s =>
    if c = '%' then
      match s with
      | a :: b :: s' => (!ishex a || !ishex b) || badEscape s'
      | _ => true
    else badEscape s
/-- A string holds an invalid percent escape: a `%` that is not followed by two hex
digits. -/
def InvalidPercentEscape (s : Str) : Prop :=
  ∃ pre post : Str, s = pre ++ '%' :: post ∧
    ∀ (a b : Char) (rest : Str), post = a :: b :: rest → ¬(ishex a = true ∧ ishex b = true)
/-- The decoded key and value of one `&`-separated piece `key=value` of a query string;
`none` for an empty piece and for one that `url.ParseQuery` rejects. -/
def pieceKeyValue (piece : Str) : Option (Str × Str) :=
  if Contains piece [';'] = true ∨ piece = [] then none
  else
    match QueryUnescape (Cut piece '=').1, QueryUnescape (Cut piece '=').2.1 with
    | .ok k, .ok v => some (k, v)
    | _, _ => none

/-- The decoded values that a query string gives to `key`, in their order of appearance. -/
def valuesInOrder (query key : Str) : List Str :=
  (Split query '&').filterMap (fun piece =>
    match pieceKeyValue piece with
    | some kv => if kv.1 = key then some kv.2 else none
    | none => none)

/-- The value list of a key after more values were appended to it. -/
def appendValues (old : Option (List Str)) (more : List Str) : Option (List Str) :=
  if more = [] then old else some (old.getD [] ++ more)

/-- A saver holds a writer and a preset set for every category but Unknown, as the savers
made by `NewSaver` do. -/
def Saver.Ready (s : Saver) : Prop :=
  ∀ c : QueryCategory, c ≠ .unknown →
    (∃ written, s.categoryToWriter c = some written) ∧
    ∃ presetMap, s.categoryToSetPresets c = some presetMap

/-- The record the searchType saver writes for a body: the body parses and its record
passes `validate` under the configuration; `none` for every other body. -/
def SearchType.accepted (cfg : Config) (value : Body) : Option queryInfo :=
  match SearchType.parseResponse value with
  | (info, none) =>
    if SearchType.validate ⟨cfg, fun _ => none, fun _ => none⟩ info = none then some info
    else none
  | (_, some _) => none

/-- The records of a stream that the searchType saver writes for one category, in the
order of the stream. -/
def SearchType.acceptedFor (cfg : Config) (category : QueryCategory) (bodies : List Body) :
    List queryInfo :=
  (bodies.filterMap (SearchType.accepted cfg)).filter (fun info => info.category = category)

/-- The line of a record in a queries file: text, delimiter, filterValue, newline. -/
def recordLine (cfg : Config) (info : queryInfo) : Str :=
  info.text ++ cfg.CsvSeparator ++ info.filterValue ++ ['\n']

/-- The lines of a text: its pieces between newlines, without what follows the last
newline. -/
def textLines (content : Str) : List Str :=
  (Split content '\n').dropLast

/-- Go `strings.Cut(s, sep)` for any `sep`: the text before the first occurrence of `sep`,
the text after it, and whether `sep` was found. -/
def CutString : Str → Str → Str × Str × Bool
  | [], sep => ([], [], sep.isEmpty)
  | c :: s, sep =>
    if sep.isPrefixOf (c :: s) then ([], (c :: s).drop sep.length, true)
    else
      let r := CutString s sep
      (c :: r.1, r.2.1, r.2.2)

/-- Reading a queries file back: the lines after the header line, each cut at the first
occurrence of the delimiter into the text before it and the text after it. -/
def readQueries (content : Str) (delimiter : Str) : List (Str × Str) :=
  ((textLines content).drop 1).map
    (fun line => ((CutString line delimiter).1, (CutString line delimiter).2.1))

/-! ## The executors, `executor/executor.go` and `searchType/executor/executor.go` -/

/-- The method `Set` of `url.Values`: the statement `v[key] = []string{value}`. -/
def Values.Set : Values → Str → Str → Values
  | [], key, value => [(key, [value])]
  | (k, vs) :: rest, key, value =>
    if k = key then (k, [value]) :: rest else (k, vs) :: Values.Set rest key value

/-- The struct `ErrResponse` of the searchType executor, `ResponseError` of the root one;
a field that the body does not have is zero. -/
structure ErrResponse where
  Code : Int
  Error : Str
  deriving DecidableEq

/-- A `resty.Response` as `checkResponse` reads it: what its methods `StatusCode`, `Body`
and `String` return, and what `json.Unmarshal` makes of the body, an error or the
envelope. -/
structure Response where
  StatusCode : Int
  Body : Str
  envelope : Except Str ErrResponse
  String : Str

/-- The method `IsSuccess` of `resty.Response`: the status code is above 199 and below
300. -/
def Response.IsSuccess (resp : Response) : Bool :=
  decide (resp.StatusCode > 199 ∧ resp.StatusCode < 300)

/-- The value of `ctx.Err()` once the context is done. -/
inductive ContextError where
  | Canceled
  | DeadlineExceeded
  deriving DecidableEq

/-- Go `(*errgroup.Group).Wait`: the first error among the results of the functions
started with `Go`, here the one of the earliest started; `none` when none failed. -/
def errgroupWait {ε : Type} (results : List (Option ε)) : Option ε :=
  results.findSome? id

/-- Go `errors.Join`: `none` when every argument is `nil`, else the errors that are not. -/
def errorsJoin {ε : Type} (errs : List (Option ε)) : Option (List ε) :=
  match errs.filterMap id with
  | [] => none
  | err :: more => some (err :: more)

/-- Go `time.Second`, in nanoseconds. -/
def Second : Int := 1000000000

/-- Go `time.NewTicker(d)`: the ticker with period `d`; `none` stands for the panic on a
period that is not positive. -/
def NewTicker (d : Int) : Option Int :=
  if d ≤ 0 then none else some d

/-- The fields of `config.Config` that the validation checks and the executor reads. -/
structure ExecutorConfig where
  Rps : Int
  Timeout : Int
  CountOfRetry : Int
  LogPeriod : Int
  deriving DecidableEq

/-- The errors of the configuration. -/
inductive ConfigError where
  /-- The error of `os.Stat` on the queries path. -/
  | stat (detail : Str)
  /-- The error of `checkURL`. -/
  | url (detail : Str)
  | ErrRps
  | ErrTimeout
  | ErrRetry
  | ErrLoggerPeriod
  deriving DecidableEq

/-- The method `validate` of the searchType `Config`, given what `os.Stat` and `checkURL`
return; the result is the list of the errors joined, empty for `nil`. The root `validate`
makes the same checks on `Rps`, `TimeoutInSec`, `CountOfRetry` and `LogPeriodMilli`. -/
def ExecutorConfig.validate (c : ExecutorConfig) (statErr urlErr : Option ConfigError) :
    List ConfigError :=
  let errSum : List ConfigError := []
  let errSum := match statErr with | some err => errSum ++ [err] | none => errSum
  let errSum := match urlErr with | some err => errSum ++ [err] | none => errSum
  let errSum := if c.Rps ≤ 0 then errSum ++ [.ErrRps] else errSum
  let errSum := if c.Timeout ≤ 0 then errSum ++ [.ErrTimeout] else errSum
  let errSum := if c.CountOfRetry < 0 then errSum ++ [.ErrRetry] else errSum
  let errSum := if c.LogPeriod ≤ 0 then errSum ++ [.ErrLoggerPeriod] else errSum
  errSum

/-- The ticker of `NewQueryExecutor`, `time.NewTicker(time.Second / time.Duration(cfg.Rps))`,
the same in both executors; `none` stands for a panic, of the division by zero or of
`NewTicker`. -/
def NewQueryExecutor (cfg : ExecutorConfig) : Option Int :=
  if cfg.Rps = 0 then none else NewTicker (Second.tdiv cfg.Rps)

/-- What `Run` of an executor leaves behind: for each request it started the parameters
the loop had written into `RawQuery` of the shared URL when it called `Go` (the worker
reads the URL later, see `requestsSent`), the bodies sent on `ResponseBodies`, and the
error it returns. -/
structure ExecResult (ε : Type) where
  requests : List Values
  ResponseBodies : List Str
  err : Option ε

namespace SearchType

/-- The errors of the searchType executor. -/
inductive ExecError where
  /-- An error of the HTTP client. -/
  | transport (detail : Str)
  /-- An error of `json.Unmarshal`. -/
  | json (detail : Str)
  | ErrResponseStatus
  /-- The value of `ErrBadResponseStatus(status, body)`, which wraps `ErrResponseStatus`. -/
  | ErrBadResponseStatus (status : Int) (body : Str)
  /-- The value of `ctx.Err()`. -/
  | context (err : ContextError)
  deriving DecidableEq

/-- The method `checkResponse`: the body and the error it returns. -/
def checkResponse (resp : Response) : Option Str × Option ExecError :=
  let body := resp.Body
  let status := resp.StatusCode
  if !resp.IsSuccess then (none, some (.ErrBadResponseStatus status resp.String))
  else
    match resp.envelope with
    | .error err => (none, some (.json err))
    | .ok rErr =>
      if rErr.Code ≠ 0 then (none, some (.ErrBadResponseStatus rErr.Code rErr.Error))
      else (some body, none)

/-- What the `select` of `waitLimiterAllowed` receives: a tick of the rate limiter, or the
end of the context. -/
inductive Wait where
  | tick
  | done (err : ContextError)
  deriving DecidableEq

/-- The method `waitLimiterAllowed`. -/
def waitLimiterAllowed : Wait → Option ExecError
  | .tick => none
  | .done err => some (.context err)

/-- A query of the input stream with what happens around it: what the limiter wait before
it receives, what the HTTP client returns for its request, and whether the context ends
before the body can be sent on `ResponseBodies`. -/
structure Query where
  query : Str
  wait : Wait
  reply : Except Str Response
  sendCancelled : Option ContextError

/-- The method `do`: the body it sends on `ResponseBodies`, if any, and the error it
returns. -/
def doRequest (reply : Except Str Response) (sendCancelled : Option ContextError) :
    Option Str × Option ExecError :=
  match reply with
  | .error err => (none, some (.transport err))
  | .ok response =>
    match checkResponse response with
    | (_, some err) => (none, some err)
    | (body, none) =>
      match sendCancelled with
      | some err => (none, some (.context err))
      | none => (body, none)

/-- The loop of `Run`: the requests it starts, each with the parameters `q` as they are
after `q.Set`, which the loop writes into `RawQuery` of the shared URL before it calls
`Go`, and the error it returns with. -/
def runLoop (q : Values) : List Query → List (Values × Query) × Option ExecError
  | [] => ([], none)
  | query :: rest =>
    match waitLimiterAllowed query.wait with
    | some errLimiter => ([], some errLimiter)
    | none =>
      let q := q.Set "query".toList query.query
      let r := runLoop q rest
      ((q, query) :: r.1, r.2)

/-- The method `Run` on the queries the channel `queries` delivers, from the parameters
`q` of `ExtendMatchURL`; the deferred function joins the error of the group with the one
of the loop. -/
def QueryExecutorRun (q : Values) (queries : List Query) : ExecResult (List ExecError) :=
  let started := runLoop q queries
  let results := started.1.map (fun job => doRequest job.2.reply job.2.sendCancelled)
  ⟨started.1.map (fun job => job.1),
    results.filterMap (fun r => r.1),
    errorsJoin [errgroupWait (results.map (fun r => r.2)), started.2]⟩

end SearchType

namespace Root

/-- The errors of the root executor. -/
inductive ExecError where
  /-- An error of the HTTP client. -/
  | transport (detail : Str)
  /-- An error of `json.Unmarshal`. -/
  | json (detail : Str)
  /-- The value of `BadResponseError(status, text)`. -/
  | BadResponseError (status : Int) (text : Str)
  /-- The value of `errors.New(rErr.Error)`. -/
  | message (text : Str)
  deriving DecidableEq

/-- The method `checkResponse`: the body and the error it returns. -/
def checkResponse (resp : Response) : Option Str × Option ExecError :=
  let body := resp.Body
  if resp.StatusCode.tdiv 100 ≠ 2 then (none, some (.BadResponseError resp.StatusCode body))
  else
    match resp.envelope with
    | .error err => (none, some (.json err))
    | .ok rErr =>
      if rErr.Code ≠ 0 then (none, some (.message rErr.Error))
      else (some body, none)

/-- What the `select` of the inner loop of `Run` receives: a tick of the rate limiter, or
the closed channel `done`. -/
inductive Wait where
  | tick
  | done
  deriving DecidableEq

/-- A query of the input stream with what happens around it: what the `select` before it
receives and what the HTTP client returns for its request. -/
structure Query where
  query : Str
  wait : Wait
  reply : Except Str Response

/-- The method `do`: the body it sends on `ResponseBodies`, if any, and the error it
returns. -/
def doRequest (reply : Except Str Response) : Option Str × Option ExecError :=
  match reply with
  | .error err => (none, some (.transport err))
  | .ok response =>
    match checkResponse response with
    | (_, some err) => (none, some err)
    | (body, none) => (body, none)

/-- The loop `loopTasks` of `Run`: the requests it starts, each with the parameters `q` as
they are after `q.Set`, which the loop writes into `RawQuery` of the shared URL before it
calls `Go`. -/
def runLoop (q : Values) : List Query → List (Values × Query)
  | [] => []
  | query :: rest =>
    match query.wait with
    | .done => runLoop q rest
    | .tick =>
      let q := q.Set "query".toList query.query
      (q, query) :: runLoop q rest

/-- The method `Run` on the queries the channel `queries` delivers, from the parameters
`q` of `ExtendMatchUrl`; the deferred function makes the error of the group the result. -/
def QueryExecutorRun (q : Values) (queries : List Query) : ExecResult ExecError :=
  let started := runLoop q queries
  let results := started.map (fun job => doRequest job.2.reply)
  ⟨started.map (fun job => job.1),
    results.filterMap (fun r => r.1),
    errgroupWait (results.map (fun r => r.2))⟩

end Root

/-- The parameters the requests of `Run` carry, in both executors. The function handed to
`Go` evaluates the URL, `w.cfg.ExtendMatchURL.String()`, when the worker runs, not when
`Go` is called, and the loop may by then have written the parameters of later queries
into `RawQuery`. Given the parameters the loop writes before each call of `Go`, in order,
and for each worker the number of later writes that come before it reads the URL (none
when the list gives no number), the parameters each request is sent with. -/
def requestsSent : List Values → List Nat → List Values
  | [], _ => []
  | q :: later, overwrites =>
    (q :: later).getD (min (overwrites.headD 0) later.length) q ::
      requestsSent later overwrites.tail

/-! ## The visualizer reader, `queryVisualizer/reader/reader.go` -/

/-- What `Read` makes of a record of the file after the header line: the record it sends
on `lines`, the second column with every `;` escaped, or the error
`ErrBadNumberOfColumns` with the number of columns of a record that has not two. -/
def readRecord (record : List Str) : Except Nat (List Str) :=
  match record with
  | [text, query] => .ok [text, ReplaceAll query semicolon (PathEscape [semicolon])]
  | _ => .error record.length

/-! ## The shutdown of the root pipeline, `signal/signal.go`, `saver/saver.go`, `main.go` -/

/-- Go `close(c)` on a channel of which it is given whether it is closed: the channel
after it, `none` standing for the panic of closing a closed channel. -/
def closeChannel (closed : Bool) : Option Bool :=
  if closed then none else some true

/-- The method `Run` of the root saver, given whether the channel `done` is closed already
as its loop ends, as it is after an interrupt signal. When the loop ends with an error,
the deferred function calls `close(s.done)` first: on a closed `done` that panics, the
error is not returned, and `flushAll` and `closeAll` do not run, so that what the writers
hold in their buffers does not reach the files. -/
def Root.RunDone (s : Saver) (done : Bool) (bodies : List Body) : RunResult Root.Error :=
  match (Root.Run s bodies).outcome with
  | .error _ =>
    match closeChannel done with
    | none => { Root.Run s bodies with outcome := .closedChannelPanic }
    | some _ => Root.Run s bodies
  | _ => Root.Run s bodies

/-- The events of the root pipeline that touch the channel `Done`. -/
inductive ShutdownEvent where
  /-- The signal SIGINT or SIGTERM arrives on `sigint`. -/
  | interrupt
  /-- The method `Run` of the saver returns an error. -/
  | saverFatal
  /-- The function `main` calls `SignalProcessing.Stop`, after `chain.run()` has returned. -/
  | Stop
  deriving DecidableEq

/-- The root pipeline as far as the channel `Done` goes: whether `Done` is closed, whether
the goroutine `run` of `SignalProcessing` is in its loop, and whether `Run` of the saver
has yet to return. The goroutine `run`, which waits in its `select`, leaves the loop as
soon as `Done` is closed. -/
structure RootPipeline where
  Done : Bool
  signalLoop : Bool
  saverRunning : Bool
  deriving DecidableEq

namespace RootPipeline

/-- The pipeline `main` starts: `Done` open, the goroutine `run` and the saver running. -/
def start : RootPipeline := ⟨false, true, true⟩

/-- The case `sig := <-sigint` of the loop of `run`: `close(s.Done)` and `break loop`. A
signal that arrives after `run` has left the loop is received by nobody. -/
def interrupt (p : RootPipeline) : Option RootPipeline :=
  if p.signalLoop then
    (closeChannel p.Done).map (fun d => { p with Done := d, signalLoop := false })
  else some p

/-- The deferred function of `Saver.Run` when `err != nil`: `close(s.done)`. It runs as
`Run` returns, so once at most. -/
def saverFatal (p : RootPipeline) : Option RootPipeline :=
  if p.saverRunning then
    (closeChannel p.Done).map
      (fun d => { p with Done := d, signalLoop := false, saverRunning := false })
  else some p

/-- The method `Stop`: `Done` is closed unless it is closed already, then `s.wg.Wait()`
waits for `run` to return. The function `main` calls it when the stages have returned. -/
def Stop (p : RootPipeline) : Option RootPipeline :=
  if p.Done then some { p with signalLoop := false, saverRunning := false }
  else
    (closeChannel p.Done).map
      (fun d => { p with Done := d, signalLoop := false, saverRunning := false })

/-- One event. -/
def step (p : RootPipeline) : ShutdownEvent → Option RootPipeline
  | .interrupt => p.interrupt
  | .saverFatal => p.saverFatal
  | .Stop => p.Stop

/-- A sequence of events from the state `p`: the state it leaves, `none` when one of the
events closed the closed channel. -/
def run (p : RootPipeline) : List ShutdownEvent → Option RootPipeline
  | [] => some p
  | e :: es =>
    match p.step e with
    | none => none
    | some p' => run p' es

end RootPipeline

/-! ## The worker group of the executors, `golang.org/x/sync/errgroup` -/

/-- An `errgroup.Group` as far as its workers go: the capacity of the semaphore `sem`,
`none` for a group without one, and the number of goroutines started by `Go` that have not
returned. -/
structure Group where
  sem : Option Nat
  active : Nat
  deriving DecidableEq

/-- The zero `errgroup.Group`, as `errgroup.WithContext` makes it too. -/
def Group.zero : Group := ⟨none, 0⟩

/-- The method `SetLimit`: a negative `n` means no limit. -/
def Group.SetLimit (g : Group) (n : Int) : Group :=
  if n < 0 then { g with sem := none } else { g with sem := some n.toNat }

/-- What happens to the workers of a group: `Run` calls `Go`, which starts a worker, or a
worker returns. -/
inductive GroupEvent where
  | Go
  | workerReturns
  deriving DecidableEq

/-- One event on a group; `none` when the event cannot happen in the state: `Go` blocks
while the semaphore is full, and no worker returns when none is active. -/
def Group.step (g : Group) : GroupEvent → Option Group
  | .Go =>
    match g.sem with
    | some n => if g.active < n then some { g with active := g.active + 1 } else none
    | none => some { g with active := g.active + 1 }
  | .workerReturns => if g.active = 0 then none else some { g with active := g.active - 1 }

/-- A sequence of events on a group: the state it leaves, `none` when it cannot happen. -/
def Group.run (g : Group) : List GroupEvent → Option Group
  | [] => some g
  | e :: es =>
    match g.step e with
    | none => none
    | some g' => Group.run g' es

/-- The group of `Run` of the searchType executor: `errgroup.WithContext(ctx)`, then
`errGroup.SetLimit(w.cfg.GoErrGroupLimiter)`. -/
def SearchType.errGroup (GoErrGroupLimiter : Int) : Group :=
  Group.zero.SetLimit GoErrGroupLimiter

/-- The group of `Run` of the root executor: `errgroup.Group{}`, on which no limit is
set. -/
def Root.errGroup : Group := Group.zero

/-! ## The visualizer executor, `queryVisualizer/executor/executor.go` -/

namespace Visualizer

/-- The constant `badPresetMsg`. -/
def badPresetMsg : Str := "preset param malformed".toList

/-- The errors a worker of the visualizer executor meets. -/
inductive Error where
  | ErrEmptyResponse
  | ErrResponseStatus
  | ErrNoOnBucket
  /-- The value of `ErrBadResponseStatus(status, body)`, which wraps `ErrResponseStatus`. -/
  | ErrBadResponseStatus (status : Int) (body : Str)
  /-- The error `processQuery` makes for a malformed preset, which wraps `ErrNoOnBucket`;
  its message names the values of the parameter `preset`. -/
  | noOnBucket (preset : List Str)
  /-- The value of `customerror.ErrWrapStack(functionName, err)`, which wraps `err`; the
  function name is `fmt.Sprintf("processQuery for %q", text)`, of which `text` is kept. -/
  | ErrWrapStack (text : Str) (err : Error)
  /-- The error of `url.ParseQuery`. -/
  | decode (e : DecodeError)
  /-- The value of `ctx.Err()`. -/
  | context (e : ContextError)
  /-- An error of the HTTP client, `json.Unmarshal`, the file system or the screenshot
  maker. -/
  | other (detail : Str)
  deriving DecidableEq

/-- Go `errors.Is(err, target)` on these errors. -/
def Error.Is : Error → Error → Bool
  | .ErrWrapStack text err, target =>
    decide (Error.ErrWrapStack text err = target) || Error.Is err target
  | .ErrBadResponseStatus status body, target =>
    decide (Error.ErrBadResponseStatus status body = target) ||
      decide (target = .ErrResponseStatus)
  | .noOnBucket preset, target =>
    decide (Error.noOnBucket preset = target) || decide (target = .ErrNoOnBucket)
  | err, target => decide (err = target)

/-- The struct `Product`; the number `ID`, a `float64`, is taken whole. -/
structure Product where
  ID : Int
  deriving DecidableEq

/-- A `resty.Response` as `processQuery` reads it: what its methods `StatusCode` and `Body`
return, and what `json.Unmarshal` makes of the body, an error or the products of
`Response.Data.Products`. -/
structure BucketResponse where
  StatusCode : Int
  Body : Str
  Products : Except Str (List Product)

/-- The method `String` of `resty.Response`: the body without its leading and trailing
white space. -/
def BucketResponse.String (resp : BucketResponse) : Str :=
  TrimSpace resp.Body

/-- The method `IsSuccess` of `resty.Response`. -/
def BucketResponse.IsSuccess (resp : BucketResponse) : Bool :=
  decide (resp.StatusCode > 199 ∧ resp.StatusCode < 300)

/-- Go `http.StatusBadRequest`. -/
def StatusBadRequest : Int := 400

/-- What a worker meets on one line of the reader: the text and the query of the line, how
the wait for the limiter ends (`none` for a tick), what `Get` returns, and the errors of
`os.MkdirAll`, of writing the cards file, and of `MakeScreenshot`. -/
structure Line where
  text : Str
  query : Str
  wait : Option ContextError
  reply : Except Str BucketResponse
  mkdirAll : Option Str
  cardsFile : Option Str
  screenshot : Option Str

/-- The method `doWeIgnoreTheseMistakes`. -/
def doWeIgnoreTheseMistakes (err : Option Error) : Bool :=
  match err with
  | none => false
  | some err => err.Is .ErrNoOnBucket || err.Is .ErrEmptyResponse

/-- The method `validateData`. -/
def validateData (resp : BucketResponse) : Option Error :=
  match resp.Products with
  | .error detail => some (.other detail)
  | .ok products => if products.length = 0 then some .ErrEmptyResponse else none

/-- The method `writePresets`, of which the error is kept. -/
def writePresets (line : Line) (resp : BucketResponse) : Option Error :=
  match validateData resp with
  | some errValidation => some errValidation
  | none => line.cardsFile.map .other

/-- The method `process`. -/
def process (line : Line) (resp : BucketResponse) : Option Error :=
  match line.mkdirAll with
  | some detail => some (.other detail)
  | none =>
    match writePresets line resp with
    | some err => some err
    | none => line.screenshot.map .other

/-- The body of `processQuery`, before its deferred function. -/
def processQueryBody (line : Line) : Option Error :=
  match ParseQuery line.query with
  | (_, some err) => some (.decode err)
  | (queryParams, none) =>
    match line.wait with
    | some errLimiter => some (.context errLimiter)
    | none =>
      match line.reply with
      | .error detail => some (.other detail)
      | .ok response =>
        if !response.IsSuccess then
          if response.StatusCode = StatusBadRequest ∧ response.String = badPresetMsg then
            some (.noOnBucket ((queryParams.get "preset".toList).getD []))
          else some (.ErrBadResponseStatus response.StatusCode response.String)
        else process line response

/-- The method `processQuery`: the deferred function wraps an error with `ErrWrapStack`. -/
def processQuery (line : Line) : Option Error :=
  (processQueryBody line).map (.ErrWrapStack line.text)

/-- The function `Run` hands to `errGroup.Go` for a line. -/
def worker (line : Line) : Option Error :=
  let errProcess := processQuery line
  if !doWeIgnoreTheseMistakes errProcess then errProcess else none

end Visualizer

/-! ## Package `regexp`: what the token patterns match -/

open RegularExpression

theorem Regexp.range_zero_nine : Regexp.range '0' 9 = Regexp.perlDigit := rfl

theorem isDigit_cases (d : Char) (h : d.isDigit = true) :
    d = '0' ∨ d = '1' ∨ d = '2' ∨ d = '3' ∨ d = '4' ∨ d = '5' ∨ d = '6' ∨ d = '7' ∨ d = '8' ∨ d = '9' := by
  have h1 : 48 ≤ d.toNat ∧ d.toNat ≤ 57 := by
    simp [Char.isDigit] at h
    exact ⟨h.1, h.2⟩
  obtain ⟨lo, hi⟩ := h1
  have key : d = Char.ofNat d.toNat := (Char.ofNat_toNat d).symm
  generalize d.toNat = n at lo hi key
  subst key
  interval_cases n <;> decide

theorem mem_perlDigit (x : Str) :
    x ∈ Regexp.perlDigit.matches' ↔ ∃ d : Char, x = [d] ∧ d.isDigit = true := by
  simp only [Regexp.perlDigit, matches'_add, matches'_char, Language.mem_add]
  constructor
  · intro h
    rcases h with ((((((((h | h) | h) | h) | h) | h) | h) | h) | h) | h <;>
      exact ⟨_, h, by decide⟩
  · rintro ⟨d, rfl, hd⟩
    rcases isDigit_cases d hd with h | h | h | h | h | h | h | h | h | h <;> subst h <;>
      repeat (first | exact rfl | exact Or.inr rfl | apply Or.inl)

theorem tokenPatternPerl_matches (p : Str) (hp : p ∈ tokenPatternPerl.matches') :
    ∃ (d : Char) (ds : Str), p = tokenText ++ d :: ds ∧ d.isDigit = true := by
  simp only [tokenPatternPerl, Regexp.plus, matches'_mul, matches'_char, Language.mem_mul] at hp
  obtain ⟨x, ⟨y, ⟨z, hz, w, hw, rfl⟩, v, hv, rfl⟩, q, ⟨e, he, r, -, rfl⟩, rfl⟩ := hp
  obtain ⟨d, rfl, hd⟩ := (mem_perlDigit e).1 he
  cases hz; cases hw; cases hv
  exact ⟨d, r, rfl, hd⟩

theorem tokenPatternPerl_matches_one (d : Char) (hd : d.isDigit = true) :
    tokenText ++ [d] ∈ tokenPatternPerl.matches' := by
  simp only [tokenPatternPerl, Regexp.plus, matches'_mul, matches'_char, matches'_star,
    Language.mem_mul]
  refine ⟨tokenText, ⟨['_', 's'], ⟨['_'], rfl, ['s'], rfl, rfl⟩, ['t'], rfl, rfl⟩, [d],
    ⟨[d], (mem_perlDigit _).2 ⟨d, rfl, hd⟩, [], Language.nil_mem_kstar _, rfl⟩, rfl⟩

theorem MatchString_iff (re : Regexp) (s : Str) :
    MatchString re s = true ↔ ∃ pre p post, s = pre ++ p ++ post ∧ p ∈ re.matches' := by
  simp only [MatchString, List.any_eq_true, List.mem_tails, List.mem_inits, rmatch_iff_matches']
  constructor
  · rintro ⟨t, ⟨pre, rfl⟩, p, ⟨post, rfl⟩, hp⟩
    exact ⟨pre, p, post, by simp, hp⟩
  · rintro ⟨pre, p, post, rfl, hp⟩
    exact ⟨p ++ post, ⟨pre, by simp⟩, p, ⟨post, rfl⟩, hp⟩

theorem MatchString_tokenPatternPerl (s : Str) :
    MatchString tokenPatternPerl s = true ↔
      ∃ (pre : Str) (d : Char) (post : Str), s = pre ++ tokenText ++ d :: post ∧ d.isDigit = true := by
  rw [MatchString_iff]
  constructor
  · rintro ⟨pre, p, post, rfl, hp⟩
    obtain ⟨d, ds, rfl, hd⟩ := tokenPatternPerl_matches p hp
    exact ⟨pre, d, ds ++ post, by simp, hd⟩
  · rintro ⟨pre, d, post, rfl, hd⟩
    exact ⟨pre, tokenText ++ [d], post, by simp, tokenPatternPerl_matches_one d hd⟩

theorem MatchString_tokenPatternRange (s : Str) :
    MatchString tokenPatternRange s = MatchString tokenPatternPerl s := by
  simp only [tokenPatternRange, tokenPatternPerl, Regexp.range_zero_nine]

theorem SearchType.checkTokenInside_eq_any (queryParams : Values) :
    SearchType.checkTokenInside queryParams =
      queryParams.any (fun e => decide (e.2 ≠ []) && MatchString tokenPatternPerl e.1) := by
  induction queryParams with
  | nil => rfl
  | cons e rest ih =>
    obtain ⟨name, values⟩ := e
    cases values with
    | nil => simp [SearchType.checkTokenInside, ih]
    | cons v vs =>
      by_cases h : MatchString tokenPatternPerl name = true
      · simp [SearchType.checkTokenInside, h]
      · simp [SearchType.checkTokenInside, h, ih]

theorem Root.checkTokenInside_eq (queryParams : Values) :
    Root.checkTokenInside queryParams = (SearchType.checkTokenInside queryParams, none) := by
  induction queryParams with
  | nil => rfl
  | cons e rest ih =>
    obtain ⟨name, values⟩ := e
    cases values with
    | nil => simp [Root.checkTokenInside, SearchType.checkTokenInside, ih]
    | cons v vs =>
      by_cases h : MatchString tokenPatternPerl name = true
      · simp [Root.checkTokenInside, SearchType.checkTokenInside, Root.regexpMatchString,
          MatchString_tokenPatternRange, h]
      · simp [Root.checkTokenInside, SearchType.checkTokenInside, Root.regexpMatchString,
          MatchString_tokenPatternRange, h, ih]

/-! ## Package `net/url`: what `ParseQuery` computes -/

theorem Cut_found (s : Str) (sep : Char) (h : (Cut s sep).2.2 = true) :
    s = (Cut s sep).1 ++ sep :: (Cut s sep).2.1 := by
  induction s with
  | nil => simp [Cut] at h
  | cons c s ih =>
    by_cases hc : c = sep
    · simp [Cut, hc]
    · simp only [Cut, hc, if_false] at h ⊢
      simpa using ih h

theorem Cut_not_found (s : Str) (sep : Char) (h : (Cut s sep).2.2 = false) :
    (Cut s sep).1 = s ∧ (Cut s sep).2.1 = [] := by
  induction s with
  | nil => simp [Cut]
  | cons c s ih =>
    by_cases hc : c = sep
    · simp [Cut, hc] at h
    · simp only [Cut, hc, if_false] at h ⊢
      simpa using ih h

theorem Cut_length (s : Str) (sep : Char) (hs : s ≠ []) :
    (Cut s sep).2.1.length < s.length := by
  by_cases h : (Cut s sep).2.2 = true
  · have := congrArg List.length (Cut_found s sep h)
    simp at this
    omega
  · have := Cut_not_found s sep (by simpa using h)
    rw [this.2]
    exact List.length_pos.2 hs

theorem Split_eq_Cut (s : Str) (sep : Char) :
    Split s sep =
      (Cut s sep).1 :: (if (Cut s sep).2.2 = true then Split (Cut s sep).2.1 sep else []) := by
  induction s with
  | nil => simp [Split, Cut]
  | cons c s ih =>
    by_cases hc : c = sep
    · simp [Split, Cut, hc]
    · simp only [Split, Cut, hc, if_false]
      rw [ih]
      simp

theorem parseQueryStep_nil (m : Values) (err : Option DecodeError) :
    parseQueryStep m err [] = (m, err) := by
  simp [parseQueryStep, Contains]

theorem parseQueryLoop_nil (fuel : Nat) (m : Values) (err : Option DecodeError) :
    parseQueryLoop fuel m [] err = (m, err) := by
  cases fuel <;> simp [parseQueryLoop]

theorem parseQueryLoop_eq_foldl (fuel : Nat) (m : Values) (query : Str) (err : Option DecodeError)
    (h : query.length ≤ fuel) :
    parseQueryLoop fuel m query err =
      (Split query '&').foldl (fun acc key => parseQueryStep acc.1 acc.2 key) (m, err) := by
  induction fuel generalizing m query err with
  | zero =>
    have : query = [] := List.length_eq_zero.1 (Nat.le_zero.1 h)
    subst this
    simp [parseQueryLoop, Split, parseQueryStep_nil]
  | succ fuel ih =>
    by_cases hq : query = []
    · subst hq
      simp [parseQueryLoop, Split, parseQueryStep_nil]
    · have hlen := Cut_length query '&' hq
      rw [Split_eq_Cut]
      simp only [parseQueryLoop, hq, if_false, List.foldl_cons]
      by_cases hf : (Cut query '&').2.2 = true
      · rw [if_pos hf]
        exact ih _ _ _ (by omega)
      · rw [if_neg hf, (Cut_not_found query '&' (by simpa using hf)).2, parseQueryLoop_nil]
        simp

theorem badEscape_cons_ne (c : Char) (s : Str) (h : c ≠ '%') :
    badEscape (c :: s) = badEscape s := by
  rw [badEscape.eq_def]; simp [h]

theorem unescapeScan_cons_ne (c : Char) (s : Str) (n : Nat) (hasPlus : Bool) (h : c ≠ '%') :
    unescapeScan (c :: s) n hasPlus =
      if c = '+' then unescapeScan s n true else unescapeScan s n hasPlus := by
  rw [unescapeScan.eq_def]; simp [h]

theorem unescapeScan_of_badEscape (s : Str) (n : Nat) (hasPlus : Bool) :
    (badEscape s = true → ∃ e, unescapeScan s n hasPlus = .error e) ∧
    (badEscape s = false → ∃ r, unescapeScan s n hasPlus = .ok r) := by
  induction s, n, hasPlus using unescapeScan.induct with
  | case1 n hasPlus => simp [badEscape, unescapeScan]
  | case2 n hasPlus a b s' h => simp [badEscape, unescapeScan, h]
  | case3 n hasPlus a b s' h ih => simpa [badEscape, unescapeScan, h] using ih
  | case4 s n hasPlus h =>
    match s, h with
    | [], _ => simp [badEscape, unescapeScan]
    | [a], _ => simp [badEscape, unescapeScan]
    | a :: b :: s', h => exact absurd rfl (fun e => h a b s' e)
  | case5 s n hasPlus h ih => simpa [badEscape_cons_ne _ _ h, unescapeScan_cons_ne _ _ _ _ h] using ih
  | case6 c s n hasPlus h1 h2 ih =>
    simpa [badEscape_cons_ne _ _ h1, unescapeScan_cons_ne _ _ _ _ h1, h2] using ih

theorem QueryUnescape_of_badEscape (s : Str) :
    (badEscape s = true → ∃ e, QueryUnescape s = .error e) ∧
    (badEscape s = false → ∃ v, QueryUnescape s = .ok v) := by
  constructor
  · intro h
    obtain ⟨e, he⟩ := (unescapeScan_of_badEscape s 0 false).1 h
    exact ⟨e, by simp [QueryUnescape, he]⟩
  · intro h
    obtain ⟨⟨n, p⟩, hr⟩ := (unescapeScan_of_badEscape s 0 false).2 h
    simp only [QueryUnescape, hr]
    split_ifs
    · exact ⟨_, rfl⟩
    · exact ⟨_, rfl⟩

theorem badEscape_append_sep (x y : Str) (c : Char) (h1 : ishex c = false) (h2 : c ≠ '%') :
    badEscape (x ++ c :: y) = (badEscape x || badEscape y) := by
  induction x using badEscape.induct with
  | case1 => simp [badEscape_cons_ne _ _ h2, badEscape]
  | case2 a b s' ih => simp [badEscape, ih, Bool.or_assoc]
  | case3 s h =>
    match s, h with
    | [], _ => cases y <;> simp [badEscape, h1]
    | [a], _ => simp [badEscape, h1]
    | a :: b :: s', h => exact absurd rfl (fun e => h a b s' e)
  | case4 d s hd ih => simp [badEscape_cons_ne _ _ hd, ih]

theorem badEscape_percent_two (a b : Char) (s : Str) :
    badEscape ('%' :: a :: b :: s) = ((!ishex a || !ishex b) || badEscape s) := by
  rw [badEscape.eq_def]; simp

theorem badEscape_of_invalid (pre post : Str)
    (h : ∀ (a b : Char) (rest : Str), post = a :: b :: rest → ¬(ishex a = true ∧ ishex b = true)) :
    badEscape (pre ++ '%' :: post) = true := by
  induction pre using badEscape.induct with
  | case1 =>
    match post, h with
    | [], _ => simp [badEscape]
    | [a], _ => simp [badEscape]
    | a :: b :: rest, h =>
      have := h a b rest rfl
      rw [List.nil_append, badEscape_percent_two]
      cases ha : ishex a <;> cases hb : ishex b <;> simp_all
  | case2 a b s' ih =>
    rw [List.cons_append, List.cons_append, List.cons_append, badEscape_percent_two, ih]
    simp
  | case3 s hs =>
    match s, hs with
    | [], _ =>
      cases post with
      | nil => simp [badEscape]
      | cons b rest =>
        show badEscape ('%' :: '%' :: b :: rest) = true
        rw [badEscape_percent_two]
        simp [show ishex '%' = false by decide]
    | [a], _ =>
      show badEscape ('%' :: a :: '%' :: post) = true
      rw [badEscape_percent_two]
      simp [show ishex '%' = false by decide]
    | a :: b :: s', hs => exact absurd rfl (fun e => hs a b s' e)
  | case4 c s hc ih => rw [List.cons_append, badEscape_cons_ne _ _ hc, ih]

theorem badEscape_iff (s : Str) : badEscape s = true ↔ InvalidPercentEscape s := by
  constructor
  · intro h
    induction s using badEscape.induct with
    | case1 => simp [badEscape] at h
    | case2 a b s' ih =>
      rw [badEscape_percent_two] at h
      by_cases hab : (!ishex a || !ishex b) = true
      · refine ⟨[], a :: b :: s', rfl, ?_⟩
        intro a' b' rest e
        simp only [List.cons.injEq] at e
        obtain ⟨rfl, rfl, -⟩ := e
        cases ha : ishex a <;> cases hb : ishex b <;> simp_all
      · have h' : badEscape s' = true := by simpa [hab] using h
        obtain ⟨pre, post, rfl, hp⟩ := ih h'
        exact ⟨'%' :: a :: b :: pre, post, rfl, hp⟩
    | case3 s hs => exact ⟨[], s, rfl, fun a b rest e => absurd e (fun e => hs a b rest e)⟩
    | case4 c s hc ih =>
      rw [badEscape_cons_ne _ _ hc] at h
      obtain ⟨pre, post, rfl, hp⟩ := ih h
      exact ⟨c :: pre, post, rfl, hp⟩
  · rintro ⟨pre, post, rfl, hp⟩
    exact badEscape_of_invalid pre post hp

theorem Contains_singleton (s : Str) (c : Char) : Contains s [c] = true ↔ c ∈ s := by
  induction s with
  | nil => simp [Contains, List.isPrefixOf]
  | cons d s ih =>
    simp only [Contains, List.isPrefixOf, Bool.or_eq_true, ih, List.mem_cons, Bool.and_eq_true,
      beq_iff_eq]
    constructor
    · rintro (⟨h, -⟩ | h)
      · exact Or.inl h
      · exact Or.inr h
    · rintro (h | h)
      · exact Or.inl ⟨h, by cases s <;> trivial⟩
      · exact Or.inr h

theorem ReplaceAll_not_mem (s : Str) (old : Char) (new : Str) (h : old ∉ new) :
    old ∉ ReplaceAll s old new := by
  induction s with
  | nil => simp [ReplaceAll]
  | cons c s ih =>
    by_cases hc : c = old
    · simp [ReplaceAll, hc, h, ih]
    · simp [ReplaceAll, hc, ih, Ne.symm hc]

theorem mem_of_mem_Split (s : Str) (sep c : Char) (piece : Str)
    (hp : piece ∈ Split s sep) (hc : c ∈ piece) : c ∈ s := by
  induction s generalizing piece with
  | nil => simp [Split] at hp; subst hp; simp at hc
  | cons d s ih =>
    by_cases hd : d = sep
    · simp only [Split, hd, if_true, List.mem_cons] at hp
      rcases hp with rfl | hp
      · simp at hc
      · exact List.mem_cons_of_mem _ (ih piece hp hc)
    · simp only [Split, hd, if_false, List.mem_cons] at hp
      rcases hp with rfl | hp
      · rcases List.mem_cons.1 hc with rfl | hc
        · exact List.mem_cons_self _ _
        · cases hS : Split s sep with
          | nil => simp [hS] at hc
          | cons x xs =>
            rw [hS] at hc
            exact List.mem_cons_of_mem _ (ih x (by simp [hS]) (by simpa using hc))
      · exact List.mem_cons_of_mem _ (ih piece (List.mem_of_mem_tail hp) hc)

theorem badEscape_Cut (s : Str) (sep : Char) (h1 : ishex sep = false) (h2 : sep ≠ '%') :
    badEscape s = (badEscape (Cut s sep).1 || badEscape (Cut s sep).2.1) := by
  by_cases hf : (Cut s sep).2.2 = true
  · conv_lhs => rw [Cut_found s sep hf]
    exact badEscape_append_sep _ _ _ h1 h2
  · have := Cut_not_found s sep (by simpa using hf)
    rw [this.1, this.2]
    simp [badEscape]

theorem badEscape_Split (n : Nat) (s : Str) (hn : s.length ≤ n) :
    (Split s '&').any badEscape = badEscape s := by
  induction n generalizing s with
  | zero =>
    have : s = [] := List.length_eq_zero.1 (Nat.le_zero.1 hn)
    subst this
    simp [Split, badEscape]
  | succ n ih =>
    by_cases hs : s = []
    · subst hs
      simp [Split, badEscape]
    · rw [Split_eq_Cut, badEscape_Cut s '&' (by decide) (by decide)]
      by_cases hf : (Cut s '&').2.2 = true
      · rw [if_pos hf, List.any_cons, ih _ (by have := Cut_length s '&' hs; omega)]
      · rw [if_neg hf, (Cut_not_found s '&' (by simpa using hf)).2]
        simp [badEscape]

theorem parseQueryStep_error (m : Values) (err : Option DecodeError) (key : Str)
    (hk : ';' ∉ key) :
    (parseQueryStep m err key).2 = none ↔ err = none ∧ badEscape key = false := by
  have hc : ¬ Contains key [';'] = true := fun h => hk ((Contains_singleton _ _).1 h)
  by_cases hkey : key = []
  · subst hkey
    simp [parseQueryStep_nil, badEscape]
  · rw [badEscape_Cut key '=' (by decide) (by decide)]
    simp only [parseQueryStep, hc, hkey, if_false]
    cases h1 : badEscape (Cut key '=').1
    · obtain ⟨k, hk1⟩ := (QueryUnescape_of_badEscape _).2 h1
      cases h2 : badEscape (Cut key '=').2.1
      · obtain ⟨v, hv⟩ := (QueryUnescape_of_badEscape _).2 h2
        simp [hk1, hv]
      · obtain ⟨e, he⟩ := (QueryUnescape_of_badEscape _).1 h2
        simp [hk1, he]
        cases err <;> simp
    · obtain ⟨e, he⟩ := (QueryUnescape_of_badEscape _).1 h1
      simp [he]
      cases err <;> simp

theorem parseQuery_foldl_error (pieces : List Str) (m : Values) (err : Option DecodeError)
    (hp : ∀ piece ∈ pieces, ';' ∉ piece) :
    (pieces.foldl (fun acc key => parseQueryStep acc.1 acc.2 key) (m, err)).2 = none ↔
      err = none ∧ pieces.any badEscape = false := by
  induction pieces generalizing m err with
  | nil => simp
  | cons p ps ih =>
    rw [List.foldl_cons, ih _ _ (fun q hq => hp q (List.mem_cons_of_mem _ hq)),
      parseQueryStep_error m err p (hp p (List.mem_cons_self _ _))]
    simp [and_assoc]

theorem ParseQuery_of_within (query : Str) (h : Count query '&' + 1 ≤ defaultMaxParams) :
    ParseQuery query = parseQueryLoop query.length [] query none := by
  simp [ParseQuery, urlParamsWithinMax, h]

theorem ParseQuery_of_exceeded (query : Str) (h : defaultMaxParams < Count query '&' + 1) :
    ParseQuery query = ([], some .tooManyParameters) := by
  simp [ParseQuery, urlParamsWithinMax, Nat.not_le.2 h]

theorem ParseQuery_error_iff (query : Str) (h : ';' ∉ query) :
    (ParseQuery query).2 = none ↔
      Count query '&' + 1 ≤ defaultMaxParams ∧ badEscape query = false := by
  by_cases hmax : Count query '&' + 1 ≤ defaultMaxParams
  · rw [ParseQuery_of_within query hmax, parseQueryLoop_eq_foldl _ _ _ _ (le_refl _),
      parseQuery_foldl_error _ _ _ (fun piece hp hc => h (mem_of_mem_Split _ _ _ _ hp hc)),
      badEscape_Split _ _ (le_refl _)]
    simp [hmax]
  · rw [ParseQuery_of_exceeded query (Nat.not_le.1 hmax)]
    simp [hmax]

theorem Values.get_add (m : Values) (k v key : Str) :
    (m.add k v).get key =
      if k = key then some ((m.get key).getD [] ++ [v]) else m.get key := by
  induction m with
  | nil => by_cases h : k = key <;> simp [Values.add, Values.get, h]
  | cons e rest ih =>
    obtain ⟨k', vs⟩ := e
    by_cases h1 : k' = k
    · subst h1
      by_cases h2 : k' = key <;> simp [Values.add, Values.get, h2]
    · by_cases h2 : k' = key
      · subst h2
        simp [Values.add, Values.get, h1, Ne.symm h1]
      · simp [Values.add, Values.get, h1, h2, ih]

theorem Values.get_isSome_iff (m : Values) (key : Str) :
    (m.get key).isSome = true ↔ ∃ values, (key, values) ∈ m := by
  induction m with
  | nil => simp [Values.get]
  | cons e rest ih =>
    obtain ⟨k', vs⟩ := e
    by_cases h : k' = key
    · subst h
      simp [Values.get]
    · simp only [Values.get, h, if_false, ih, List.mem_cons, Prod.mk.injEq]
      constructor
      · rintro ⟨values, hv⟩
        exact ⟨values, Or.inr hv⟩
      · rintro ⟨values, hv | hv⟩
        · exact absurd hv.1.symm h
        · exact ⟨values, hv⟩

theorem parseQueryStep_values (m : Values) (err : Option DecodeError) (piece : Str) :
    (parseQueryStep m err piece).1 =
      match pieceKeyValue piece with
      | some kv => m.add kv.1 kv.2
      | none => m := by
  unfold parseQueryStep pieceKeyValue
  by_cases h1 : Contains piece [';'] = true
  · simp [h1]
  · by_cases h2 : piece = []
    · subst h2
      simp [Contains]
    · simp only [h1, h2, if_false, or_self]
      cases QueryUnescape (Cut piece '=').1 with
      | error e => rfl
      | ok k =>
        cases QueryUnescape (Cut piece '=').2.1 with
        | error e => rfl
        | ok v => rfl

theorem parseQuery_foldl_get (pieces : List Str) (m : Values) (err : Option DecodeError)
    (key : Str) :
    (pieces.foldl (fun acc piece => parseQueryStep acc.1 acc.2 piece) (m, err)).1.get key =
      appendValues (m.get key) (pieces.filterMap (fun piece =>
        match pieceKeyValue piece with
        | some kv => if kv.1 = key then some kv.2 else none
        | none => none)) := by
  induction pieces generalizing m err with
  | nil => simp [appendValues]
  | cons p ps ih =>
    rw [List.foldl_cons, ih, parseQueryStep_values, List.filterMap_cons]
    cases hp : pieceKeyValue p with
    | none => simp
    | some kv =>
      by_cases hk : kv.1 = key
      · simp only [hk, if_true, Values.get_add]
        generalize List.filterMap _ ps = l
        cases l <;> simp [appendValues]
      · simp only [hk, if_false, Values.get_add]

theorem ParseQuery_get (query key : Str) (h : Count query '&' + 1 ≤ defaultMaxParams) :
    (ParseQuery query).1.get key =
      if valuesInOrder query key = [] then none else some (valuesInOrder query key) := by
  rw [ParseQuery_of_within query h, parseQueryLoop_eq_foldl _ _ _ _ (le_refl _),
    parseQuery_foldl_get]
  simp [appendValues, valuesInOrder, Values.get]

/-! ## Classification -/

/-- C1: for the four combinations of `hasPreset` and `hasToken`, `detectCategory`, called as
`detectCategory(hasToken, hasPreset)`, returns ExtendSearch when both hold, Preset when only
`hasPreset` holds, Merger when only `hasToken` holds and Unknown when neither does, in the
searchType saver and in the root saver. -/
theorem detectCategory_truth_table (hasPreset hasToken : Bool) :
    SearchType.detectCategory hasToken hasPreset =
      (match hasPreset, hasToken with
       | true, true => QueryCategory.extendSearch
       | true, false => QueryCategory.preset
       | false, true => QueryCategory.merger
       | false, false => QueryCategory.unknown) ∧
    Root.detectCategory hasToken hasPreset = SearchType.detectCategory hasToken hasPreset := by
  cases hasPreset <;> cases hasToken <;> exact ⟨rfl, rfl⟩

/-- C3: `checkTokenInside` returns true exactly when some key with at least one value
contains the text `_st` immediately followed by an ASCII digit, anywhere in the key; the
result is the same for every iteration order of the map and the same in the root saver
(which never reports an error); the key `x_st12y` counts, the keys `_st` and `_stx` do
not. -/
theorem checkTokenInside_iff_token_key (queryParams : Values) :
    (SearchType.checkTokenInside queryParams = true ↔
      ∃ name values, (name, values) ∈ queryParams ∧ values ≠ [] ∧
        ∃ (pre : Str) (d : Char) (post : Str),
          name = pre ++ ['_', 's', 't'] ++ d :: post ∧ d.isDigit = true) ∧
    (∀ reordered : Values, reordered.Perm queryParams →
      SearchType.checkTokenInside reordered = SearchType.checkTokenInside queryParams) ∧
    Root.checkTokenInside queryParams = (SearchType.checkTokenInside queryParams, none) ∧
    SearchType.checkTokenInside [("x_st12y".toList, [[]])] = true ∧
    SearchType.checkTokenInside [("_st".toList, [[]]), ("_stx".toList, [[]])] = false := by
  refine ⟨?_, ?_, Root.checkTokenInside_eq _, by decide, by decide⟩
  · rw [SearchType.checkTokenInside_eq_any, List.any_eq_true]
    constructor
    · rintro ⟨⟨name, values⟩, hmem, h⟩
      simp only [Bool.and_eq_true, decide_eq_true_eq] at h
      exact ⟨name, values, hmem, h.1, (MatchString_tokenPatternPerl name).1 h.2⟩
    · rintro ⟨name, values, hmem, hne, h⟩
      refine ⟨(name, values), hmem, ?_⟩
      simp only [Bool.and_eq_true, decide_eq_true_eq]
      exact ⟨hne, (MatchString_tokenPatternPerl name).2 h⟩
  · intro reordered hperm
    rw [SearchType.checkTokenInside_eq_any, SearchType.checkTokenInside_eq_any]
    rw [Bool.eq_iff_iff, List.any_eq_true, List.any_eq_true]
    exact ⟨fun ⟨e, he, h⟩ => ⟨e, hperm.mem_iff.1 he, h⟩, fun ⟨e, he, h⟩ => ⟨e, hperm.mem_iff.2 he, h⟩⟩

/-- Witness of C3 on a map with a token key and a key without values. -/
theorem checkTokenInside_iff_token_key_witness :
    SearchType.checkTokenInside [("_st1".toList, [['x']]), ("preset".toList, [['5']])] =
      SearchType.checkTokenInside [("preset".toList, [['5']]), ("_st1".toList, [['x']])] :=
  (checkTokenInside_iff_token_key [("preset".toList, [['5']]), ("_st1".toList, [['x']])]).2.1
    [("_st1".toList, [['x']]), ("preset".toList, [['5']])] (List.Perm.swap _ _ _)

theorem Root.detectCategory_eq (isTokenInside isPresetInside : Bool) :
    Root.detectCategory isTokenInside isPresetInside =
      SearchType.detectCategory isTokenInside isPresetInside := by
  cases isTokenInside <;> cases isPresetInside <;> rfl

theorem Root.parseResponse_eq (textBytes : Body) :
    Root.parseResponse textBytes = SearchType.parseResponse textBytes := by
  unfold Root.parseResponse SearchType.parseResponse
  cases Unmarshal textBytes with
  | error e => rfl
  | ok respData =>
    simp only [Root.checkTokenInside_eq, Root.detectCategory_eq]

theorem escapedSemicolon : PathEscape [semicolon] = ['%', '3', 'B'] := by decide

theorem semicolon_not_mem_escaped (s : Str) :
    ';' ∉ ReplaceAll s semicolon (PathEscape [semicolon]) :=
  ReplaceAll_not_mem s ';' _ (by decide)

/-- The outcome of `parseResponse` on an envelope, by the parse of its catalog value. -/
theorem SearchType.parseResponse_envelope (resp : ExactMatchResponse) :
    SearchType.parseResponse (.envelope resp) =
      if (ParseQuery (ReplaceAll resp.Metadata.CatalogValue semicolon
          (PathEscape [semicolon]))).2 ≠ none then
        (unknownQueryInfo,
          (ParseQuery (ReplaceAll resp.Metadata.CatalogValue semicolon (PathEscape [semicolon]))).2)
      else
        (⟨resp.Metadata.Name,
          SearchType.detectCategory
            (SearchType.checkTokenInside
              (ParseQuery (ReplaceAll resp.Metadata.CatalogValue semicolon (PathEscape [semicolon]))).1)
            ((ParseQuery (ReplaceAll resp.Metadata.CatalogValue semicolon
              (PathEscape [semicolon]))).1.get "preset".toList).isSome,
          resp.Metadata.CatalogValue,
          ((ParseQuery (ReplaceAll resp.Metadata.CatalogValue semicolon
              (PathEscape [semicolon]))).1.get "preset".toList).getD []⟩, none) := by
  generalize hq : ReplaceAll resp.Metadata.CatalogValue semicolon (PathEscape [semicolon]) = q
  simp only [SearchType.parseResponse, Unmarshal, hq]
  rcases hpq : ParseQuery q with ⟨params, err⟩
  cases err with
  | none => simp
  | some e => simp

theorem SearchType.detectCategory_hasPreset (isTokenInside isPresetInside : Bool) :
    (SearchType.detectCategory isTokenInside isPresetInside = .preset ∨
      SearchType.detectCategory isTokenInside isPresetInside = .extendSearch) ↔
      isPresetInside = true := by
  cases isTokenInside <;> cases isPresetInside <;> simp [SearchType.detectCategory]

/-- C4: when `parseResponse` succeeds the body decodes to an envelope, and the record has
`text` equal to `metadata.name`, `filterValue` equal to `metadata.catalog_value` as received,
`presets` equal to the values of the key `preset` in their order of appearance (empty when
the key is absent), and a category of the `hasPreset` row (Preset or ExtendSearch) exactly
when the key `preset` is among the parsed parameters; the root saver returns the same. -/
theorem parseResponse_record (textBytes : Body) (info : queryInfo)
    (h : SearchType.parseResponse textBytes = (info, none)) :
    ∃ resp : ExactMatchResponse, textBytes = .envelope resp ∧
      info.text = resp.Metadata.Name ∧
      info.filterValue = resp.Metadata.CatalogValue ∧
      info.presets =
        valuesInOrder (ReplaceAll resp.Metadata.CatalogValue ';' ['%', '3', 'B']) "preset".toList ∧
      ((¬ ∃ values, ("preset".toList, values) ∈
          (ParseQuery (ReplaceAll resp.Metadata.CatalogValue ';' ['%', '3', 'B'])).1) →
        info.presets = []) ∧
      ((info.category = .preset ∨ info.category = .extendSearch) ↔
        ∃ values, ("preset".toList, values) ∈
          (ParseQuery (ReplaceAll resp.Metadata.CatalogValue ';' ['%', '3', 'B'])).1) ∧
      Root.parseResponse textBytes = (info, none) := by
  cases textBytes with
  | malformed detail => simp [SearchType.parseResponse, Unmarshal] at h
  | envelope resp =>
    refine ⟨resp, rfl, ?_⟩
    have hroot := Root.parseResponse_eq (.envelope resp)
    rw [h] at hroot
    rw [SearchType.parseResponse_envelope, escapedSemicolon] at h
    simp only [semicolon] at h
    generalize hq : ReplaceAll resp.Metadata.CatalogValue ';' ['%', '3', 'B'] = q at h ⊢
    have hmem := Values.get_isSome_iff (ParseQuery q).1 "preset".toList
    split_ifs at h with hb
    · exact absurd (Prod.mk.inj h).2 hb
    · have herr := ParseQuery_error_iff q (by
        rw [← hq]; exact ReplaceAll_not_mem _ _ _ (by decide))
      have hget := ParseQuery_get q "preset".toList (herr.1 (not_not.1 hb)).1
      have h1 := (Prod.mk.inj h).1
      subst h1
      refine ⟨rfl, rfl, ?_, ?_, ?_, hroot⟩
      · show ((ParseQuery q).1.get "preset".toList).getD [] = _
        rw [hget]
        split_ifs with he
        · rw [he]; rfl
        · rfl
      · intro hno
        show ((ParseQuery q).1.get "preset".toList).getD [] = _
        cases hg : (ParseQuery q).1.get "preset".toList with
        | none => rfl
        | some vs => exact absurd (hmem.1 (by rw [hg]; rfl)) hno
      · rw [← hmem]
        exact SearchType.detectCategory_hasPreset _ _

/-- Witness of C4 on the body with name `b` and catalog value `preset=7`. -/
theorem parseResponse_record_witness :
    ∃ resp : ExactMatchResponse, Body.ofStrings "b" "preset=7" = .envelope resp ∧
      "b".toList = resp.Metadata.Name ∧
      "preset=7".toList = resp.Metadata.CatalogValue ∧
      [['7']] =
        valuesInOrder (ReplaceAll resp.Metadata.CatalogValue ';' ['%', '3', 'B']) "preset".toList ∧
      ((¬ ∃ values, ("preset".toList, values) ∈
          (ParseQuery (ReplaceAll resp.Metadata.CatalogValue ';' ['%', '3', 'B'])).1) →
        [['7']] = ([] : List Str)) ∧
      ((QueryCategory.preset = .preset ∨ QueryCategory.preset = .extendSearch) ↔
        ∃ values, ("preset".toList, values) ∈
          (ParseQuery (ReplaceAll resp.Metadata.CatalogValue ';' ['%', '3', 'B'])).1) ∧
      Root.parseResponse (Body.ofStrings "b" "preset=7") =
        (⟨"b".toList, .preset, "preset=7".toList, [['7']]⟩, none) :=
  parseResponse_record (Body.ofStrings "b" "preset=7")
    ⟨"b".toList, .preset, "preset=7".toList, [['7']]⟩ (by decide)

theorem Count_escaped (s : Str) :
    Count (ReplaceAll s ';' ['%', '3', 'B']) '&' = Count s '&' := by
  induction s with
  | nil => rfl
  | cons c s ih =>
    unfold Count at ih ⊢
    by_cases hc : c = ';'
    · subst hc
      simp [ReplaceAll, List.count_cons, ih]
    · simp [ReplaceAll, hc, List.count_cons, ih]

theorem Count_append_replicate (s : Str) (c : Char) (n : Nat) :
    Count (s ++ List.replicate n c) c = Count s c + n := by
  unfold Count
  rw [List.count_append, List.count_replicate_self]

/-- C5: `parseResponse` returns an error exactly when the body does not decode as the JSON
envelope or `url.ParseQuery` refuses the catalog value with every `;` replaced by `%3B`,
which it does in two cases: the string has more than 10000 pieces between `&`, or it holds
an invalid percent escape. With an error comes the unknown record: empty text, category
Unknown, empty filterValue, no presets. The root saver returns the same. -/
theorem parseResponse_error_iff (textBytes : Body) :
    ((SearchType.parseResponse textBytes).2 ≠ none ↔
      (∃ detail, textBytes = .malformed detail) ∨
      ∃ resp : ExactMatchResponse, textBytes = .envelope resp ∧
        (defaultMaxParams <
            Count (ReplaceAll resp.Metadata.CatalogValue ';' ['%', '3', 'B']) '&' + 1 ∨
          InvalidPercentEscape (ReplaceAll resp.Metadata.CatalogValue ';' ['%', '3', 'B']))) ∧
    ((SearchType.parseResponse textBytes).2 ≠ none →
      (SearchType.parseResponse textBytes).1 = ⟨[], .unknown, [], []⟩) ∧
    Root.parseResponse textBytes = SearchType.parseResponse textBytes := by
  refine ⟨?_, ?_, Root.parseResponse_eq _⟩
  · cases textBytes with
    | malformed detail => simp [SearchType.parseResponse, Unmarshal]
    | envelope resp =>
      have hex : (∃ r : ExactMatchResponse, Body.envelope resp = .envelope r ∧
          (defaultMaxParams <
              Count (ReplaceAll r.Metadata.CatalogValue ';' ['%', '3', 'B']) '&' + 1 ∨
            InvalidPercentEscape (ReplaceAll r.Metadata.CatalogValue ';' ['%', '3', 'B']))) ↔
          (defaultMaxParams <
              Count (ReplaceAll resp.Metadata.CatalogValue ';' ['%', '3', 'B']) '&' + 1 ∨
            InvalidPercentEscape (ReplaceAll resp.Metadata.CatalogValue ';' ['%', '3', 'B'])) :=
        ⟨fun ⟨r, e, h⟩ => by cases e; exact h, fun h => ⟨resp, rfl, h⟩⟩
      have herr := ParseQuery_error_iff _ (semicolon_not_mem_escaped resp.Metadata.CatalogValue)
      rw [SearchType.parseResponse_envelope, hex]
      rw [escapedSemicolon] at herr ⊢
      simp only [semicolon] at herr ⊢
      generalize ReplaceAll resp.Metadata.CatalogValue ';' ['%', '3', 'B'] = q at herr ⊢
      have hbad : badEscape q = true ↔ InvalidPercentEscape q := badEscape_iff q
      by_cases hn : (ParseQuery q).2 = none
      · have h1 := herr.1 hn
        have hno : ¬ InvalidPercentEscape q := fun hi => by
          rw [hbad.2 hi] at h1
          exact absurd h1.2 (by simp)
        simp [hn, hno, Nat.not_lt.2 h1.1]
      · have hor : defaultMaxParams < Count q '&' + 1 ∨ InvalidPercentEscape q := by
          by_contra hcon
          rw [not_or] at hcon
          apply hn
          refine herr.2 ⟨Nat.not_lt.1 hcon.1, ?_⟩
          cases hb : badEscape q
          · rfl
          · exact absurd (hbad.1 hb) hcon.2
        simp [hn, hor]
  · cases textBytes with
    | malformed detail => simp [SearchType.parseResponse, Unmarshal, unknownQueryInfo]
    | envelope resp =>
      rw [SearchType.parseResponse_envelope]
      split_ifs
      · intro _; rfl
      · intro h; exact absurd rfl h

/-- Witness of C5 on the catalog value `preset=%zz`, whose percent escape is invalid, and
on the catalog value `preset=7` followed by 10000 times `&`. -/
theorem parseResponse_error_iff_witness :
    (SearchType.parseResponse (Body.ofStrings "a" "preset=%zz")).1 = ⟨[], .unknown, [], []⟩ ∧
    (SearchType.parseResponse
      (.envelope ⟨⟨"a".toList, "preset=7".toList ++ List.replicate 10000 '&'⟩⟩)).2 ≠ none :=
  ⟨(parseResponse_error_iff (Body.ofStrings "a" "preset=%zz")).2.1 (by decide),
    (parseResponse_error_iff
      (.envelope ⟨⟨"a".toList, "preset=7".toList ++ List.replicate 10000 '&'⟩⟩)).1.2
      (Or.inr ⟨_, rfl, Or.inl (by
        rw [Count_escaped, Count_append_replicate,
          (by decide : Count "preset=7".toList '&' = 0)]
        decide)⟩)⟩

/-! ## The savers: one body of the stream -/

theorem mem_foldl_setInsert (presets presetMap : List Str) (x : Str) :
    x ∈ presets.foldl setInsert presetMap ↔ x ∈ presetMap ∨ x ∈ presets := by
  induction presets generalizing presetMap with
  | nil => simp
  | cons p ps ih =>
    rw [List.foldl_cons, ih]
    unfold setInsert
    split_ifs with h
    · constructor
      · rintro (h1 | h1)
        · exact Or.inl h1
        · exact Or.inr (List.mem_cons_of_mem _ h1)
      · rintro (h1 | h1)
        · exact Or.inl h1
        · rcases List.mem_cons.1 h1 with rfl | h2
          · exact Or.inl h
          · exact Or.inr h2
    · simp only [List.mem_append, List.mem_singleton, List.mem_cons]
      tauto

theorem nodup_foldl_setInsert (presets presetMap : List Str) (h : presetMap.Nodup) :
    (presets.foldl setInsert presetMap).Nodup := by
  induction presets generalizing presetMap with
  | nil => simpa using h
  | cons p ps ih =>
    rw [List.foldl_cons]
    apply ih
    unfold setInsert
    split_ifs with hp
    · exact h
    · exact List.Nodup.append h (List.nodup_singleton p) (by simpa using hp)

theorem SearchType.validate_empty_iff (s : Saver) (info : queryInfo) :
    SearchType.validate s info = some .ErrEmptyResponse ↔ info.text = [] ∨ info.filterValue = [] := by
  unfold SearchType.validate
  split_ifs <;> simp_all

theorem SearchType.Run_error (s : Saver) (value : Body) (rest : List Body) (info : queryInfo)
    (err : SearchType.Error) (hparse : SearchType.parseResponse value = (info, none))
    (hvalidate : SearchType.validate s info = some err) (herr : err ≠ .ErrUnknownCategory) :
    SearchType.Run s (value :: rest) = ⟨s, fun _ => none, .error err⟩ := by
  have his : err.Is .ErrUnknownCategory = false := by
    cases err <;> simp_all [SearchType.Error.Is]
  simp only [SearchType.Run, hparse, hvalidate, his]
  simp

theorem SearchType.Run_skip (s : Saver) (value : Body) (rest : List Body) (info : queryInfo)
    (hparse : SearchType.parseResponse value = (info, none))
    (hvalidate : SearchType.validate s info = some .ErrUnknownCategory) :
    SearchType.Run s (value :: rest) = SearchType.Run s rest := by
  simp only [SearchType.Run, hparse, hvalidate]
  simp [SearchType.Error.Is]

theorem SearchType.Run_accept (s : Saver) (value : Body) (rest : List Body) (info : queryInfo)
    (written : Str) (hparse : SearchType.parseResponse value = (info, none))
    (hvalidate : SearchType.validate s info = none)
    (hwriter : s.categoryToWriter info.category = some written) :
    SearchType.Run s (value :: rest) =
      SearchType.Run
        (Saver.addPresets
          { s with
            categoryToWriter :=
              s.categoryToWriter.set info.category
                (written ++ (info.text ++ s.cfg.CsvSeparator ++ info.filterValue ++ newline)) }
          info.category info.presets) rest := by
  simp only [SearchType.Run, hparse, hvalidate, hwriter]

theorem Root.Run_empty (s : Saver) (value : Body) (rest : List Body) (info : queryInfo)
    (hparse : Root.parseResponse value = (info, none))
    (hempty : info.text = [] ∨ info.filterValue = []) :
    Root.Run s (value :: rest) = ⟨s, fun _ => none, .error .InvalidEmptyResponse⟩ := by
  simp only [Root.Run, hparse, hempty, if_true]

theorem Root.Run_separator_text (s : Saver) (value : Body) (rest : List Body) (info : queryInfo)
    (hparse : Root.parseResponse value = (info, none))
    (hempty : ¬(info.text = [] ∨ info.filterValue = []))
    (htext : Contains info.text s.cfg.CsvSeparator = true) :
    Root.Run s (value :: rest) =
      ⟨s, fun _ => none, .error (.InvalidResponseSeparator info.text s.cfg.CsvSeparator)⟩ := by
  simp only [Root.Run, hparse, hempty, htext, if_true, if_false, Bool.false_eq_true]

theorem Root.Run_separator_filterValue (s : Saver) (value : Body) (rest : List Body)
    (info : queryInfo) (hparse : Root.parseResponse value = (info, none))
    (hempty : ¬(info.text = [] ∨ info.filterValue = []))
    (htext : ¬Contains info.text s.cfg.CsvSeparator = true)
    (hfilter : Contains info.filterValue s.cfg.CsvSeparator = true) :
    Root.Run s (value :: rest) =
      ⟨s, fun _ => none,
        .error (.InvalidResponseSeparator info.filterValue s.cfg.CsvSeparator)⟩ := by
  simp only [Root.Run, hparse, hempty, htext, hfilter, if_true, if_false, Bool.false_eq_true]

theorem Root.Run_nilWriter (s : Saver) (value : Body) (rest : List Body) (info : queryInfo)
    (hparse : Root.parseResponse value = (info, none))
    (hempty : ¬(info.text = [] ∨ info.filterValue = []))
    (htext : ¬Contains info.text s.cfg.CsvSeparator = true)
    (hfilter : ¬Contains info.filterValue s.cfg.CsvSeparator = true)
    (hwriter : s.categoryToWriter info.category = none) :
    Root.Run s (value :: rest) = ⟨s, fun _ => none, .nilWriterPanic⟩ := by
  simp only [Root.Run, hparse, hempty, htext, hfilter, hwriter, if_false, Bool.false_eq_true]

theorem Root.Run_append (s : Saver) (value : Body) (rest : List Body) (info : queryInfo)
    (written : Str) (hparse : Root.parseResponse value = (info, none))
    (hempty : ¬(info.text = [] ∨ info.filterValue = []))
    (htext : ¬Contains info.text s.cfg.CsvSeparator = true)
    (hfilter : ¬Contains info.filterValue s.cfg.CsvSeparator = true)
    (hwriter : s.categoryToWriter info.category = some written) :
    Root.Run s (value :: rest) =
      Root.Run
        (Saver.addPresets
          { s with
            categoryToWriter :=
              s.categoryToWriter.set info.category
                (written ++ (info.text ++ s.cfg.CsvSeparator ++ info.filterValue ++ newline)) }
          info.category info.presets) rest := by
  simp only [Root.Run, hparse, hempty, htext, hfilter, hwriter, if_false, Bool.false_eq_true, Join]

/-! ## The savers: what `Run` does with a record -/

/-- C2, as stated, fails: the `;` of the catalog value `preset=5;_st1=x` is escaped before
parsing, so the body of `a` has the single key `preset` with the value `5;_st1=x`; its
category is Preset, not ExtendSearch, and after the run the ExtendSearch preset line is
empty while the Preset line holds both identifiers. -/
theorem scenarioA_counterexample :
    (SearchType.parseResponse (Body.ofStrings "a" "preset=5;_st1=x")).1.category ≠
      .extendSearch ∧
    (SearchType.parseResponse (Body.ofStrings "a" "preset=5;_st1=x")).1.presets ≠
      ["5".toList] ∧
    SearchType.parseResponse (Body.ofStrings "a" "preset=5;_st1=x") =
      (⟨"a".toList, .preset, "preset=5;_st1=x".toList, ["5;_st1=x".toList]⟩, none) ∧
    (SearchType.Run (SearchType.NewSaver defaultConfig)
      [Body.ofStrings "a" "preset=5;_st1=x", Body.ofStrings "b" "preset=7"]).presetFiles
        .extendSearch = some [] ∧
    (SearchType.Run (SearchType.NewSaver defaultConfig)
      [Body.ofStrings "a" "preset=5;_st1=x", Body.ofStrings "b" "preset=7"]).presetFiles
        .preset = some "5;_st1=x,7".toList := by
  decide

/-- C2, amended: with the parameters of `a` separated by `&` (catalog value
`preset=5&_st1=x`) `parseResponse` returns ExtendSearch with the identifiers `5`, and for
`b` with `preset=7` it returns Preset with the identifiers `7`; after the saver, with the
default separators, consumes both, the ExtendSearch preset line is `5`, the Preset preset
line is `7`, the row of `a` is in the ExtendSearch queries file and the row of `b` in the
Preset queries file, and the run ends without error. With the catalog value
`preset=5;_st1=x` the record of `a` is Preset with the one identifier `5;_st1=x`. -/
theorem scenarioA_ampersand :
    SearchType.parseResponse (Body.ofStrings "a" "preset=5&_st1=x") =
      (⟨"a".toList, .extendSearch, "preset=5&_st1=x".toList, ["5".toList]⟩, none) ∧
    SearchType.parseResponse (Body.ofStrings "b" "preset=7") =
      (⟨"b".toList, .preset, "preset=7".toList, ["7".toList]⟩, none) ∧
    (SearchType.Run (SearchType.NewSaver defaultConfig)
      [Body.ofStrings "a" "preset=5&_st1=x", Body.ofStrings "b" "preset=7"]).presetFiles
        .extendSearch = some "5".toList ∧
    (SearchType.Run (SearchType.NewSaver defaultConfig)
      [Body.ofStrings "a" "preset=5&_st1=x", Body.ofStrings "b" "preset=7"]).presetFiles
        .preset = some "7".toList ∧
    (SearchType.Run (SearchType.NewSaver defaultConfig)
      [Body.ofStrings "a" "preset=5&_st1=x", Body.ofStrings "b" "preset=7"]).saver.categoryToWriter
        .extendSearch = some "text\tquery\na\tpreset=5&_st1=x\n".toList ∧
    (SearchType.Run (SearchType.NewSaver defaultConfig)
      [Body.ofStrings "a" "preset=5&_st1=x", Body.ofStrings "b" "preset=7"]).saver.categoryToWriter
        .preset = some "text\tquery\nb\tpreset=7\n".toList ∧
    (SearchType.Run (SearchType.NewSaver defaultConfig)
      [Body.ofStrings "a" "preset=5&_st1=x", Body.ofStrings "b" "preset=7"]).outcome = .ok ∧
    SearchType.parseResponse (Body.ofStrings "a" "preset=5;_st1=x") =
      (⟨"a".toList, .preset, "preset=5;_st1=x".toList, ["5;_st1=x".toList]⟩, none) := by
  decide

theorem Root.RunDone_of_error (s s' : Saver) (done : Bool) (bodies : List Body)
    (presetFiles : CategoryMap Str) (e : Root.Error)
    (h : Root.Run s bodies = ⟨s', presetFiles, .error e⟩) :
    Root.RunDone s done bodies =
      ⟨s', presetFiles, if done then .closedChannelPanic else .error e⟩ := by
  cases done <;> simp [Root.RunDone, h, closeChannel]

theorem Root.RunDone_of_ok (s : Saver) (done : Bool) (bodies : List Body)
    (h : (Root.Run s bodies).outcome = .ok) :
    Root.RunDone s done bodies = Root.Run s bodies := by
  simp [Root.RunDone, h]

theorem Root.RunDone_open (s : Saver) (bodies : List Body) :
    Root.RunDone s false bodies = Root.Run s bodies := by
  unfold Root.RunDone
  cases (Root.Run s bodies).outcome <;> simp [closeChannel]

/-- C7: validation returns the empty-response error exactly when `text` or `filterValue` is
empty (`ErrEmptyResponse` from `validate` in the searchType saver, `InvalidEmptyResponse`
from the checks of `Run` in the root saver), and then the searchType `Run` returns that
error at once, whatever follows in the stream, leaving the saver as it was. The root `Run`
returns it only when the channel `done` is still open; when `done` is closed already, as
after an interrupt signal, its deferred function closes `done` again and `Run` panics
instead of returning the error. -/
theorem empty_response_iff (s : Saver) (info : queryInfo) :
    (SearchType.validate s info = some .ErrEmptyResponse ↔
      info.text = [] ∨ info.filterValue = []) ∧
    (∀ value : Body, Root.parseResponse value = (info, none) →
      ((Root.RunDone s false [value]).outcome = .error .InvalidEmptyResponse ↔
        info.text = [] ∨ info.filterValue = [])) ∧
    (info.text = [] ∨ info.filterValue = [] →
      ∀ (value : Body) (rest : List Body), SearchType.parseResponse value = (info, none) →
        SearchType.Run s (value :: rest) = ⟨s, fun _ => none, .error .ErrEmptyResponse⟩ ∧
        Root.RunDone s false (value :: rest) =
          ⟨s, fun _ => none, .error .InvalidEmptyResponse⟩ ∧
        Root.RunDone s true (value :: rest) = ⟨s, fun _ => none, .closedChannelPanic⟩) := by
  refine ⟨SearchType.validate_empty_iff s info, ?_, ?_⟩
  · intro value hparse
    rw [Root.RunDone_open]
    constructor
    · intro hrun
      by_contra hempty
      by_cases h1 : Contains info.text s.cfg.CsvSeparator = true
      · rw [Root.Run_separator_text s value [] info hparse hempty h1] at hrun
        simp at hrun
      · by_cases h2 : Contains info.filterValue s.cfg.CsvSeparator = true
        · rw [Root.Run_separator_filterValue s value [] info hparse hempty h1 h2] at hrun
          simp at hrun
        · cases hw : s.categoryToWriter info.category with
          | none =>
            rw [Root.Run_nilWriter s value [] info hparse hempty h1 h2 hw] at hrun
            simp at hrun
          | some written =>
            rw [Root.Run_append s value [] info written hparse hempty h1 h2 hw] at hrun
            simp [Root.Run] at hrun
    · intro hempty
      rw [Root.Run_empty s value [] info hparse hempty]
  · intro hempty value rest hparse
    have hroot := Root.Run_empty s value rest info
      ((Root.parseResponse_eq value).trans hparse) hempty
    exact ⟨SearchType.Run_error s value rest info _ hparse
        ((SearchType.validate_empty_iff s info).2 hempty) (by simp),
      Root.RunDone_of_error s s false _ _ _ hroot,
      Root.RunDone_of_error s s true _ _ _ hroot⟩

/-- Witness of C7 on the body with the empty name and the catalog value `preset=7`: the
searchType `Run` returns the error; the root `Run` panics when `done` is closed already,
the state an interrupt signal leaves. -/
theorem empty_response_iff_witness :
    SearchType.Run (SearchType.NewSaver defaultConfig)
        [Body.ofStrings "" "preset=7", Body.ofStrings "b" "preset=7"] =
      ⟨SearchType.NewSaver defaultConfig, fun _ => none, .error .ErrEmptyResponse⟩ ∧
    RootPipeline.run RootPipeline.start [.interrupt] = some ⟨true, false, true⟩ ∧
    Root.RunDone (Root.NewSaver defaultConfig) true
        [Body.ofStrings "" "preset=7", Body.ofStrings "b" "preset=7"] =
      ⟨Root.NewSaver defaultConfig, fun _ => none, .closedChannelPanic⟩ :=
  ⟨((empty_response_iff (SearchType.NewSaver defaultConfig)
    ⟨[], .preset, "preset=7".toList, ["7".toList]⟩).2.2 (Or.inl rfl)
      (Body.ofStrings "" "preset=7") [Body.ofStrings "b" "preset=7"] (by decide)).1,
    by decide,
    ((empty_response_iff (Root.NewSaver defaultConfig)
    ⟨[], .preset, "preset=7".toList, ["7".toList]⟩).2.2 (Or.inl rfl)
      (Body.ofStrings "" "preset=7") [Body.ofStrings "b" "preset=7"] (by decide)).2.2⟩

/-- C8: in the searchType saver a record with non-empty, delimiter-free text and
filterValue and the category Unknown is skipped: `validate` reports `ErrUnknownCategory`,
and `Run` goes on with the rest of the stream from the unchanged saver, so the result is
that of the stream without this body; alone in the stream it ends without error, with
every writer and preset set as before. -/
theorem unknown_record_skipped (s : Saver) (value : Body) (rest : List Body) (info : queryInfo)
    (hparse : SearchType.parseResponse value = (info, none))
    (htext : info.text ≠ []) (hfilter : info.filterValue ≠ [])
    (hsepText : Contains info.text s.cfg.CsvSeparator = false)
    (hsepFilter : Contains info.filterValue s.cfg.CsvSeparator = false)
    (hcategory : info.category = .unknown) :
    SearchType.validate s info = some .ErrUnknownCategory ∧
    SearchType.Run s (value :: rest) = SearchType.Run s rest ∧
    SearchType.Run s [value] = ⟨s, s.writePresets, .ok⟩ := by
  have hv : SearchType.validate s info = some .ErrUnknownCategory := by
    simp [SearchType.validate, htext, hfilter, hsepText, hsepFilter, hcategory]
  exact ⟨hv, SearchType.Run_skip s value rest info hparse hv,
    (SearchType.Run_skip s value [] info hparse hv).trans rfl⟩

/-- Witness of C8 on the body with name `q` and catalog value `x=1`, followed by the body
of `b`. -/
theorem unknown_record_skipped_witness :
    SearchType.validate (SearchType.NewSaver defaultConfig)
        ⟨"q".toList, .unknown, "x=1".toList, []⟩ = some .ErrUnknownCategory ∧
    SearchType.Run (SearchType.NewSaver defaultConfig)
        [Body.ofStrings "q" "x=1", Body.ofStrings "b" "preset=7"] =
      SearchType.Run (SearchType.NewSaver defaultConfig) [Body.ofStrings "b" "preset=7"] ∧
    SearchType.Run (SearchType.NewSaver defaultConfig) [Body.ofStrings "q" "x=1"] =
      ⟨SearchType.NewSaver defaultConfig, (SearchType.NewSaver defaultConfig).writePresets, .ok⟩ :=
  unknown_record_skipped (SearchType.NewSaver defaultConfig) (Body.ofStrings "q" "x=1")
    [Body.ofStrings "b" "preset=7"] ⟨"q".toList, .unknown, "x=1".toList, []⟩
    (by decide) (by decide) (by decide) (by decide) (by decide) rfl

/-- C9: in the root saver the body with name `a` and catalog value `x=1` gives a record of
category Unknown that passes the checks of `Run`; `categoryToWriter` has no writer for
Unknown, and `Run` calls `Write` on the nil writer instead of returning an error. -/
theorem root_unknown_record_nil_writer :
    Root.parseResponse (Body.ofStrings "a" "x=1") =
      (⟨"a".toList, .unknown, "x=1".toList, []⟩, none) ∧
    (Root.NewSaver defaultConfig).categoryToWriter .unknown = none ∧
    (Root.Run (Root.NewSaver defaultConfig) [Body.ofStrings "a" "x=1"]).outcome =
      .nilWriterPanic ∧
    (SearchType.Run (SearchType.NewSaver defaultConfig) [Body.ofStrings "a" "x=1"]).outcome =
      .ok := by
  decide

theorem SearchType.validate_none (s : Saver) (info : queryInfo)
    (h : SearchType.validate s info = none) :
    ¬(info.text = [] ∨ info.filterValue = []) ∧
    ¬Contains info.text s.cfg.CsvSeparator = true ∧
    ¬Contains info.filterValue s.cfg.CsvSeparator = true ∧
    info.category ≠ .unknown := by
  unfold SearchType.validate at h
  split_ifs at h with h1 h2 h3 h4
  exact ⟨h1, h2, h3, h4⟩

/-- C10: a record that passes validation has a category among Preset, ExtendSearch and
Merger; when the saver holds a writer and a preset set for it, as every saver made by
`NewSaver` does, `Run` goes on from a saver in which the writer of that category has got
exactly `text + delimiter + filterValue + "\n"` appended, its preset set has got the
identifiers of the record added (and nothing else), and the writers and preset sets of the
other categories, and the configuration, are as before; so it is in both savers. -/
theorem accepted_record_appended (s : Saver) (value : Body) (info : queryInfo)
    (written : Str) (presetMap : List Str)
    (hparse : SearchType.parseResponse value = (info, none))
    (hvalidate : SearchType.validate s info = none)
    (hwriter : s.categoryToWriter info.category = some written)
    (hpresets : s.categoryToSetPresets info.category = some presetMap) :
    (info.category = .preset ∨ info.category = .extendSearch ∨ info.category = .merger) ∧
    ∃ s' : Saver,
      (∀ rest : List Body,
        SearchType.Run s (value :: rest) = SearchType.Run s' rest ∧
        Root.Run s (value :: rest) = Root.Run s' rest) ∧
      s'.cfg = s.cfg ∧
      s'.categoryToWriter info.category =
        some (written ++ (info.text ++ s.cfg.CsvSeparator ++ info.filterValue ++ ['\n'])) ∧
      (∃ presetMap' : List Str, s'.categoryToSetPresets info.category = some presetMap' ∧
        (∀ x, x ∈ presetMap' ↔ x ∈ presetMap ∨ x ∈ info.presets) ∧
        (presetMap.Nodup → presetMap'.Nodup)) ∧
      ∀ c : QueryCategory, c ≠ info.category →
        s'.categoryToWriter c = s.categoryToWriter c ∧
        s'.categoryToSetPresets c = s.categoryToSetPresets c := by
  obtain ⟨hempty, htext, hfilter, hcat⟩ := SearchType.validate_none s info hvalidate
  refine ⟨by cases hc : info.category <;> simp_all, _, fun rest =>
    ⟨SearchType.Run_accept s value rest info written hparse hvalidate hwriter,
      Root.Run_append s value rest info written ((Root.parseResponse_eq value).trans hparse)
        hempty htext hfilter hwriter⟩, ?_, ?_, ?_, ?_⟩
  · simp [Saver.addPresets, hpresets]
  · simp [Saver.addPresets, hpresets, CategoryMap.set, newline]
  · refine ⟨info.presets.foldl setInsert presetMap, ?_, mem_foldl_setInsert _ _,
      nodup_foldl_setInsert _ _⟩
    simp [Saver.addPresets, hpresets, CategoryMap.set]
  · intro c hc
    simp [Saver.addPresets, hpresets, CategoryMap.set, hc]

/-- Witness of C10 on the fresh saver and the body with name `a` and catalog value
`preset=5&_st1=x`. -/
theorem accepted_record_appended_witness :
    ∃ s' : Saver,
      (∀ rest : List Body,
        SearchType.Run (SearchType.NewSaver defaultConfig)
            (Body.ofStrings "a" "preset=5&_st1=x" :: rest) = SearchType.Run s' rest ∧
        Root.Run (SearchType.NewSaver defaultConfig)
            (Body.ofStrings "a" "preset=5&_st1=x" :: rest) = Root.Run s' rest) ∧
      s'.categoryToWriter .extendSearch =
        some ("text\tquery\n".toList ++
          ("a".toList ++ ['\t'] ++ "preset=5&_st1=x".toList ++ ['\n'])) ∧
      ∃ presetMap' : List Str, s'.categoryToSetPresets .extendSearch = some presetMap' ∧
        ∀ x, x ∈ presetMap' ↔ x ∈ ([] : List Str) ∨ x ∈ ["5".toList] := by
  obtain ⟨-, s', h1, -, h2, ⟨presetMap', h3, h4, -⟩, -⟩ :=
    accepted_record_appended (SearchType.NewSaver defaultConfig)
      (Body.ofStrings "a" "preset=5&_st1=x")
      ⟨"a".toList, .extendSearch, "preset=5&_st1=x".toList, ["5".toList]⟩
      "text\tquery\n".toList [] (by decide) (by decide) (by decide) (by decide)
  exact ⟨s', h1, h2, presetMap', h3, h4⟩

/-! ## Sorting the preset identifiers -/

theorem strLe_refl (a : Str) : strLe a a = true := by
  induction a with
  | nil => rfl
  | cons c s ih => simp [strLe, ih]

theorem strLe_total (a b : Str) : strLe a b = true ∨ strLe b a = true := by
  induction a generalizing b with
  | nil => exact Or.inl rfl
  | cons c s ih =>
    cases b with
    | nil => exact Or.inr rfl
    | cons d t =>
      simp only [strLe, Bool.or_eq_true, decide_eq_true_eq, Bool.and_eq_true]
      rcases Nat.lt_trichotomy c.toNat d.toNat with h | h | h
      · exact Or.inl (Or.inl h)
      · rcases ih t with h' | h'
        · exact Or.inl (Or.inr ⟨h, h'⟩)
        · exact Or.inr (Or.inr ⟨h.symm, h'⟩)
      · exact Or.inr (Or.inl h)

theorem strLe_trans (a b c : Str) (hab : strLe a b = true) (hbc : strLe b c = true) :
    strLe a c = true := by
  induction a generalizing b c with
  | nil => rfl
  | cons x s ih =>
    cases b with
    | nil => simp [strLe] at hab
    | cons y t =>
      cases c with
      | nil => simp [strLe] at hbc
      | cons z u =>
        simp only [strLe, Bool.or_eq_true, decide_eq_true_eq, Bool.and_eq_true] at hab hbc ⊢
        rcases hab with h1 | ⟨h1, h1'⟩
        · rcases hbc with h2 | ⟨h2, -⟩
          · exact Or.inl (lt_trans h1 h2)
          · exact Or.inl (h2 ▸ h1)
        · rcases hbc with h2 | ⟨h2, h2'⟩
          · exact Or.inl (h1 ▸ h2)
          · exact Or.inr ⟨h1.trans h2, ih t u h1' h2'⟩

theorem Char.eq_of_toNat_eq (c d : Char) (h : c.toNat = d.toNat) : c = d := by
  rw [← Char.ofNat_toNat c, ← Char.ofNat_toNat d, h]

theorem strLe_antisymm (a b : Str) (hab : strLe a b = true) (hba : strLe b a = true) : a = b := by
  induction a generalizing b with
  | nil =>
    cases b with
    | nil => rfl
    | cons d t => simp [strLe] at hba
  | cons c s ih =>
    cases b with
    | nil => simp [strLe] at hab
    | cons d t =>
      simp only [strLe, Bool.or_eq_true, decide_eq_true_eq, Bool.and_eq_true] at hab hba
      rcases hab with h1 | ⟨h1, h1'⟩
      · rcases hba with h2 | ⟨h2, -⟩
        · exact absurd (lt_trans h1 h2) (lt_irrefl _)
        · exact absurd (h2 ▸ h1) (lt_irrefl _)
      · rcases hba with h2 | ⟨-, h2'⟩
        · exact absurd (h1 ▸ h2) (lt_irrefl _)
        · rw [Char.eq_of_toNat_eq c d h1, ih t h1' h2']

theorem Char.lt_iff_toNat (c d : Char) : c < d ↔ c.toNat < d.toNat := Iff.rfl

theorem strLe_false_iff_lt (a b : Str) : strLe a b = false ↔ b < a := by
  induction a generalizing b with
  | nil =>
    simp only [strLe]
    constructor
    · intro h; exact absurd h (by simp)
    · intro h; cases h
  | cons c s ih =>
    cases b with
    | nil =>
      simp only [strLe]
      exact ⟨fun _ => List.Lex.nil, fun _ => trivial⟩
    | cons d t =>
      constructor
      · intro h
        simp only [strLe, Bool.or_eq_false_iff, decide_eq_false_iff_not, Bool.and_eq_false_imp,
          decide_eq_true_eq] at h
        rcases Nat.lt_trichotomy c.toNat d.toNat with h1 | h1 | h1
        · exact absurd h1 h.1
        · have hcd : c = d := Char.eq_of_toNat_eq c d h1
          subst hcd
          exact List.Lex.cons ((ih t).1 (h.2 rfl))
        · exact List.Lex.rel ((Char.lt_iff_toNat d c).2 h1)
      · intro h
        simp only [strLe, Bool.or_eq_false_iff, decide_eq_false_iff_not, Bool.and_eq_false_imp,
          decide_eq_true_eq]
        cases h with
        | cons h' => exact ⟨lt_irrefl _, fun _ => (ih t).2 h'⟩
        | rel h' =>
          have h'' := (Char.lt_iff_toNat d c).1 h'
          exact ⟨by omega, fun e => by omega⟩

theorem strLe_iff_le (a b : Str) : strLe a b = true ↔ a ≤ b := by
  rw [← not_lt, ← strLe_false_iff_lt]
  cases strLe a b <;> simp

theorem slicesSort_sorted (l : List Str) :
    List.Sorted (fun a b => strLe a b = true) (slicesSort l) := by
  haveI : IsTotal Str (fun a b => strLe a b = true) := ⟨strLe_total⟩
  haveI : IsTrans Str (fun a b => strLe a b = true) := ⟨strLe_trans⟩
  exact List.sorted_insertionSort _ l

theorem slicesSort_perm (l : List Str) : (slicesSort l).Perm l :=
  List.perm_insertionSort _ l

theorem slicesSort_eq_of_perm (l₁ l₂ : List Str) (h : l₁.Perm l₂) :
    slicesSort l₁ = slicesSort l₂ := by
  haveI : IsAntisymm Str (fun a b => strLe a b = true) := ⟨strLe_antisymm⟩
  exact List.eq_of_perm_of_sorted
    (((slicesSort_perm l₁).trans h).trans (slicesSort_perm l₂).symm)
    (slicesSort_sorted l₁) (slicesSort_sorted l₂)

theorem slicesSort_eq_of_mem_iff (l₁ l₂ : List Str) (h₁ : l₁.Nodup) (h₂ : l₂.Nodup)
    (h : ∀ x, x ∈ l₁ ↔ x ∈ l₂) : slicesSort l₁ = slicesSort l₂ :=
  slicesSort_eq_of_perm l₁ l₂ ((List.perm_ext_iff_of_nodup h₁ h₂).2 h)

/-- C12: for every set of preset identifiers, given as the list of its elements in any
order, `getSortedPresets` returns a list in non-decreasing byte-wise lexicographic order
that is a rearrangement of the elements: each element of the set is there exactly once and
nothing else is; the result is the same for every order in which the set is iterated, and
the preset line that `writePresets` persists for a category is that list joined with the
presets separator. -/
theorem getSortedPresets_sorted_perm (setOfPresets : List Str) :
    List.Sorted (fun a b : Str => a ≤ b) (getSortedPresets setOfPresets) ∧
    (getSortedPresets setOfPresets).Perm setOfPresets ∧
    (∀ x, x ∈ getSortedPresets setOfPresets ↔ x ∈ setOfPresets) ∧
    (setOfPresets.Nodup → (getSortedPresets setOfPresets).Nodup) ∧
    (∀ iterated : List Str, iterated.Perm setOfPresets →
      getSortedPresets iterated = getSortedPresets setOfPresets) ∧
    (∀ (s : Saver) (category : QueryCategory),
      s.categoryToSetPresets category = some setOfPresets →
        s.writePresets category =
          some (Join (getSortedPresets setOfPresets) s.cfg.PresetsSeparator)) := by
  refine ⟨?_, slicesSort_perm _, fun x => (slicesSort_perm _).mem_iff, ?_, ?_, ?_⟩
  · exact (slicesSort_sorted setOfPresets).imp (fun h => (strLe_iff_le _ _).1 h)
  · intro hnodup
    exact (slicesSort_perm setOfPresets).nodup_iff.2 hnodup
  · intro iterated hperm
    exact slicesSort_eq_of_perm _ _ hperm
  · intro s category h
    simp [Saver.writePresets, h]

/-- Witness of C12 on the set with the identifiers `7`, `10` and `5`. -/
theorem getSortedPresets_sorted_perm_witness :
    (getSortedPresets ["7".toList, "10".toList, "5".toList]).Nodup ∧
    getSortedPresets ["5".toList, "7".toList, "10".toList] =
      getSortedPresets ["7".toList, "10".toList, "5".toList] ∧
    (SearchType.Run (SearchType.NewSaver defaultConfig)
      [Body.ofStrings "a" "preset=7&preset=10&preset=5"]).presetFiles .preset =
        some "10,5,7".toList :=
  ⟨(getSortedPresets_sorted_perm ["7".toList, "10".toList, "5".toList]).2.2.2.1 (by decide),
    (getSortedPresets_sorted_perm ["7".toList, "10".toList, "5".toList]).2.2.2.2.1
      ["5".toList, "7".toList, "10".toList] (by decide),
    by decide⟩

theorem foldl_setInsert_of_subset (presets presetMap : List Str)
    (h : ∀ x ∈ presets, x ∈ presetMap) : presets.foldl setInsert presetMap = presetMap := by
  induction presets generalizing presetMap with
  | nil => rfl
  | cons p ps ih =>
    have hp : setInsert presetMap p = presetMap := by
      simp [setInsert, h p (List.mem_cons_self _ _)]
    rw [List.foldl_cons, hp]
    exact ih presetMap (fun x hx => h x (List.mem_cons_of_mem _ hx))

theorem CategoryMap.set_set {α : Type} (m : CategoryMap α) (k : QueryCategory) (v w : α) :
    (m.set k v).set k w = m.set k w := by
  funext c
  by_cases h : c = k <;> simp [CategoryMap.set, h]

/-- C13: merging preset identifiers into the set of a category is idempotent: merging the
identifiers of a record a second time leaves the set as it is after the first time, in the
set itself and in the saver; an identifier list with repetitions gives the same sorted
output as any list with the same identifiers; and in the sorted output of a set every
merged identifier is there, with no identifier twice. -/
theorem merge_presets_idempotent (presetMap presets : List Str) :
    presets.foldl setInsert (presets.foldl setInsert presetMap) =
      presets.foldl setInsert presetMap ∧
    (∀ x : Str, setInsert (setInsert presetMap x) x = setInsert presetMap x) ∧
    (∀ (s : Saver) (category : QueryCategory),
      (s.addPresets category presets).addPresets category presets =
        s.addPresets category presets) ∧
    (presetMap.Nodup → ∀ repeated : List Str, (∀ x, x ∈ repeated ↔ x ∈ presets) →
      getSortedPresets (repeated.foldl setInsert presetMap) =
        getSortedPresets (presets.foldl setInsert presetMap)) ∧
    (presetMap.Nodup →
      (getSortedPresets (presets.foldl setInsert presetMap)).Nodup ∧
      ∀ x ∈ presets, x ∈ getSortedPresets (presets.foldl setInsert presetMap)) := by
  have hidem : ∀ pm : List Str,
      presets.foldl setInsert (presets.foldl setInsert pm) = presets.foldl setInsert pm :=
    fun pm => foldl_setInsert_of_subset _ _
      (fun x hx => (mem_foldl_setInsert presets pm x).2 (Or.inr hx))
  refine ⟨hidem presetMap, ?_, ?_, ?_, ?_⟩
  · intro x
    have := foldl_setInsert_of_subset [x] (setInsert presetMap x) (fun y hy => by
      rw [List.mem_singleton] at hy
      subst hy
      exact (mem_foldl_setInsert [y] presetMap y).2 (Or.inr (List.mem_singleton_self y)))
    simpa using this
  · intro s category
    cases h : s.categoryToSetPresets category with
    | none => simp [Saver.addPresets, h]
    | some pm => simp [Saver.addPresets, h, CategoryMap.set, CategoryMap.set_set, hidem pm]
  · intro hnodup repeated hmem
    apply slicesSort_eq_of_mem_iff _ _ (nodup_foldl_setInsert _ _ hnodup)
      (nodup_foldl_setInsert _ _ hnodup)
    intro x
    rw [mem_foldl_setInsert, mem_foldl_setInsert, hmem]
  · intro hnodup
    refine ⟨(slicesSort_perm _).nodup_iff.2 (nodup_foldl_setInsert _ _ hnodup), ?_⟩
    intro x hx
    exact (slicesSort_perm _).mem_iff.2 ((mem_foldl_setInsert _ _ _).2 (Or.inr hx))

/-- Witness of C13: the identifiers `7`, `5`, `7` merged into the set holding `5`. -/
theorem merge_presets_idempotent_witness :
    getSortedPresets (["7".toList, "5".toList, "7".toList].foldl setInsert ["5".toList]) =
      getSortedPresets (["7".toList, "5".toList].foldl setInsert ["5".toList]) ∧
    getSortedPresets (["7".toList, "5".toList].foldl setInsert ["5".toList]) =
      ["5".toList, "7".toList] :=
  ⟨(merge_presets_idempotent ["5".toList] ["7".toList, "5".toList]).2.2.2.1 (by decide)
      ["7".toList, "5".toList, "7".toList] (fun x => by simp only [List.mem_cons]; tauto),
    by decide⟩

/-! ## The savers: a stream of bodies -/

theorem SearchType.Run_head (s : Saver) (value : Body) (rest : List Body) :
    SearchType.Run s (value :: rest) =
      if (SearchType.Run s [value]).outcome = .ok then
        SearchType.Run (SearchType.Run s [value]).saver rest
      else SearchType.Run s [value] := by
  rcases hp : SearchType.parseResponse value with ⟨info, _ | err⟩
  · cases hv : SearchType.validate s info with
    | none =>
      cases hw : s.categoryToWriter info.category with
      | none => simp [SearchType.Run, hp, hv, hw]
      | some written => simp [SearchType.Run, hp, hv, hw]
    | some err =>
      by_cases hu : err.Is .ErrUnknownCategory = true
      · simp [SearchType.Run, hp, hv, hu]
      · simp [SearchType.Run, hp, hv, hu]
  · simp [SearchType.Run, hp]

theorem SearchType.Run_prefix (s : Saver) (pre rest : List Body) :
    SearchType.Run s (pre ++ rest) =
      if (SearchType.Run s pre).outcome = .ok then
        SearchType.Run (SearchType.Run s pre).saver rest
      else SearchType.Run s pre := by
  induction pre generalizing s with
  | nil => simp [SearchType.Run]
  | cons v pre ih =>
    rw [List.cons_append, SearchType.Run_head s v (pre ++ rest), SearchType.Run_head s v pre]
    by_cases h : (SearchType.Run s [v]).outcome = .ok
    · simp only [h, if_true]
      exact ih _
    · simp [h]

theorem Root.Run_head_root (s : Saver) (value : Body) (rest : List Body) :
    Root.Run s (value :: rest) =
      if (Root.Run s [value]).outcome = .ok then Root.Run (Root.Run s [value]).saver rest
      else Root.Run s [value] := by
  rcases hp : Root.parseResponse value with ⟨info, _ | err⟩
  · by_cases h0 : info.text = [] ∨ info.filterValue = []
    · simp [Root.Run, hp, h0]
    · by_cases h1 : Contains info.text s.cfg.CsvSeparator = true
      · simp [Root.Run, hp, h0, h1]
      · by_cases h2 : Contains info.filterValue s.cfg.CsvSeparator = true
        · simp [Root.Run, hp, h0, h1, h2]
        · cases hw : s.categoryToWriter info.category with
          | none => simp [Root.Run, hp, h0, h1, h2, hw]
          | some written => simp [Root.Run, hp, h0, h1, h2, hw]
  · simp [Root.Run, hp]

theorem Root.Run_prefix_root (s : Saver) (pre rest : List Body) :
    Root.Run s (pre ++ rest) =
      if (Root.Run s pre).outcome = .ok then Root.Run (Root.Run s pre).saver rest
      else Root.Run s pre := by
  induction pre generalizing s with
  | nil => simp [Root.Run]
  | cons v pre ih =>
    rw [List.cons_append, Root.Run_head_root s v (pre ++ rest), Root.Run_head_root s v pre]
    by_cases h : (Root.Run s [v]).outcome = .ok
    · simp only [h, if_true]
      exact ih _
    · simp [h]

theorem SearchType.validate_congr (s s' : Saver) (info : queryInfo) (h : s.cfg = s'.cfg) :
    SearchType.validate s info = SearchType.validate s' info := by
  simp [SearchType.validate, h]

theorem Saver.addPresets_cfg (s : Saver) (c : QueryCategory) (presets : List Str) :
    (s.addPresets c presets).cfg = s.cfg := by
  unfold Saver.addPresets
  cases s.categoryToSetPresets c <;> rfl

theorem Saver.addPresets_writer (s : Saver) (c : QueryCategory) (presets : List Str) :
    (s.addPresets c presets).categoryToWriter = s.categoryToWriter := by
  unfold Saver.addPresets
  cases s.categoryToSetPresets c <;> rfl

theorem Saver.addPresets_presets (s : Saver) (c c' : QueryCategory) (presets : List Str) :
    (s.addPresets c presets).categoryToSetPresets c' =
      if c' = c then (s.categoryToSetPresets c).map (fun pm => presets.foldl setInsert pm)
      else s.categoryToSetPresets c' := by
  unfold Saver.addPresets
  cases h : s.categoryToSetPresets c with
  | none =>
    by_cases hc : c' = c
    · simp [hc, h]
    · simp [hc]
  | some pm =>
    by_cases hc : c' = c <;> simp [CategoryMap.set, hc]

theorem SearchType.NewSaver_eq (cfg : Config) :
    SearchType.NewSaver cfg =
      ⟨cfg,
        fun c => if c = .unknown then none else some (SearchType.openFileByType cfg),
        fun c => if c = .unknown then none else some []⟩ := by
  simp only [SearchType.NewSaver, allExistedValidTypes, List.foldl_cons, List.foldl_nil]
  congr 1
  · funext c; cases c <;> simp [CategoryMap.set]
  · funext c; cases c <;> simp [CategoryMap.set]

theorem SearchType.NewSaver_ready (cfg : Config) : (SearchType.NewSaver cfg).Ready := by
  rw [SearchType.NewSaver_eq]
  intro c hc
  simp [hc]

theorem SearchType.accepted_of_validate (s : Saver) (value : Body) (info : queryInfo)
    (hp : SearchType.parseResponse value = (info, none)) :
    SearchType.accepted s.cfg value =
      if SearchType.validate s info = none then some info else none := by
  simp only [SearchType.accepted, hp]
  rw [SearchType.validate_congr ⟨s.cfg, fun _ => none, fun _ => none⟩ s info rfl]

theorem SearchType.Run_ok_state (bodies : List Body) (s : Saver)
    (hok : (SearchType.Run s bodies).outcome = .ok) :
    (SearchType.Run s bodies).saver.cfg = s.cfg ∧
    (SearchType.Run s bodies).presetFiles = (SearchType.Run s bodies).saver.writePresets ∧
    (∀ c, (SearchType.Run s bodies).saver.categoryToWriter c =
      (s.categoryToWriter c).map (fun written =>
        written ++ ((SearchType.acceptedFor s.cfg c bodies).map (recordLine s.cfg)).flatten)) ∧
    (∀ c, (SearchType.Run s bodies).saver.categoryToSetPresets c =
      (s.categoryToSetPresets c).map (fun presetMap =>
        ((SearchType.acceptedFor s.cfg c bodies).flatMap (fun info => info.presets)).foldl
          setInsert presetMap)) := by
  induction bodies generalizing s with
  | nil =>
    refine ⟨rfl, rfl, fun c => ?_, fun c => ?_⟩
    · cases h : s.categoryToWriter c <;> simp [SearchType.Run, SearchType.acceptedFor, h]
    · cases h : s.categoryToSetPresets c <;> simp [SearchType.Run, SearchType.acceptedFor, h]
  | cons v rest ih =>
    rcases hp : SearchType.parseResponse v with ⟨info, _ | err⟩
    · have hacc := SearchType.accepted_of_validate s v info hp
      cases hv : SearchType.validate s info with
      | some err =>
        by_cases hu : err = .ErrUnknownCategory
        · subst hu
          have hrun := SearchType.Run_skip s v rest info hp hv
          rw [hrun] at hok ⊢
          have hnone : SearchType.accepted s.cfg v = none := by simp [hacc, hv]
          have hfor : ∀ c, SearchType.acceptedFor s.cfg c (v :: rest) =
              SearchType.acceptedFor s.cfg c rest := fun c => by
            simp [SearchType.acceptedFor, List.filterMap_cons, hnone]
          simp only [hfor]
          exact ih s hok
        · rw [SearchType.Run_error s v rest info err hp hv hu] at hok
          simp at hok
      | none =>
        cases hw : s.categoryToWriter info.category with
        | none =>
          simp [SearchType.Run, hp, hv, hw] at hok
        | some written =>
          have hrun := SearchType.Run_accept s v rest info written hp hv hw
          rw [hrun] at hok ⊢
          obtain ⟨h1, h2, h3, h4⟩ := ih _ hok
          have hsome : SearchType.accepted s.cfg v = some info := by simp [hacc, hv]
          have hfor : ∀ c, SearchType.acceptedFor s.cfg c (v :: rest) =
              if info.category = c then info :: SearchType.acceptedFor s.cfg c rest
              else SearchType.acceptedFor s.cfg c rest := fun c => by
            simp only [SearchType.acceptedFor, List.filterMap_cons, hsome, List.filter_cons]
            by_cases hc : info.category = c <;> simp [hc]
          rw [Saver.addPresets_cfg] at h1 h3 h4
          refine ⟨h1, h2, fun c => ?_, fun c => ?_⟩
          · rw [h3 c, Saver.addPresets_writer, hfor c]
            by_cases hc : info.category = c
            · subst hc
              simp [CategoryMap.set, hw, recordLine, newline]
            · have hc' : ¬ c = info.category := fun e => hc e.symm
              simp [CategoryMap.set, hc, hc']
          · rw [h4 c, Saver.addPresets_presets, hfor c]
            by_cases hc : info.category = c
            · subst hc
              cases hps : s.categoryToSetPresets info.category <;> simp [hps]
            · have hc' : ¬ c = info.category := fun e => hc e.symm
              simp [hc, hc']
    · simp [SearchType.Run, hp] at hok

theorem SearchType.Run_single_outcome (s s' : Saver) (value : Body) (hcfg : s.cfg = s'.cfg)
    (hw : ∀ c, (s.categoryToWriter c).isSome = (s'.categoryToWriter c).isSome) :
    (SearchType.Run s [value]).outcome = (SearchType.Run s' [value]).outcome := by
  rcases hp : SearchType.parseResponse value with ⟨info, _ | err⟩
  · have hvv := SearchType.validate_congr s s' info hcfg
    cases hv : SearchType.validate s info with
    | some err =>
      have hv' : SearchType.validate s' info = some err := by rw [← hvv]; exact hv
      by_cases hu : err.Is .ErrUnknownCategory = true
      · simp [SearchType.Run, hp, hv, hv', hu]
      · simp [SearchType.Run, hp, hv, hv', hu]
    | none =>
      have hv' : SearchType.validate s' info = none := by rw [← hvv]; exact hv
      have hwc := hw info.category
      cases h1 : s.categoryToWriter info.category with
      | none =>
        cases h2 : s'.categoryToWriter info.category with
        | none => simp [SearchType.Run, hp, hv, hv', h1, h2]
        | some w2 => simp [h1, h2] at hwc
      | some w1 =>
        cases h2 : s'.categoryToWriter info.category with
        | none => simp [h1, h2] at hwc
        | some w2 => simp [SearchType.Run, hp, hv, hv', h1, h2]
  · simp [SearchType.Run, hp]

theorem SearchType.Run_single_saver (s : Saver) (value : Body) :
    (SearchType.Run s [value]).saver.cfg = s.cfg ∧
    ∀ c, ((SearchType.Run s [value]).saver.categoryToWriter c).isSome =
      (s.categoryToWriter c).isSome := by
  rcases hp : SearchType.parseResponse value with ⟨info, _ | err⟩
  · cases hv : SearchType.validate s info with
    | some err =>
      by_cases hu : err.Is .ErrUnknownCategory = true
      · simp [SearchType.Run, hp, hv, hu]
      · simp [SearchType.Run, hp, hv, hu]
    | none =>
      cases hw : s.categoryToWriter info.category with
      | none => simp [SearchType.Run, hp, hv, hw]
      | some written =>
        simp only [SearchType.Run, hp, hv, hw, Saver.addPresets_cfg, Saver.addPresets_writer,
          true_and]
        intro c
        by_cases hc : c = info.category
        · subst hc; simp [CategoryMap.set, hw]
        · simp [CategoryMap.set, hc]
  · simp [SearchType.Run, hp]

theorem SearchType.Run_ok_iff (bodies : List Body) (s : Saver) :
    (SearchType.Run s bodies).outcome = .ok ↔
      ∀ v ∈ bodies, (SearchType.Run s [v]).outcome = .ok := by
  induction bodies generalizing s with
  | nil => simp [SearchType.Run]
  | cons v rest ih =>
    rw [SearchType.Run_head]
    obtain ⟨hcfg, hw⟩ := SearchType.Run_single_saver s v
    by_cases h : (SearchType.Run s [v]).outcome = .ok
    · simp only [h, if_true, List.mem_cons, forall_eq_or_imp, true_and]
      rw [ih]
      constructor
      · intro hall x hx
        rw [← SearchType.Run_single_outcome _ s x hcfg hw]
        exact hall x hx
      · intro hall x hx
        rw [SearchType.Run_single_outcome _ s x hcfg hw]
        exact hall x hx
    · simp [h]

theorem acceptedFor_perm (cfg : Config) (c : QueryCategory) (bodies reordered : List Body)
    (h : reordered.Perm bodies) :
    (SearchType.acceptedFor cfg c reordered).Perm (SearchType.acceptedFor cfg c bodies) :=
  (h.filterMap _).filter _

theorem flatMap_presets_mem_perm (l₁ l₂ : List queryInfo) (h : l₁.Perm l₂) (x : Str) :
    x ∈ l₁.flatMap (fun info => info.presets) ↔ x ∈ l₂.flatMap (fun info => info.presets) := by
  simp only [List.mem_flatMap]
  exact ⟨fun ⟨i, hi, hx⟩ => ⟨i, h.mem_iff.1 hi, hx⟩, fun ⟨i, hi, hx⟩ => ⟨i, h.mem_iff.2 hi, hx⟩⟩

/-- C14: the preset dump does not depend on the order of arrival: when the searchType
saver, started fresh, accepts or skips every body of a stream, it does so for every
rearrangement of the stream, and the preset line persisted for each category is the same
for the two orders. -/
theorem preset_dump_order_independent (cfg : Config) (bodies reordered : List Body)
    (hperm : reordered.Perm bodies)
    (hok : (SearchType.Run (SearchType.NewSaver cfg) bodies).outcome = .ok) :
    (SearchType.Run (SearchType.NewSaver cfg) reordered).outcome = .ok ∧
    ∀ c : QueryCategory,
      (SearchType.Run (SearchType.NewSaver cfg) reordered).presetFiles c =
        (SearchType.Run (SearchType.NewSaver cfg) bodies).presetFiles c := by
  have hok' : (SearchType.Run (SearchType.NewSaver cfg) reordered).outcome = .ok := by
    rw [SearchType.Run_ok_iff] at hok ⊢
    exact fun v hv => hok v (hperm.mem_iff.1 hv)
  refine ⟨hok', fun c => ?_⟩
  obtain ⟨h1, h2, -, h4⟩ := SearchType.Run_ok_state bodies _ hok
  obtain ⟨h1', h2', -, h4'⟩ := SearchType.Run_ok_state reordered _ hok'
  rw [h2, h2']
  simp only [Saver.writePresets, h1, h1', h4 c, h4' c]
  cases hps : (SearchType.NewSaver cfg).categoryToSetPresets c with
  | none => rfl
  | some pm =>
    have hnodup : pm.Nodup := by
      rw [SearchType.NewSaver_eq] at hps
      by_cases hc : c = .unknown
      · simp [hc] at hps
      · simp [hc] at hps
        subst hps
        exact List.nodup_nil
    simp only [Option.map_some']
    congr 2
    apply slicesSort_eq_of_mem_iff _ _ (nodup_foldl_setInsert _ _ hnodup)
      (nodup_foldl_setInsert _ _ hnodup)
    intro x
    rw [mem_foldl_setInsert, mem_foldl_setInsert,
      flatMap_presets_mem_perm _ _ (acceptedFor_perm _ c bodies reordered hperm) x]

/-- Witness of C14 on the stream of `a` (ExtendSearch, identifier `5`), `q` (skipped) and
`b` (Preset, identifier `7`), and the stream in the opposite order. -/
theorem preset_dump_order_independent_witness :
    (SearchType.Run (SearchType.NewSaver defaultConfig)
      [Body.ofStrings "b" "preset=7", Body.ofStrings "q" "x=1",
        Body.ofStrings "a" "preset=5&_st1=x"]).outcome = .ok ∧
    ∀ c : QueryCategory,
      (SearchType.Run (SearchType.NewSaver defaultConfig)
        [Body.ofStrings "b" "preset=7", Body.ofStrings "q" "x=1",
          Body.ofStrings "a" "preset=5&_st1=x"]).presetFiles c =
      (SearchType.Run (SearchType.NewSaver defaultConfig)
        [Body.ofStrings "a" "preset=5&_st1=x", Body.ofStrings "q" "x=1",
          Body.ofStrings "b" "preset=7"]).presetFiles c :=
  preset_dump_order_independent defaultConfig
    [Body.ofStrings "a" "preset=5&_st1=x", Body.ofStrings "q" "x=1", Body.ofStrings "b" "preset=7"]
    [Body.ofStrings "b" "preset=7", Body.ofStrings "q" "x=1", Body.ofStrings "a" "preset=5&_st1=x"]
    (by decide) (by decide)

theorem Root.Run_cfg (s : Saver) (bodies : List Body) : (Root.Run s bodies).saver.cfg = s.cfg := by
  induction bodies generalizing s with
  | nil => rfl
  | cons v rest ih =>
    rcases hp : Root.parseResponse v with ⟨info, _ | err⟩
    · by_cases h0 : info.text = [] ∨ info.filterValue = []
      · rw [Root.Run_empty s v rest info hp h0]
      · by_cases h1 : Contains info.text s.cfg.CsvSeparator = true
        · rw [Root.Run_separator_text s v rest info hp h0 h1]
        · by_cases h2 : Contains info.filterValue s.cfg.CsvSeparator = true
          · rw [Root.Run_separator_filterValue s v rest info hp h0 h1 h2]
          · cases hw : s.categoryToWriter info.category with
            | none => rw [Root.Run_nilWriter s v rest info hp h0 h1 h2 hw]
            | some written =>
              rw [Root.Run_append s v rest info written hp h0 h1 h2 hw, ih,
                Saver.addPresets_cfg]
    · simp [Root.Run, hp]

theorem SearchType.Run_single_error (s : Saver) (value : Body) (e : SearchType.Error)
    (h : (SearchType.Run s [value]).outcome = .error e) :
    SearchType.Run s [value] = ⟨s, fun _ => none, .error e⟩ ∧
    ((∃ d, e = .decode d) ∨ e = .ErrEmptyResponse ∨
      ∃ field, e = .ErrInvalidResponseSeparator field s.cfg.CsvSeparator) := by
  rcases hp : SearchType.parseResponse value with ⟨info, _ | err⟩
  · cases hv : SearchType.validate s info with
    | some err =>
      by_cases hu : err = .ErrUnknownCategory
      · subst hu
        rw [SearchType.Run_skip s value [] info hp hv] at h
        simp [SearchType.Run] at h
      · rw [SearchType.Run_error s value [] info err hp hv hu] at h ⊢
        simp only [Outcome.error.injEq] at h
        subst h
        refine ⟨rfl, ?_⟩
        unfold SearchType.validate at hv
        split_ifs at hv
        · exact Or.inr (Or.inl (Option.some.inj hv).symm)
        · exact Or.inr (Or.inr ⟨_, (Option.some.inj hv).symm⟩)
        · exact Or.inr (Or.inr ⟨_, (Option.some.inj hv).symm⟩)
        · exact absurd (Option.some.inj hv).symm hu
    | none =>
      cases hw : s.categoryToWriter info.category with
      | none => simp [SearchType.Run, hp, hv, hw] at h
      | some written => simp [SearchType.Run, hp, hv, hw] at h
  · simp only [SearchType.Run, hp, Outcome.error.injEq] at h ⊢
    subst h
    exact ⟨rfl, Or.inl ⟨err, rfl⟩⟩

theorem Root.Run_single_error_root (s : Saver) (value : Body) (e : Root.Error)
    (h : (Root.Run s [value]).outcome = .error e) :
    Root.Run s [value] = ⟨s, fun _ => none, .error e⟩ ∧
    ((∃ d, e = .decode d) ∨ e = .InvalidEmptyResponse ∨
      ∃ field, e = .InvalidResponseSeparator field s.cfg.CsvSeparator) := by
  rcases hp : Root.parseResponse value with ⟨info, _ | err⟩
  · by_cases h0 : info.text = [] ∨ info.filterValue = []
    · rw [Root.Run_empty s value [] info hp h0] at h ⊢
      simp only [Outcome.error.injEq] at h
      subst h
      exact ⟨rfl, Or.inr (Or.inl rfl)⟩
    · by_cases h1 : Contains info.text s.cfg.CsvSeparator = true
      · rw [Root.Run_separator_text s value [] info hp h0 h1] at h ⊢
        simp only [Outcome.error.injEq] at h
        subst h
        exact ⟨rfl, Or.inr (Or.inr ⟨_, rfl⟩)⟩
      · by_cases h2 : Contains info.filterValue s.cfg.CsvSeparator = true
        · rw [Root.Run_separator_filterValue s value [] info hp h0 h1 h2] at h ⊢
          simp only [Outcome.error.injEq] at h
          subst h
          exact ⟨rfl, Or.inr (Or.inr ⟨_, rfl⟩)⟩
        · cases hw : s.categoryToWriter info.category with
          | none =>
            rw [Root.Run_nilWriter s value [] info hp h0 h1 h2 hw] at h
            simp at h
          | some written =>
            rw [Root.Run_append s value [] info written hp h0 h1 h2 hw] at h
            simp [Root.Run] at h
  · simp only [Root.Run, hp, Outcome.error.injEq] at h ⊢
    subst h
    exact ⟨rfl, Or.inl ⟨err, rfl⟩⟩

/-- C15: partial output on a fatal error. When the bodies before the k-th are all accepted
or skipped and the k-th yields an error, the searchType `Run` on the whole stream returns
that error and leaves the saver exactly as the first k-1 bodies made it, whatever follows
the k-th body; the error is a decode error, the empty-response error or the
separator-collision error. The root `Run` does the same when the channel `done` is still
open. When `done` is closed already, as after an interrupt signal, the root `Run` panics on
closing it again: the error is not returned, and the files are not flushed. -/
theorem partial_output_retained (s : Saver) (pre post : List Body) (bad : Body) :
    (∀ e : SearchType.Error,
      (SearchType.Run s pre).outcome = .ok →
      (SearchType.Run (SearchType.Run s pre).saver [bad]).outcome = .error e →
        SearchType.Run s (pre ++ bad :: post) =
          ⟨(SearchType.Run s pre).saver, fun _ => none, .error e⟩ ∧
        ((∃ d, e = .decode d) ∨ e = .ErrEmptyResponse ∨
          ∃ field, e = .ErrInvalidResponseSeparator field s.cfg.CsvSeparator)) ∧
    (∀ e : Root.Error,
      (Root.Run s pre).outcome = .ok →
      (Root.Run (Root.Run s pre).saver [bad]).outcome = .error e →
        Root.RunDone s false (pre ++ bad :: post) =
          ⟨(Root.Run s pre).saver, fun _ => none, .error e⟩ ∧
        Root.RunDone s true (pre ++ bad :: post) =
          ⟨(Root.Run s pre).saver, fun _ => none, .closedChannelPanic⟩ ∧
        ((∃ d, e = .decode d) ∨ e = .InvalidEmptyResponse ∨
          ∃ field, e = .InvalidResponseSeparator field s.cfg.CsvSeparator)) := by
  constructor
  · intro e hpre hbad
    obtain ⟨h1, h2⟩ := SearchType.Run_single_error _ bad e hbad
    rw [(SearchType.Run_ok_state pre s hpre).1] at h2
    refine ⟨?_, h2⟩
    rw [SearchType.Run_prefix, if_pos hpre, SearchType.Run_head, h1]
    simp
  · intro e hpre hbad
    obtain ⟨h1, h2⟩ := Root.Run_single_error_root _ bad e hbad
    have hcfg : (Root.Run s pre).saver.cfg = s.cfg := Root.Run_cfg s pre
    rw [hcfg] at h2
    have hrun : Root.Run s (pre ++ bad :: post) =
        ⟨(Root.Run s pre).saver, fun _ => none, .error e⟩ := by
      rw [Root.Run_prefix_root, if_pos hpre, Root.Run_head_root, h1]
      simp
    exact ⟨Root.RunDone_of_error s _ false _ _ _ hrun,
      Root.RunDone_of_error s _ true _ _ _ hrun, h2⟩

/-- Witness of C15: the stream of `b` (accepted), a body with an empty name (fatal) and
`a`. -/
theorem partial_output_retained_witness :
    SearchType.Run (SearchType.NewSaver defaultConfig)
        ([Body.ofStrings "b" "preset=7"] ++
          Body.ofStrings "" "preset=9" :: [Body.ofStrings "a" "preset=5&_st1=x"]) =
      ⟨(SearchType.Run (SearchType.NewSaver defaultConfig) [Body.ofStrings "b" "preset=7"]).saver,
        fun _ => none, .error .ErrEmptyResponse⟩ ∧
    RootPipeline.run RootPipeline.start [.interrupt] = some ⟨true, false, true⟩ ∧
    Root.RunDone (Root.NewSaver defaultConfig) true
        ([Body.ofStrings "b" "preset=7"] ++
          Body.ofStrings "" "preset=9" :: [Body.ofStrings "a" "preset=5&_st1=x"]) =
      ⟨(Root.Run (Root.NewSaver defaultConfig) [Body.ofStrings "b" "preset=7"]).saver,
        fun _ => none, .closedChannelPanic⟩ :=
  ⟨((partial_output_retained (SearchType.NewSaver defaultConfig) [Body.ofStrings "b" "preset=7"]
      [Body.ofStrings "a" "preset=5&_st1=x"] (Body.ofStrings "" "preset=9")).1
        .ErrEmptyResponse (by decide) (by decide)).1,
    by decide,
    ((partial_output_retained (Root.NewSaver defaultConfig) [Body.ofStrings "b" "preset=7"]
      [Body.ofStrings "a" "preset=5&_st1=x"] (Body.ofStrings "" "preset=9")).2
        .InvalidEmptyResponse (by decide) (by decide)).2.1⟩

/-! ## The queries file read back -/

theorem Split_ne_nil (s : Str) (sep : Char) : Split s sep ≠ [] := by
  cases s with
  | nil => simp [Split]
  | cons c s => by_cases h : c = sep <;> simp [Split, h]

theorem Split_append_sep (x y : Str) (sep : Char) (h : sep ∉ x) :
    Split (x ++ sep :: y) sep = x :: Split y sep := by
  induction x with
  | nil => simp [Split]
  | cons c x ih =>
    have hc : c ≠ sep := fun e => h (e ▸ List.mem_cons_self _ _)
    have hx : sep ∉ x := fun e => h (List.mem_cons_of_mem _ e)
    simp [Split, hc, ih hx]

theorem Cut_append_sep (x y : Str) (sep : Char) (h : sep ∉ x) :
    Cut (x ++ sep :: y) sep = (x, y, true) := by
  induction x with
  | nil => simp [Cut]
  | cons c x ih =>
    have hc : c ≠ sep := fun e => h (e ▸ List.mem_cons_self _ _)
    have hx : sep ∉ x := fun e => h (List.mem_cons_of_mem _ e)
    simp [Cut, hc, ih hx]

theorem CutString_singleton (s : Str) (sep : Char) : CutString s [sep] = Cut s sep := by
  induction s with
  | nil => simp [CutString, Cut]
  | cons c s ih =>
    by_cases hc : c = sep
    · subst hc
      simp [CutString, Cut, List.isPrefixOf]
    · have hc' : ¬ sep = c := fun e => hc e.symm
      simp [CutString, Cut, List.isPrefixOf, hc, hc', ih]

theorem Split_lines (lines : List Str) (h : ∀ l ∈ lines, '\n' ∉ l) :
    Split ((lines.map (fun l => l ++ ['\n'])).flatten) '\n' = lines ++ [[]] := by
  induction lines with
  | nil => simp [Split]
  | cons l ls ih =>
    have hl : '\n' ∉ l := h l (List.mem_cons_self _ _)
    simp only [List.map_cons, List.flatten_cons, List.append_assoc, List.singleton_append,
      List.cons_append]
    rw [Split_append_sep _ _ _ hl, List.nil_append,
      ih (fun x hx => h x (List.mem_cons_of_mem _ hx))]

theorem textLines_lines (lines : List Str) (h : ∀ l ∈ lines, '\n' ∉ l) :
    textLines ((lines.map (fun l => l ++ ['\n'])).flatten) = lines := by
  rw [textLines, Split_lines lines h, List.dropLast_concat]

theorem SearchType.acceptedFor_valid (cfg : Config) (c : QueryCategory) (bodies : List Body)
    (info : queryInfo) (h : info ∈ SearchType.acceptedFor cfg c bodies) :
    info.category = c ∧
    SearchType.validate ⟨cfg, fun _ => none, fun _ => none⟩ info = none := by
  simp only [SearchType.acceptedFor, List.mem_filter, List.mem_filterMap,
    decide_eq_true_eq] at h
  obtain ⟨⟨v, -, hv⟩, hc⟩ := h
  refine ⟨hc, ?_⟩
  unfold SearchType.accepted at hv
  rcases hp : SearchType.parseResponse v with ⟨info', _ | err⟩
  · rw [hp] at hv
    simp only at hv
    split_ifs at hv with hval
    cases hv
    exact hval
  · rw [hp] at hv
    simp at hv

/-- C11, as stated, fails. With the tab as delimiter the body with name `a<newline>b` and
catalog value `preset=7` is accepted for Preset, the queries file then holds the header
and `a<newline>b<tab>preset=7<newline>`, and reading it back line by line gives the pairs
(`a`, empty) and (`b`, `preset=7`) instead of the accepted pair. With the newline as
delimiter the accepted record (`a`, `preset=7`) reads back as three lines. With the
two-byte delimiter `||` the accepted record (`a|`, `preset=7`) reads back as
(`a`, `|preset=7`). -/
theorem queries_round_trip_counterexample :
    SearchType.acceptedFor defaultConfig .preset [Body.ofStrings "a\nb" "preset=7"] =
      [⟨"a\nb".toList, .preset, "preset=7".toList, ["7".toList]⟩] ∧
    (SearchType.Run (SearchType.NewSaver defaultConfig)
      [Body.ofStrings "a\nb" "preset=7"]).saver.categoryToWriter .preset =
        some "text\tquery\na\nb\tpreset=7\n".toList ∧
    readQueries "text\tquery\na\nb\tpreset=7\n".toList ['\t'] =
      [("a".toList, []), ("b".toList, "preset=7".toList)] ∧
    (SearchType.Run (SearchType.NewSaver ⟨['\n'], [',']⟩)
      [Body.ofStrings "a" "preset=7"]).saver.categoryToWriter .preset =
        some "text\nquery\na\npreset=7\n".toList ∧
    readQueries "text\nquery\na\npreset=7\n".toList ['\n'] =
      [("query".toList, []), ("a".toList, []), ("preset=7".toList, [])] ∧
    (SearchType.Run (SearchType.NewSaver ⟨"||".toList, [',']⟩)
      [Body.ofStrings "a|" "preset=7"]).saver.categoryToWriter .preset =
        some "text||query\na|||preset=7\n".toList ∧
    readQueries "text||query\na|||preset=7\n".toList "||".toList =
      [("a".toList, "|preset=7".toList)] := by
  decide

/-- C11, amended: when the field delimiter is a single byte other than the newline and the
searchType saver, started fresh, accepts or skips every body of the stream, then for every
category whose accepted records hold no newline in text and filterValue the queries file
is the header line `text`, delimiter, `query` followed by one line per accepted record of
the category, in the order of the stream, and reading the file back (the lines after the
header, each cut at the delimiter) gives exactly the accepted (text, filterValue) pairs in
that order. -/
theorem queries_file_round_trip (cfg : Config) (d : Char) (bodies : List Body)
    (c : QueryCategory) (hsep : cfg.CsvSeparator = [d]) (hd : d ≠ '\n') (hc : c ≠ .unknown)
    (hok : (SearchType.Run (SearchType.NewSaver cfg) bodies).outcome = .ok)
    (hnl : ∀ info ∈ SearchType.acceptedFor cfg c bodies,
      '\n' ∉ info.text ∧ '\n' ∉ info.filterValue) :
    (SearchType.Run (SearchType.NewSaver cfg) bodies).saver.categoryToWriter c =
      some ("text".toList ++ [d] ++ "query".toList ++ ['\n'] ++
        ((SearchType.acceptedFor cfg c bodies).map
          (fun info => info.text ++ [d] ++ info.filterValue ++ ['\n'])).flatten) ∧
    readQueries ("text".toList ++ [d] ++ "query".toList ++ ['\n'] ++
        ((SearchType.acceptedFor cfg c bodies).map
          (fun info => info.text ++ [d] ++ info.filterValue ++ ['\n'])).flatten) [d] =
      (SearchType.acceptedFor cfg c bodies).map (fun info => (info.text, info.filterValue)) := by
  constructor
  · obtain ⟨-, -, h3, -⟩ := SearchType.Run_ok_state bodies _ hok
    have hrl : recordLine cfg =
        fun info => info.text ++ [d] ++ info.filterValue ++ ['\n'] := by
      funext info
      simp [recordLine, hsep]
    rw [h3 c, SearchType.NewSaver_eq]
    simp [hc, SearchType.openFileByType, hrl, hsep, newline]
  · have hlines : ∀ l ∈ ("text".toList ++ [d] ++ "query".toList) ::
        (SearchType.acceptedFor cfg c bodies).map (fun info => info.text ++ [d] ++ info.filterValue),
        '\n' ∉ l := by
      intro l hl
      rcases List.mem_cons.1 hl with rfl | hl
      · simp [hd.symm]
      · obtain ⟨info, hinfo, rfl⟩ := List.mem_map.1 hl
        have := hnl info hinfo
        simp [this.1, this.2, hd.symm]
    have hcontent : "text".toList ++ [d] ++ "query".toList ++ ['\n'] ++
        ((SearchType.acceptedFor cfg c bodies).map
          (fun info => info.text ++ [d] ++ info.filterValue ++ ['\n'])).flatten =
        ((("text".toList ++ [d] ++ "query".toList) ::
          (SearchType.acceptedFor cfg c bodies).map
            (fun info => info.text ++ [d] ++ info.filterValue)).map
              (fun l => l ++ ['\n'])).flatten := by
      simp [List.map_map, Function.comp_def]
    rw [readQueries, hcontent, textLines_lines _ hlines, List.drop_one, List.tail_cons,
      List.map_map]
    apply List.map_congr_left
    intro info hinfo
    have hval := (SearchType.acceptedFor_valid cfg c bodies info hinfo).2
    have hnot : d ∉ info.text := by
      intro hmem
      have hcont : Contains info.text cfg.CsvSeparator = true := by
        rw [hsep]; exact (Contains_singleton _ _).2 hmem
      have := (SearchType.validate_none _ info hval).2.1
      exact this hcont
    simp only [Function.comp_apply, List.append_assoc, List.singleton_append]
    rw [CutString_singleton, Cut_append_sep _ _ _ hnot]

/-- Witness of C11 on the stream of `a` (ExtendSearch), `q` (skipped) and `b` (Preset),
read back for Preset. -/
theorem queries_file_round_trip_witness :
    readQueries ("text".toList ++ ['\t'] ++ "query".toList ++ ['\n'] ++
        ((SearchType.acceptedFor defaultConfig .preset
          [Body.ofStrings "a" "preset=5&_st1=x", Body.ofStrings "q" "x=1",
            Body.ofStrings "b" "preset=7"]).map
          (fun info => info.text ++ ['\t'] ++ info.filterValue ++ ['\n'])).flatten) ['\t'] =
      (SearchType.acceptedFor defaultConfig .preset
        [Body.ofStrings "a" "preset=5&_st1=x", Body.ofStrings "q" "x=1",
          Body.ofStrings "b" "preset=7"]).map (fun info => (info.text, info.filterValue)) :=
  (queries_file_round_trip defaultConfig '\t'
    [Body.ofStrings "a" "preset=5&_st1=x", Body.ofStrings "q" "x=1", Body.ofStrings "b" "preset=7"]
    .preset rfl (by decide) (by decide) (by decide) (by decide)).2


/-! ## The executors: the check of a response -/

theorem tdiv_hundred_eq_two (status : Int) :
    status.tdiv 100 = 2 ↔ 200 ≤ status ∧ status ≤ 299 := by
  rcases Int.lt_or_le status 0 with hneg | hpos
  · have h : status.tdiv 100 ≤ 0 := by
      have h1 : status = -(-status) := by omega
      rw [h1, Int.neg_tdiv]
      have := Int.tdiv_nonneg (a := -status) (b := 100) (by omega) (by omega)
      omega
    constructor
    · intro h2; omega
    · intro h2; omega
  · rw [Int.tdiv_eq_ediv hpos (by omega)]
    omega

theorem Response.IsSuccess_iff (resp : Response) :
    resp.IsSuccess = true ↔ 200 ≤ resp.StatusCode ∧ resp.StatusCode ≤ 299 := by
  simp only [Response.IsSuccess, decide_eq_true_eq]
  omega

theorem SearchType.doRequest_body (reply : Except Str Response)
    (sendCancelled : Option ContextError) (body : Str)
    (h : (SearchType.doRequest reply sendCancelled).1 = some body) :
    ∃ resp rErr, reply = .ok resp ∧ resp.Body = body ∧ resp.IsSuccess = true ∧
      resp.envelope = .ok rErr ∧ rErr.Code = 0 := by
  cases reply with
  | error err => simp [SearchType.doRequest] at h
  | ok resp =>
    cases hs : resp.IsSuccess with
    | false => simp [SearchType.doRequest, SearchType.checkResponse, hs] at h
    | true =>
      cases henv : resp.envelope with
      | error err => simp [SearchType.doRequest, SearchType.checkResponse, hs, henv] at h
      | ok rErr =>
        by_cases hc : rErr.Code = 0
        · cases sendCancelled with
          | some e => simp [SearchType.doRequest, SearchType.checkResponse, hs, henv, hc] at h
          | none =>
            simp [SearchType.doRequest, SearchType.checkResponse, hs, henv, hc] at h
            exact ⟨resp, rErr, rfl, h, hs, henv, hc⟩
        · simp [SearchType.doRequest, SearchType.checkResponse, hs, henv, hc] at h

theorem Root.doRequest_body_root (reply : Except Str Response) (body : Str)
    (h : (Root.doRequest reply).1 = some body) :
    ∃ resp rErr, reply = .ok resp ∧ resp.Body = body ∧ resp.StatusCode.tdiv 100 = 2 ∧
      resp.envelope = .ok rErr ∧ rErr.Code = 0 := by
  cases reply with
  | error err => simp [Root.doRequest] at h
  | ok resp =>
    by_cases hs : resp.StatusCode.tdiv 100 = 2
    · cases henv : resp.envelope with
      | error err => simp [Root.doRequest, Root.checkResponse, hs, henv] at h
      | ok rErr =>
        by_cases hc : rErr.Code = 0
        · simp [Root.doRequest, Root.checkResponse, hs, henv, hc] at h
          exact ⟨resp, rErr, rfl, h, hs, henv, hc⟩
        · simp [Root.doRequest, Root.checkResponse, hs, henv, hc] at h
    · simp [Root.doRequest, Root.checkResponse, hs] at h

theorem SearchType.runLoop_mem (q : Values) (queries : List SearchType.Query)
    (job : Values × SearchType.Query) (h : job ∈ (SearchType.runLoop q queries).1) :
    job.2 ∈ queries := by
  induction queries generalizing q with
  | nil => simp [SearchType.runLoop] at h
  | cons x rest ih =>
    cases hw : x.wait with
    | done err => simp [SearchType.runLoop, hw, SearchType.waitLimiterAllowed] at h
    | tick =>
      simp only [SearchType.runLoop, hw, SearchType.waitLimiterAllowed, List.mem_cons] at h
      rcases h with rfl | h
      · exact List.mem_cons_self _ _
      · exact List.mem_cons_of_mem _ (ih _ h)

theorem Root.runLoop_mem_root (q : Values) (queries : List Root.Query)
    (job : Values × Root.Query) (h : job ∈ Root.runLoop q queries) :
    job.2 ∈ queries ∧ job.2.wait = .tick := by
  induction queries generalizing q with
  | nil => simp [Root.runLoop] at h
  | cons x rest ih =>
    cases hw : x.wait with
    | done =>
      simp only [Root.runLoop, hw] at h
      exact ⟨List.mem_cons_of_mem _ (ih _ h).1, (ih _ h).2⟩
    | tick =>
      simp only [Root.runLoop, hw, List.mem_cons] at h
      rcases h with rfl | h
      · exact ⟨List.mem_cons_self _ _, hw⟩
      · exact ⟨List.mem_cons_of_mem _ (ih _ h).1, (ih _ h).2⟩

/-- C17: for a response with a status in 200..299 whose body decodes as the error
envelope, `checkResponse` returns an error and no body when the code of the envelope is
not zero, and the body unchanged with no error when the code is zero, which it is when the
body has no code; `do` then sends nothing for a code that is not zero, and every body that
`Run` sends on `ResponseBodies` is the body of a reply with a status in 200..299 and the
code zero. So it is in both executors. -/
theorem nonzero_code_not_emitted (resp : Response) (rErr : ErrResponse)
    (hstatus : 200 ≤ resp.StatusCode ∧ resp.StatusCode ≤ 299)
    (henvelope : resp.envelope = .ok rErr) :
    (rErr.Code ≠ 0 →
      SearchType.checkResponse resp =
        (none, some (.ErrBadResponseStatus rErr.Code rErr.Error)) ∧
      Root.checkResponse resp = (none, some (.message rErr.Error)) ∧
      (∀ sendCancelled, SearchType.doRequest (.ok resp) sendCancelled =
        (none, some (.ErrBadResponseStatus rErr.Code rErr.Error))) ∧
      Root.doRequest (.ok resp) = (none, some (.message rErr.Error))) ∧
    (rErr.Code = 0 →
      SearchType.checkResponse resp = (some resp.Body, none) ∧
      Root.checkResponse resp = (some resp.Body, none)) ∧
    (∀ (q : Values) (queries : List SearchType.Query),
      ∀ body ∈ (SearchType.QueryExecutorRun q queries).ResponseBodies,
        ∃ query ∈ queries, ∃ sent envelope, query.reply = .ok sent ∧ sent.Body = body ∧
          (200 ≤ sent.StatusCode ∧ sent.StatusCode ≤ 299) ∧
          sent.envelope = .ok envelope ∧ envelope.Code = 0) ∧
    (∀ (q : Values) (queries : List Root.Query),
      ∀ body ∈ (Root.QueryExecutorRun q queries).ResponseBodies,
        ∃ query ∈ queries, ∃ sent envelope, query.reply = .ok sent ∧ sent.Body = body ∧
          (200 ≤ sent.StatusCode ∧ sent.StatusCode ≤ 299) ∧
          sent.envelope = .ok envelope ∧ envelope.Code = 0) := by
  have hs : resp.IsSuccess = true := (Response.IsSuccess_iff resp).2 hstatus
  have ht : resp.StatusCode.tdiv 100 = 2 := (tdiv_hundred_eq_two _).2 hstatus
  refine ⟨?_, ?_, ?_, ?_⟩
  · intro hc
    refine ⟨?_, ?_, ?_, ?_⟩
    · simp [SearchType.checkResponse, hs, henvelope, hc]
    · simp [Root.checkResponse, ht, henvelope, hc]
    · intro sendCancelled
      simp [SearchType.doRequest, SearchType.checkResponse, hs, henvelope, hc]
    · simp [Root.doRequest, Root.checkResponse, ht, henvelope, hc]
  · intro hc
    constructor
    · simp [SearchType.checkResponse, hs, henvelope, hc]
    · simp [Root.checkResponse, ht, henvelope, hc]
  · intro q queries body hbody
    simp only [SearchType.QueryExecutorRun, List.mem_filterMap, List.mem_map] at hbody
    obtain ⟨r, ⟨job, hjob, rfl⟩, hr⟩ := hbody
    obtain ⟨sent, envelope, h1, h2, h3, h4, h5⟩ := SearchType.doRequest_body _ _ body hr
    exact ⟨job.2, SearchType.runLoop_mem q queries job hjob, sent, envelope, h1, h2,
      (Response.IsSuccess_iff sent).1 h3, h4, h5⟩
  · intro q queries body hbody
    simp only [Root.QueryExecutorRun, List.mem_filterMap, List.mem_map] at hbody
    obtain ⟨r, ⟨job, hjob, rfl⟩, hr⟩ := hbody
    obtain ⟨sent, envelope, h1, h2, h3, h4, h5⟩ := Root.doRequest_body_root _ body hr
    exact ⟨job.2, (Root.runLoop_mem_root q queries job hjob).1, sent, envelope, h1, h2,
      (tdiv_hundred_eq_two _).1 h3, h4, h5⟩

/-- Witness of C17 on the response with status 200 and an envelope of code 7. -/
theorem nonzero_code_not_emitted_witness :
    SearchType.checkResponse
        ⟨200, "\x7b\"code\":7,\"error\":\"no\"\x7d".toList, .ok ⟨7, "no".toList⟩,
          "\x7b\"code\":7,\"error\":\"no\"\x7d".toList⟩ =
      (none, some (.ErrBadResponseStatus 7 "no".toList)) :=
  ((nonzero_code_not_emitted
    ⟨200, "\x7b\"code\":7,\"error\":\"no\"\x7d".toList, .ok ⟨7, "no".toList⟩,
      "\x7b\"code\":7,\"error\":\"no\"\x7d".toList⟩ ⟨7, "no".toList⟩ (by decide) rfl).1
        (by decide)).1

/-! ## The executors: the stream of queries -/

theorem Values.get_Set (m : Values) (k v key : Str) :
    (m.Set k v).get key = if k = key then some [v] else m.get key := by
  induction m with
  | nil => by_cases h : k = key <;> simp [Values.Set, Values.get, h]
  | cons e rest ih =>
    obtain ⟨k', vs⟩ := e
    by_cases h1 : k' = k
    · subst h1
      by_cases h2 : k' = key <;> simp [Values.Set, Values.get, h2]
    · by_cases h2 : k' = key
      · subst h2
        simp [Values.Set, Values.get, h1, Ne.symm h1]
      · simp [Values.Set, Values.get, h1, h2, ih]

theorem SearchType.runLoop_requests (base q : Values) (queries : List SearchType.Query)
    (hq : ∀ key, key ≠ "query".toList → q.get key = base.get key) :
    List.Forall₂
      (fun (job : Values × SearchType.Query) (query : SearchType.Query) =>
        job.2 = query ∧ job.1.get "query".toList = some [query.query] ∧
        ∀ key, key ≠ "query".toList → job.1.get key = base.get key)
      (SearchType.runLoop q queries).1
      (queries.takeWhile (fun query => decide (query.wait = .tick))) := by
  induction queries generalizing q with
  | nil => simp [SearchType.runLoop]
  | cons x rest ih =>
    cases hw : x.wait with
    | done err => simp [SearchType.runLoop, hw, SearchType.waitLimiterAllowed, List.takeWhile]
    | tick =>
      have hq' : ∀ key, key ≠ "query".toList →
          (q.Set "query".toList x.query).get key = base.get key := by
        intro key hkey
        rw [Values.get_Set, if_neg (Ne.symm hkey), hq key hkey]
      simp only [SearchType.runLoop, hw, SearchType.waitLimiterAllowed, List.takeWhile,
        decide_True]
      exact List.Forall₂.cons ⟨rfl, by rw [Values.get_Set, if_pos rfl], hq'⟩ (ih _ hq')

theorem Root.runLoop_requests_root (base q : Values) (queries : List Root.Query)
    (hq : ∀ key, key ≠ "query".toList → q.get key = base.get key) :
    List.Forall₂
      (fun (job : Values × Root.Query) (query : Root.Query) =>
        job.2 = query ∧ job.1.get "query".toList = some [query.query] ∧
        ∀ key, key ≠ "query".toList → job.1.get key = base.get key)
      (Root.runLoop q queries)
      (queries.filter (fun query => decide (query.wait = .tick))) := by
  induction queries generalizing q with
  | nil => simp [Root.runLoop]
  | cons x rest ih =>
    cases hw : x.wait with
    | done =>
      simp only [Root.runLoop, hw, List.filter_cons]
      simpa using ih q hq
    | tick =>
      have hq' : ∀ key, key ≠ "query".toList →
          (q.Set "query".toList x.query).get key = base.get key := by
        intro key hkey
        rw [Values.get_Set, if_neg (Ne.symm hkey), hq key hkey]
      simp only [Root.runLoop, hw, List.filter_cons, decide_True, if_true]
      exact List.Forall₂.cons ⟨rfl, by rw [Values.get_Set, if_pos rfl], hq'⟩ (ih _ hq')

theorem SearchType.QueryExecutorRun_requests (base : Values)
    (queries : List SearchType.Query) :
    List.Forall₂
      (fun (params : Values) (query : SearchType.Query) =>
        params.get "query".toList = some [query.query] ∧
        ∀ key, key ≠ "query".toList → params.get key = base.get key)
      (SearchType.QueryExecutorRun base queries).requests
      (queries.takeWhile (fun query => decide (query.wait = .tick))) := by
  have := SearchType.runLoop_requests base base queries (fun _ _ => rfl)
  simp only [SearchType.QueryExecutorRun]
  rw [List.forall₂_map_left_iff]
  exact this.imp (fun _ _ h => h.2)

theorem Root.QueryExecutorRun_requests_root (base : Values) (queries : List Root.Query) :
    List.Forall₂
      (fun (params : Values) (query : Root.Query) =>
        params.get "query".toList = some [query.query] ∧
        ∀ key, key ≠ "query".toList → params.get key = base.get key)
      (Root.QueryExecutorRun base queries).requests
      (queries.filter (fun query => decide (query.wait = .tick))) := by
  have := Root.runLoop_requests_root base base queries (fun _ _ => rfl)
  simp only [Root.QueryExecutorRun]
  rw [List.forall₂_map_left_iff]
  exact this.imp (fun _ _ h => h.2)

theorem requestsSent_length (written : List Values) (overwrites : List Nat) :
    (requestsSent written overwrites).length = written.length := by
  induction written generalizing overwrites with
  | nil => rfl
  | cons q later ih => simp [requestsSent, ih]

theorem requestsSent_mem (written : List Values) (overwrites : List Nat) (r : Values)
    (h : r ∈ requestsSent written overwrites) : r ∈ written := by
  induction written generalizing overwrites with
  | nil => simp [requestsSent] at h
  | cons q later ih =>
    simp only [requestsSent, List.mem_cons] at h
    rcases h with h | h
    · rw [h, List.getD_eq_getElem?_getD]
      cases hg : (q :: later)[min (overwrites.headD 0) later.length]? with
      | none => simp
      | some x => simpa using List.getElem?_mem hg
    · exact List.mem_cons_of_mem _ (ih _ h)

theorem requestsSent_of_zero (written : List Values) (overwrites : List Nat)
    (h : ∀ k ∈ overwrites, k = 0) : requestsSent written overwrites = written := by
  induction written generalizing overwrites with
  | nil => rfl
  | cons q later ih =>
    have hhead : overwrites.headD 0 = 0 := by
      cases overwrites with
      | nil => rfl
      | cons k ks => exact h k (List.mem_cons_self _ _)
    have htail : ∀ k ∈ overwrites.tail, k = 0 := fun k hk => h k (List.mem_of_mem_tail hk)
    rw [requestsSent, hhead, ih _ htail]
    simp

/-- C18: in both executors `q.Set` gives the key `query` exactly the one-element list with
the query of the item and leaves every other key of the base parameters as it was, and
these are the parameters the loop writes into the shared URL before it calls `Go`. The
request does not always carry them: the worker reads the shared URL when it runs. With
the queries `a` and `b`, when the worker of `a` reads the URL after the loop has written
the parameters of `b`, both requests carry the query `b` and none carries `a`. The n-th
request carries the n-th query when every worker reads the URL before the next write; it
always carries parameters written for some item. -/
theorem request_may_carry_later_query (base : Values) :
    requestsSent
        (SearchType.QueryExecutorRun [("lang".toList, ["ru".toList])]
          [⟨"a".toList, .tick, .error [], none⟩, ⟨"b".toList, .tick, .error [], none⟩]).requests
        [1] =
      [[("lang".toList, ["ru".toList]), ("query".toList, ["b".toList])],
        [("lang".toList, ["ru".toList]), ("query".toList, ["b".toList])]] ∧
    requestsSent
        (Root.QueryExecutorRun [("lang".toList, ["ru".toList])]
          [⟨"a".toList, .tick, .error []⟩, ⟨"b".toList, .tick, .error []⟩]).requests
        [1] =
      [[("lang".toList, ["ru".toList]), ("query".toList, ["b".toList])],
        [("lang".toList, ["ru".toList]), ("query".toList, ["b".toList])]] ∧
    (∀ queries : List SearchType.Query,
      List.Forall₂
        (fun (params : Values) (query : SearchType.Query) =>
          params.get "query".toList = some [query.query] ∧
          ∀ key, key ≠ "query".toList → params.get key = base.get key)
        (SearchType.QueryExecutorRun base queries).requests
        (queries.takeWhile (fun query => decide (query.wait = .tick)))) ∧
    (∀ queries : List Root.Query,
      List.Forall₂
        (fun (params : Values) (query : Root.Query) =>
          params.get "query".toList = some [query.query] ∧
          ∀ key, key ≠ "query".toList → params.get key = base.get key)
        (Root.QueryExecutorRun base queries).requests
        (queries.filter (fun query => decide (query.wait = .tick)))) ∧
    (∀ (written : List Values) (overwrites : List Nat),
      ((∀ k ∈ overwrites, k = 0) → requestsSent written overwrites = written) ∧
      (requestsSent written overwrites).length = written.length ∧
      ∀ r ∈ requestsSent written overwrites, r ∈ written) := by
  refine ⟨by decide, by decide, SearchType.QueryExecutorRun_requests base,
    Root.QueryExecutorRun_requests_root base, fun written overwrites =>
      ⟨requestsSent_of_zero written overwrites, requestsSent_length written overwrites,
        fun r hr => requestsSent_mem written overwrites r hr⟩⟩

theorem tickerPeriod_pos_iff (Rps : Int) (h : 0 < Rps) :
    0 < Second.tdiv Rps ↔ Rps ≤ 1000000000 := by
  rw [Int.tdiv_eq_ediv (by decide) (le_of_lt h)]
  simp only [Second]
  constructor
  · intro hpos
    by_contra hgt
    have : (1000000000 : Int) / Rps = 0 := Int.ediv_eq_zero_of_lt (by omega) (by omega)
    omega
  · intro hle
    have : (1 : Int) ≤ 1000000000 / Rps := Int.le_ediv_of_mul_le h (by omega)
    omega

/-- C19: the configuration with `Rps` 1000000001 passes the validation, no `ErrRps` among
its errors, yet the period `time.Second / time.Duration(cfg.Rps)` of its rate limiter is
zero nanoseconds and `NewQueryExecutor` ends in the panic of `time.NewTicker`. -/
theorem ticker_period_zero_for_large_rps :
    ExecutorConfig.validate ⟨1000000001, 3000000000, 0, 3000000000⟩ none none = [] ∧
    Second.tdiv 1000000001 = 0 ∧
    NewTicker (Second.tdiv 1000000001) = none ∧
    NewQueryExecutor ⟨1000000001, 3000000000, 0, 3000000000⟩ = none ∧
    NewQueryExecutor ⟨1000000000, 3000000000, 0, 3000000000⟩ = some 1 := by
  decide

theorem errgroupWait_eq_none {ε : Type} (results : List (Option ε)) :
    errgroupWait results = none ↔ ∀ r ∈ results, r = none := by
  induction results with
  | nil => simp [errgroupWait]
  | cons r rest ih =>
    cases r with
    | none =>
      simp only [errgroupWait, List.findSome?_cons, id_eq, List.mem_cons, forall_eq_or_imp,
        true_and] at ih ⊢
      exact ih
    | some e => simp [errgroupWait, List.findSome?_cons]

theorem errorsJoin_pair_eq_none {ε : Type} (a b : Option ε) :
    errorsJoin [a, b] = none ↔ a = none ∧ b = none := by
  cases a <;> cases b <;> simp [errorsJoin]

theorem SearchType.runLoop_prefix (q : Values) (pre rest : List SearchType.Query)
    (hpre : ∀ x ∈ pre, x.wait = .tick) :
    ∃ q', SearchType.runLoop q (pre ++ rest) =
      ((SearchType.runLoop q pre).1 ++ (SearchType.runLoop q' rest).1,
        (SearchType.runLoop q' rest).2) ∧
      (SearchType.runLoop q pre).2 = none ∧
      (SearchType.runLoop q pre).1.map (fun job => job.2) = pre := by
  induction pre generalizing q with
  | nil => exact ⟨q, by simp [SearchType.runLoop]⟩
  | cons x pre ih =>
    have hx : x.wait = .tick := hpre x (List.mem_cons_self _ _)
    obtain ⟨q', h1, h2, h3⟩ := ih (q.Set "query".toList x.query)
      (fun y hy => hpre y (List.mem_cons_of_mem _ hy))
    refine ⟨q', ?_, ?_, ?_⟩
    · simp only [List.cons_append, SearchType.runLoop, hx, SearchType.waitLimiterAllowed]
      exact congrArg (fun r : List (Values × SearchType.Query) × Option SearchType.ExecError =>
        ((q.Set "query".toList x.query, x) :: r.1, r.2)) h1
    · simp only [SearchType.runLoop, hx, SearchType.waitLimiterAllowed]
      exact h2
    · simp only [SearchType.runLoop, hx, SearchType.waitLimiterAllowed, List.map_cons]
      rw [h3]

theorem SearchType.runLoop_err_none (q : Values) (queries : List SearchType.Query) :
    (SearchType.runLoop q queries).2 = none ↔ ∀ x ∈ queries, x.wait = .tick := by
  induction queries generalizing q with
  | nil => simp [SearchType.runLoop]
  | cons x rest ih =>
    cases hw : x.wait with
    | done err => simp [SearchType.runLoop, hw, SearchType.waitLimiterAllowed]
    | tick => simp [SearchType.runLoop, hw, SearchType.waitLimiterAllowed, ih]

theorem Root.runLoop_eq_filter (q : Values) (queries : List Root.Query) :
    (Root.runLoop q queries).map (fun job => job.2) =
      queries.filter (fun query => decide (query.wait = .tick)) := by
  induction queries generalizing q with
  | nil => simp [Root.runLoop]
  | cons x rest ih =>
    cases hw : x.wait with
    | done => simp [Root.runLoop, hw, ih]
    | tick => simp [Root.runLoop, hw, ih]

theorem Root.runLoop_skip (q : Values) (pre rest : List Root.Query) (pending : Root.Query)
    (h : pending.wait = .done) :
    Root.runLoop q (pre ++ pending :: rest) = Root.runLoop q (pre ++ rest) := by
  induction pre generalizing q with
  | nil => simp [Root.runLoop, h]
  | cons x pre ih =>
    cases hw : x.wait with
    | done => simp [Root.runLoop, hw, ih]
    | tick => simp [Root.runLoop, hw, ih]

/-- C20, as stated, fails for the root executor: when `done` is received while `Run` waits
before the query `a`, and the wait before the pending query `b` ends with a tick, `Run`
starts a request for `b` and, no request failing, returns `nil`. -/
theorem root_shutdown_counterexample :
    (Root.QueryExecutorRun []
      [⟨"a".toList, .done, .ok ⟨200, "\x7b\x7d".toList, .ok ⟨0, []⟩, "\x7b\x7d".toList⟩⟩,
        ⟨"b".toList, .tick, .ok ⟨200, "\x7b\x7d".toList, .ok ⟨0, []⟩, "\x7b\x7d".toList⟩⟩]).err = none ∧
    (Root.QueryExecutorRun []
      [⟨"a".toList, .done, .ok ⟨200, "\x7b\x7d".toList, .ok ⟨0, []⟩, "\x7b\x7d".toList⟩⟩,
        ⟨"b".toList, .tick, .ok ⟨200, "\x7b\x7d".toList, .ok ⟨0, []⟩, "\x7b\x7d".toList⟩⟩]).requests =
      [[("query".toList, ["b".toList])]] ∧
    (Root.QueryExecutorRun []
      [⟨"a".toList, .done, .ok ⟨200, "\x7b\x7d".toList, .ok ⟨0, []⟩, "\x7b\x7d".toList⟩⟩]).err = none := by
  decide

/-- C20, amended. In the searchType executor: when the end of the context is received
while `Run` waits for a permit, every wait before having ended with a tick, `Run` returns
an error that holds the error of the context, and it has started requests for the queries
before only, none for the query it waited for nor for the ones still pending; and `Run`
returns `nil` exactly when every wait ended with a tick, so that the input was exhausted,
and no request failed. In the root executor: a query whose wait receives `done` gets no
request and `Run` goes on with the next query of the stream; `Run` returns the error of the
group, which is `nil` exactly when no request it started failed. -/
theorem shutdown_while_waiting (q : Values) :
    (∀ (pre rest : List SearchType.Query) (pending : SearchType.Query) (err : ContextError),
      (∀ x ∈ pre, x.wait = .tick) → pending.wait = .done err →
        (SearchType.QueryExecutorRun q (pre ++ pending :: rest)).err ≠ none ∧
        (∃ errs, (SearchType.QueryExecutorRun q (pre ++ pending :: rest)).err = some errs ∧
          SearchType.ExecError.context err ∈ errs) ∧
        (SearchType.QueryExecutorRun q (pre ++ pending :: rest)).requests =
          (SearchType.QueryExecutorRun q pre).requests ∧
        (SearchType.QueryExecutorRun q pre).requests.length = pre.length) ∧
    (∀ queries : List SearchType.Query,
      (SearchType.QueryExecutorRun q queries).err = none ↔
        (∀ x ∈ queries, x.wait = .tick) ∧
        ∀ x ∈ queries, (SearchType.doRequest x.reply x.sendCancelled).2 = none) ∧
    (∀ (pre rest : List Root.Query) (pending : Root.Query), pending.wait = .done →
      Root.QueryExecutorRun q (pre ++ pending :: rest) =
        Root.QueryExecutorRun q (pre ++ rest)) ∧
    (∀ queries : List Root.Query,
      (Root.QueryExecutorRun q queries).err = none ↔
        ∀ x ∈ queries, x.wait = .tick → (Root.doRequest x.reply).2 = none) := by
  refine ⟨?_, ?_, ?_, ?_⟩
  · intro pre rest pending err hpre hpending
    obtain ⟨q', h1, h2, h3⟩ := SearchType.runLoop_prefix q pre (pending :: rest) hpre
    have hrest : SearchType.runLoop q' (pending :: rest) = ([], some (.context err)) := by
      simp [SearchType.runLoop, hpending, SearchType.waitLimiterAllowed]
    rw [hrest, List.append_nil] at h1
    have hlen : (SearchType.QueryExecutorRun q pre).requests.length = pre.length := by
      simp only [SearchType.QueryExecutorRun, List.length_map]
      rw [← List.length_map (SearchType.runLoop q pre).1 (fun job => job.2), h3]
    simp only [SearchType.QueryExecutorRun, h1]
    refine ⟨?_, ?_, trivial, hlen⟩
    · intro hnone
      rw [errorsJoin_pair_eq_none] at hnone
      exact absurd hnone.2 (by simp)
    · cases hwait : errgroupWait (List.map (fun r => r.2)
          (List.map (fun job => SearchType.doRequest job.2.reply job.2.sendCancelled)
            (SearchType.runLoop q pre).1)) with
      | none => exact ⟨_, by simp [errorsJoin]; rfl, by simp⟩
      | some e => exact ⟨_, by simp [errorsJoin]; rfl, by simp⟩
  · intro queries
    simp only [SearchType.QueryExecutorRun]
    rw [errorsJoin_pair_eq_none, errgroupWait_eq_none, SearchType.runLoop_err_none]
    constructor
    · rintro ⟨hres, hall⟩
      refine ⟨hall, ?_⟩
      obtain ⟨q', -, -, h3⟩ := SearchType.runLoop_prefix q queries [] hall
      intro x hx
      rw [← h3] at hx
      obtain ⟨job, hjob, rfl⟩ := List.mem_map.1 hx
      exact hres _ (List.mem_map.2 ⟨_, List.mem_map.2 ⟨job, hjob, rfl⟩, rfl⟩)
    · rintro ⟨hall, hres⟩
      refine ⟨?_, hall⟩
      intro r hr
      obtain ⟨r', hr', rfl⟩ := List.mem_map.1 hr
      obtain ⟨job, hjob, rfl⟩ := List.mem_map.1 hr'
      exact hres _ (SearchType.runLoop_mem q queries job hjob)
  · intro pre rest pending hpending
    simp only [Root.QueryExecutorRun, Root.runLoop_skip q pre rest pending hpending]
  · intro queries
    simp only [Root.QueryExecutorRun]
    rw [errgroupWait_eq_none]
    have hf := Root.runLoop_eq_filter q queries
    constructor
    · intro hres x hx hw
      have hmem : x ∈ (Root.runLoop q queries).map (fun job => job.2) := by
        rw [hf]; simp [hx, hw]
      obtain ⟨job, hjob, rfl⟩ := List.mem_map.1 hmem
      exact hres _ (List.mem_map.2 ⟨_, List.mem_map.2 ⟨job, hjob, rfl⟩, rfl⟩)
    · intro hres r hr
      obtain ⟨r', hr', rfl⟩ := List.mem_map.1 hr
      obtain ⟨job, hjob, rfl⟩ := List.mem_map.1 hr'
      have := Root.runLoop_mem_root q queries job hjob
      exact hres _ this.1 this.2

/-- Witness of C20: the searchType executor gets a permit for `a` and then receives the end
of the context while it waits before `b`, with `c` still pending. -/
theorem shutdown_while_waiting_witness :
    (SearchType.QueryExecutorRun []
      ([⟨"a".toList, .tick, .ok ⟨200, "\x7b\x7d".toList, .ok ⟨0, []⟩, "\x7b\x7d".toList⟩, none⟩] ++
        ⟨"b".toList, .done .Canceled, .error [], none⟩ ::
          [⟨"c".toList, .tick, .error [], none⟩])).err ≠ none ∧
    (SearchType.QueryExecutorRun []
      ([⟨"a".toList, .tick, .ok ⟨200, "\x7b\x7d".toList, .ok ⟨0, []⟩, "\x7b\x7d".toList⟩, none⟩] ++
        ⟨"b".toList, .done .Canceled, .error [], none⟩ ::
          [⟨"c".toList, .tick, .error [], none⟩])).requests =
      (SearchType.QueryExecutorRun []
        [⟨"a".toList, .tick, .ok ⟨200, "\x7b\x7d".toList, .ok ⟨0, []⟩, "\x7b\x7d".toList⟩, none⟩]).requests :=
  ⟨((shutdown_while_waiting []).1
      [⟨"a".toList, .tick, .ok ⟨200, "\x7b\x7d".toList, .ok ⟨0, []⟩, "\x7b\x7d".toList⟩, none⟩]
      [⟨"c".toList, .tick, .error [], none⟩] ⟨"b".toList, .done .Canceled, .error [], none⟩
      .Canceled (fun x hx => by
        rw [List.mem_singleton] at hx
        subst hx
        rfl) rfl).1,
    ((shutdown_while_waiting []).1
      [⟨"a".toList, .tick, .ok ⟨200, "\x7b\x7d".toList, .ok ⟨0, []⟩, "\x7b\x7d".toList⟩, none⟩]
      [⟨"c".toList, .tick, .error [], none⟩] ⟨"b".toList, .done .Canceled, .error [], none⟩
      .Canceled (fun x hx => by
        rw [List.mem_singleton] at hx
        subst hx
        rfl) rfl).2.2.1⟩


/-! ## The savers: the order of the checks and the separators -/

theorem SearchType.validate_unknown_iff (s : Saver) (info : queryInfo) :
    SearchType.validate s info = some .ErrUnknownCategory ↔
      info.category = .unknown ∧ info.text ≠ [] ∧ info.filterValue ≠ [] ∧
      Contains info.text s.cfg.CsvSeparator = false ∧
      Contains info.filterValue s.cfg.CsvSeparator = false := by
  unfold SearchType.validate
  split_ifs with h1 h2 h3 h4
  · simp only [Option.some.injEq, reduceCtorEq, false_iff]
    rintro ⟨-, ht, hf, -⟩
    rcases h1 with h | h
    · exact ht h
    · exact hf h
  · simp [h2]
  · simp [h3]
  · simp only [not_or] at h1
    simp [h1.1, h1.2, h2, h3, h4]
  · simp [h4]

/-- C24: in the searchType saver `validate` reports `ErrUnknownCategory` only for a record
that passed the checks before it, those of the empty fields and of the delimiter. A record
of category Unknown whose text or filterValue is empty gets `ErrEmptyResponse`, and `Run`
returns that error instead of going on with the stream. A body with an empty
`catalog_value` gives such a record, whatever its name: its category is Unknown and its
filterValue empty, and `Run` ends with `ErrEmptyResponse`. -/
theorem unknown_with_empty_field_is_fatal (s : Saver) :
    (∀ info : queryInfo,
      SearchType.validate s info = some .ErrUnknownCategory ↔
        info.category = .unknown ∧ info.text ≠ [] ∧ info.filterValue ≠ [] ∧
        Contains info.text s.cfg.CsvSeparator = false ∧
        Contains info.filterValue s.cfg.CsvSeparator = false) ∧
    (∀ info : queryInfo, info.category = .unknown →
      (info.text = [] ∨ info.filterValue = []) →
        SearchType.validate s info = some .ErrEmptyResponse ∧
        ∀ (value : Body) (rest : List Body), SearchType.parseResponse value = (info, none) →
          SearchType.Run s (value :: rest) = ⟨s, fun _ => none, .error .ErrEmptyResponse⟩) ∧
    (∀ (name : Str) (rest : List Body),
      SearchType.parseResponse (.envelope ⟨⟨name, []⟩⟩) = (⟨name, .unknown, [], []⟩, none) ∧
      SearchType.Run s (.envelope ⟨⟨name, []⟩⟩ :: rest) =
        ⟨s, fun _ => none, .error .ErrEmptyResponse⟩) := by
  refine ⟨SearchType.validate_unknown_iff s, ?_, ?_⟩
  · intro info _ hempty
    have hv := (SearchType.validate_empty_iff s info).2 hempty
    exact ⟨hv, fun value rest hparse =>
      SearchType.Run_error s value rest info _ hparse hv (by simp)⟩
  · intro name rest
    have hparse : SearchType.parseResponse (.envelope ⟨⟨name, []⟩⟩) =
        (⟨name, .unknown, [], []⟩, none) := rfl
    exact ⟨hparse, SearchType.Run_error s _ rest _ _ hparse
      ((SearchType.validate_empty_iff s _).2 (Or.inr rfl)) (by simp)⟩

/-- Witness of C24 on the body with name `q` and an empty catalog value, followed by the
body of `b`. -/
theorem unknown_with_empty_field_is_fatal_witness :
    SearchType.Run (SearchType.NewSaver defaultConfig)
        [Body.ofStrings "q" "", Body.ofStrings "b" "preset=7"] =
      ⟨SearchType.NewSaver defaultConfig, fun _ => none, .error .ErrEmptyResponse⟩ :=
  ((unknown_with_empty_field_is_fatal (SearchType.NewSaver defaultConfig)).2.1
    ⟨"q".toList, .unknown, [], []⟩ rfl (Or.inr rfl)).2
      (Body.ofStrings "q" "") [Body.ofStrings "b" "preset=7"] (by decide)

theorem Contains_nil (s : Str) : Contains s [] = true := by
  cases s <;> simp [Contains]

theorem SearchType.validate_empty_separator (s : Saver) (info : queryInfo)
    (hsep : s.cfg.CsvSeparator = []) :
    SearchType.validate s info =
      if info.text = [] ∨ info.filterValue = [] then some .ErrEmptyResponse
      else some (.ErrInvalidResponseSeparator info.text []) := by
  unfold SearchType.validate
  rw [hsep]
  simp [Contains_nil]

theorem SearchType.Run_empty_separator (s : Saver) (hsep : s.cfg.CsvSeparator = [])
    (bodies : List Body) :
    (SearchType.Run s bodies).saver = s ∧
    (bodies ≠ [] → (SearchType.Run s bodies).outcome ≠ .ok) := by
  cases bodies with
  | nil => simp [SearchType.Run]
  | cons value rest =>
    rcases hparse : SearchType.parseResponse value with ⟨info, _ | err⟩
    · have hv := SearchType.validate_empty_separator s info hsep
      by_cases hempty : info.text = [] ∨ info.filterValue = []
      · rw [if_pos hempty] at hv
        rw [SearchType.Run_error s value rest info _ hparse hv (by simp)]
        simp
      · rw [if_neg hempty] at hv
        rw [SearchType.Run_error s value rest info _ hparse hv (by simp)]
        simp
    · simp [SearchType.Run, hparse]

/-- C25: a searchType saver whose `CsvSeparator` is the empty string rejects every record:
`validate` returns the separator error naming the text when text and filterValue are both
non-empty, and `ErrEmptyResponse` otherwise. So `Run` on any stream of bodies leaves the
saver as it was, no line added to any file, and on a non-empty stream it does not end
well. The separator is not among the fields `ExecutorConfig.validate` reads. -/
theorem empty_separator_rejects_every_record (s : Saver) (hsep : s.cfg.CsvSeparator = []) :
    (∀ info : queryInfo,
      (info.text ≠ [] → info.filterValue ≠ [] →
        SearchType.validate s info = some (.ErrInvalidResponseSeparator info.text [])) ∧
      ((info.text = [] ∨ info.filterValue = []) →
        SearchType.validate s info = some .ErrEmptyResponse)) ∧
    (∀ bodies : List Body,
      (SearchType.Run s bodies).saver = s ∧
      (SearchType.Run s bodies).saver.categoryToWriter = s.categoryToWriter ∧
      (bodies ≠ [] → (SearchType.Run s bodies).outcome ≠ .ok)) := by
  refine ⟨fun info => ⟨fun ht hf => ?_, fun hempty => ?_⟩, fun bodies => ?_⟩
  · rw [SearchType.validate_empty_separator s info hsep, if_neg (by simp [ht, hf])]
  · rw [SearchType.validate_empty_separator s info hsep, if_pos hempty]
  · have h := SearchType.Run_empty_separator s hsep bodies
    exact ⟨h.1, by rw [h.1], h.2⟩

/-- Witness of C25 on the saver made with an empty `CsvSeparator`. -/
theorem empty_separator_rejects_every_record_witness :
    (SearchType.NewSaver ⟨[], [',']⟩).cfg.CsvSeparator = [] ∧
    (SearchType.Run (SearchType.NewSaver ⟨[], [',']⟩)
        [Body.ofStrings "a" "preset=7"]).saver = SearchType.NewSaver ⟨[], [',']⟩ ∧
    (SearchType.Run (SearchType.NewSaver ⟨[], [',']⟩)
        [Body.ofStrings "a" "preset=7"]).outcome ≠ .ok :=
  ⟨rfl,
    ((empty_separator_rejects_every_record (SearchType.NewSaver ⟨[], [',']⟩) rfl).2
      [Body.ofStrings "a" "preset=7"]).1,
    ((empty_separator_rejects_every_record (SearchType.NewSaver ⟨[], [',']⟩) rfl).2
      [Body.ofStrings "a" "preset=7"]).2.2 (by simp)⟩

/-- C26: neither saver checks a preset identifier against the presets separator. With the
separator `,` the body whose `catalog_value` is `preset=1%2C2` is accepted, its one preset
identifier is `1,2`, and both savers write the preset line `1,2`; splitting that line on
the separator gives `1` and `2`, neither of which is a member of the set. -/
theorem preset_identifier_may_hold_separator :
    SearchType.parseResponse (Body.ofStrings "a" "preset=1%2C2") =
      (⟨"a".toList, .preset, "preset=1%2C2".toList, ["1,2".toList]⟩, none) ∧
    SearchType.validate (SearchType.NewSaver defaultConfig)
      ⟨"a".toList, .preset, "preset=1%2C2".toList, ["1,2".toList]⟩ = none ∧
    (SearchType.Run (SearchType.NewSaver defaultConfig)
        [Body.ofStrings "a" "preset=1%2C2"]).saver.categoryToSetPresets .preset =
      some ["1,2".toList] ∧
    (SearchType.Run (SearchType.NewSaver defaultConfig)
        [Body.ofStrings "a" "preset=1%2C2"]).presetFiles .preset = some "1,2".toList ∧
    (Root.Run (Root.NewSaver defaultConfig)
        [Body.ofStrings "a" "preset=1%2C2"]).presetFiles .preset = some "1,2".toList ∧
    defaultConfig.PresetsSeparator = [','] ∧
    Split "1,2".toList ',' = ["1".toList, "2".toList] ∧
    "1".toList ∉ ["1,2".toList] ∧ "2".toList ∉ ["1,2".toList] := by
  decide

/-! ## The escaping of the semicolon -/

theorem unescapeScan_error_escape (s : Str) (n : Nat) (hasPlus : Bool) (e : DecodeError)
    (h : unescapeScan s n hasPlus = .error e) : ∃ t, e = .escape t := by
  induction s, n, hasPlus using unescapeScan.induct with
  | case1 n hasPlus => simp [unescapeScan] at h
  | case2 n hasPlus a b s' hbad =>
    rw [unescapeScan.eq_def] at h
    simp only [if_true, hbad] at h
    exact ⟨_, (Except.error.inj h).symm⟩
  | case3 n hasPlus a b s' hgood ih =>
    rw [unescapeScan.eq_def] at h
    simp only [if_true, hgood] at h
    exact ih h
  | case4 s n hasPlus hs =>
    match s, hs with
    | [], _ =>
      simp only [unescapeScan, if_true] at h
      exact ⟨_, (Except.error.inj h).symm⟩
    | [a], _ =>
      simp only [unescapeScan, if_true] at h
      exact ⟨_, (Except.error.inj h).symm⟩
    | a :: b :: s', hs => exact absurd rfl (fun e => hs a b s' e)
  | case5 s n hasPlus hc ih =>
    rw [unescapeScan_cons_ne _ _ _ _ hc] at h
    simp only [if_true] at h
    exact ih h
  | case6 c s n hasPlus hc hplus ih =>
    rw [unescapeScan_cons_ne _ _ _ _ hc] at h
    simp only [hplus, if_false] at h
    exact ih h

theorem QueryUnescape_error_escape (s : Str) (e : DecodeError)
    (h : QueryUnescape s = .error e) : ∃ t, e = .escape t := by
  unfold QueryUnescape at h
  split at h
  · rename_i e1 he
    cases h
    exact unescapeScan_error_escape s 0 false _ he
  · split_ifs at h

theorem parseQueryStep_not_semicolon (m : Values) (err : Option DecodeError) (key : Str)
    (hk : ';' ∉ key) (herr : err ≠ some .semicolonSeparator) :
    (parseQueryStep m err key).2 ≠ some .semicolonSeparator := by
  have hc : ¬ Contains key [';'] = true := fun h => hk ((Contains_singleton _ _).1 h)
  have hif : ∀ e1 : DecodeError, (∃ t, e1 = .escape t) →
      (if err = none then some e1 else err) ≠ some .semicolonSeparator := by
    rintro e1 ⟨t, rfl⟩
    by_cases he : err = none
    · simp [he]
    · simpa [he] using herr
  unfold parseQueryStep
  rw [if_neg hc]
  by_cases hkey : key = []
  · rw [if_pos hkey]
    exact herr
  · rw [if_neg hkey]
    simp only
    split
    · rename_i e1 he1
      exact hif e1 (QueryUnescape_error_escape _ _ he1)
    · split
      · rename_i e1 he1
        exact hif e1 (QueryUnescape_error_escape _ _ he1)
      · exact herr

theorem parseQuery_foldl_not_semicolon (pieces : List Str) (m : Values)
    (err : Option DecodeError) (hp : ∀ piece ∈ pieces, ';' ∉ piece)
    (herr : err ≠ some .semicolonSeparator) :
    (pieces.foldl (fun acc key => parseQueryStep acc.1 acc.2 key) (m, err)).2 ≠
      some .semicolonSeparator := by
  induction pieces generalizing m err with
  | nil => simpa using herr
  | cons p ps ih =>
    rw [List.foldl_cons]
    exact ih _ _ (fun q hq => hp q (List.mem_cons_of_mem _ hq))
      (parseQueryStep_not_semicolon m err p (hp p (List.mem_cons_self _ _)) herr)

theorem ParseQuery_not_semicolon (query : Str) (h : ';' ∉ query) :
    (ParseQuery query).2 ≠ some .semicolonSeparator := by
  by_cases hmax : Count query '&' + 1 ≤ defaultMaxParams
  · rw [ParseQuery_of_within query hmax, parseQueryLoop_eq_foldl _ _ _ _ (le_refl _)]
    exact parseQuery_foldl_not_semicolon _ _ _
      (fun piece hp hc => h (mem_of_mem_Split _ _ _ _ hp hc)) (by simp)
  · rw [ParseQuery_of_exceeded query (Nat.not_le.1 hmax)]
    simp

theorem ReplaceAll_of_not_mem (s : Str) (old : Char) (new : Str) (h : old ∉ s) :
    ReplaceAll s old new = s := by
  induction s with
  | nil => rfl
  | cons c s ih =>
    have hc : c ≠ old := fun e => h (by simp [e])
    simp only [ReplaceAll, hc, if_false]
    rw [ih (fun hm => h (List.mem_cons_of_mem _ hm))]

/-- C27: the string `parseResponse` hands to `ParseQuery`, the catalog value with every
`;` replaced by `%3B`, contains no semicolon, and `ParseQuery` does not fail on it with the
error of a semicolon separator. The replacement is idempotent and leaves a string without
a semicolon unchanged. The visualizer reader applies the same replacement to the second
column of every record of two columns, and to nothing else. -/
theorem semicolon_escaped_before_parsing (catalogValue : Str) :
    PathEscape [semicolon] = "%3B".toList ∧
    ';' ∉ ReplaceAll catalogValue semicolon (PathEscape [semicolon]) ∧
    (ParseQuery (ReplaceAll catalogValue semicolon (PathEscape [semicolon]))).2 ≠
      some .semicolonSeparator ∧
    ReplaceAll (ReplaceAll catalogValue semicolon (PathEscape [semicolon])) semicolon
        (PathEscape [semicolon]) =
      ReplaceAll catalogValue semicolon (PathEscape [semicolon]) ∧
    (';' ∉ catalogValue →
      ReplaceAll catalogValue semicolon (PathEscape [semicolon]) = catalogValue) ∧
    (∀ text : Str, readRecord [text, catalogValue] =
      .ok [text, ReplaceAll catalogValue semicolon (PathEscape [semicolon])]) ∧
    (∀ record : List Str, record.length ≠ 2 → readRecord record = .error record.length) := by
  have hno := semicolon_not_mem_escaped catalogValue
  refine ⟨by decide, hno, ParseQuery_not_semicolon _ hno,
    ReplaceAll_of_not_mem _ _ _ hno, fun h => ReplaceAll_of_not_mem _ _ _ h,
    fun text => rfl, fun record hlen => ?_⟩
  match record, hlen with
  | [], _ => rfl
  | [_], _ => rfl
  | [_, _], hlen => exact absurd rfl hlen
  | _ :: _ :: _ :: _, _ => rfl

/-- Witness of C27 on the catalog value `a=1;b=2`. -/
theorem semicolon_escaped_before_parsing_witness :
    ReplaceAll "a=1;b=2".toList semicolon (PathEscape [semicolon]) = "a=1%3Bb=2".toList ∧
    (ParseQuery "a=1;b=2".toList).2 = some .semicolonSeparator ∧
    (ParseQuery (ReplaceAll "a=1;b=2".toList semicolon (PathEscape [semicolon]))).2 ≠
      some .semicolonSeparator :=
  ⟨by decide, by decide, (semicolon_escaped_before_parsing "a=1;b=2".toList).2.2.1⟩

/-! ## The line of an accepted record -/

theorem Split_of_not_mem (y : Str) (sep : Char) (h : sep ∉ y) : Split y sep = [y] := by
  induction y with
  | nil => simp [Split]
  | cons c y ih =>
    have hc : c ≠ sep := fun e => h (e ▸ List.mem_cons_self _ _)
    have hy : sep ∉ y := fun e => h (List.mem_cons_of_mem _ e)
    simp [Split, hc, ih hy]

/-- C28: when the delimiter is a single character other than the newline, the line of an
accepted record whose text and filterValue contain no newline contains the delimiter
exactly once and the newline exactly once, as its last character; the line without that
newline, split or cut at the delimiter, gives back the text and the filterValue. It is
the line `Run` appends to the writer of the category of the record. -/
theorem record_line_splits_back (s : Saver) (d : Char) (info : queryInfo)
    (hsep : s.cfg.CsvSeparator = [d]) (hd : d ≠ '\n')
    (hvalidate : SearchType.validate s info = none)
    (htext : '\n' ∉ info.text) (hfilter : '\n' ∉ info.filterValue) :
    (recordLine s.cfg info).count d = 1 ∧
    (recordLine s.cfg info).count '\n' = 1 ∧
    (recordLine s.cfg info).getLast? = some '\n' ∧
    Split (recordLine s.cfg info).dropLast d = [info.text, info.filterValue] ∧
    CutString (recordLine s.cfg info).dropLast s.cfg.CsvSeparator =
      (info.text, info.filterValue, true) ∧
    (∀ (value : Body) (written : Str), SearchType.parseResponse value = (info, none) →
      s.categoryToWriter info.category = some written →
        (SearchType.Run s [value]).saver.categoryToWriter info.category =
          some (written ++ recordLine s.cfg info)) := by
  obtain ⟨-, hct, hcf, -⟩ := SearchType.validate_none s info hvalidate
  rw [hsep, Contains_singleton] at hct hcf
  have hdrop : (recordLine s.cfg info).dropLast = info.text ++ d :: info.filterValue := by
    have : recordLine s.cfg info = (info.text ++ d :: info.filterValue) ++ ['\n'] := by
      simp [recordLine, hsep]
    rw [this, List.dropLast_concat]
  have hnd : ('\n' : Char) ≠ d := fun e => hd e.symm
  refine ⟨?_, ?_, ?_, ?_, ?_, ?_⟩
  · simp [recordLine, hsep, List.count_eq_zero_of_not_mem hct,
      List.count_eq_zero_of_not_mem hcf, List.count_cons, hnd]
  · simp [recordLine, hsep, List.count_eq_zero_of_not_mem htext,
      List.count_eq_zero_of_not_mem hfilter, List.count_cons, hd]
  · simp [recordLine]
  · rw [hdrop, Split_append_sep _ _ _ hct, Split_of_not_mem _ _ hcf]
  · rw [hdrop, hsep, CutString_singleton, Cut_append_sep _ _ _ hct]
  · intro value written hparse hwriter
    rw [SearchType.Run_accept s value [] info written hparse hvalidate hwriter]
    simp [SearchType.Run, Saver.addPresets_writer, CategoryMap.set, recordLine, newline]

/-- Witness of C28 on the fresh saver with the default configuration and the record of
the body with name `a` and catalog value `preset=5`. -/
theorem record_line_splits_back_witness :
    recordLine defaultConfig ⟨"a".toList, .preset, "preset=5".toList, ["5".toList]⟩ =
      "a\tpreset=5\n".toList ∧
    Split (recordLine (SearchType.NewSaver defaultConfig).cfg
        ⟨"a".toList, .preset, "preset=5".toList, ["5".toList]⟩).dropLast '\t' =
      ["a".toList, "preset=5".toList] :=
  ⟨by decide,
    (record_line_splits_back (SearchType.NewSaver defaultConfig) '\t'
      ⟨"a".toList, .preset, "preset=5".toList, ["5".toList]⟩ (by decide) (by decide)
      (by decide) (by decide) (by decide)).2.2.2.1⟩

/-! ## The channel `Done` of the root pipeline -/

theorem RootPipeline.run_settled (events : List ShutdownEvent) :
    RootPipeline.run ⟨true, false, false⟩ events = some ⟨true, false, false⟩ := by
  induction events with
  | nil => rfl
  | cons e es ih =>
    cases e <;>
      simpa [RootPipeline.run, RootPipeline.step, RootPipeline.interrupt,
        RootPipeline.saverFatal, RootPipeline.Stop] using ih

theorem RootPipeline.run_interrupted (events : List ShutdownEvent) :
    RootPipeline.run ⟨true, false, true⟩ events = none ↔
      ∃ (k : Nat) (rest : List ShutdownEvent),
        events = List.replicate k .interrupt ++ .saverFatal :: rest := by
  induction events with
  | nil =>
    simp [RootPipeline.run]
  | cons e es ih =>
    cases e
    · have hstep : RootPipeline.run ⟨true, false, true⟩ (.interrupt :: es) =
          RootPipeline.run ⟨true, false, true⟩ es := by
        simp [RootPipeline.run, RootPipeline.step, RootPipeline.interrupt]
      rw [hstep, ih]
      constructor
      · rintro ⟨k, rest, rfl⟩
        exact ⟨k + 1, rest, rfl⟩
      · rintro ⟨k, rest, h⟩
        cases k with
        | zero => simp at h
        | succ k =>
          rw [List.replicate_succ, List.cons_append] at h
          exact ⟨k, rest, (List.cons.inj h).2⟩
    · have hstep : RootPipeline.run ⟨true, false, true⟩ (.saverFatal :: es) = none := by
        simp [RootPipeline.run, RootPipeline.step, RootPipeline.saverFatal, closeChannel]
      rw [hstep]
      exact ⟨fun _ => ⟨0, es, rfl⟩, fun _ => rfl⟩
    · have hstep : RootPipeline.run ⟨true, false, true⟩ (.Stop :: es) =
          some ⟨true, false, false⟩ := by
        simp [RootPipeline.run, RootPipeline.step, RootPipeline.Stop,
          RootPipeline.run_settled]
      rw [hstep]
      constructor
      · intro h
        cases h
      · rintro ⟨k, rest, h⟩
        cases k with
        | zero => simp at h
        | succ k =>
          rw [List.replicate_succ, List.cons_append] at h
          cases (List.cons.inj h).1

/-- C21: in the root pipeline the channel `Done` can be closed twice. After an interrupt
signal, which makes the goroutine `run` close `Done`, a fatal error of the saver makes
its deferred function close `Done` again, which panics. The method `Stop`, which tests
`Done` before it closes it, never does so; and the sequences of events in which a closed
`Done` is closed are exactly those that begin with one or more interrupt signals followed
by a fatal error of the saver. -/
theorem done_closed_twice :
    RootPipeline.run RootPipeline.start [.interrupt, .saverFatal] = none ∧
    (∀ p : RootPipeline, p.Stop ≠ none) ∧
    (∀ events : List ShutdownEvent,
      RootPipeline.run RootPipeline.start events = none ↔
        ∃ (k : Nat) (rest : List ShutdownEvent),
          events = List.replicate (k + 1) .interrupt ++ .saverFatal :: rest) := by
  refine ⟨by decide, fun p => ?_, fun events => ?_⟩
  · unfold RootPipeline.Stop closeChannel
    split_ifs <;> simp_all
  · cases events with
    | nil => simp [RootPipeline.run]
    | cons e es =>
      cases e
      · have hstep : RootPipeline.run RootPipeline.start (.interrupt :: es) =
            RootPipeline.run ⟨true, false, true⟩ es := by
          simp [RootPipeline.run, RootPipeline.step, RootPipeline.interrupt,
            RootPipeline.start, closeChannel]
        rw [hstep, RootPipeline.run_interrupted]
        constructor
        · rintro ⟨k, rest, rfl⟩
          exact ⟨k, rest, rfl⟩
        · rintro ⟨k, rest, h⟩
          rw [List.replicate_succ, List.cons_append] at h
          exact ⟨k, rest, (List.cons.inj h).2⟩
      · have hstep : RootPipeline.run RootPipeline.start (.saverFatal :: es) =
            some ⟨true, false, false⟩ := by
          simp [RootPipeline.run, RootPipeline.step, RootPipeline.saverFatal,
            RootPipeline.start, closeChannel, RootPipeline.run_settled]
        rw [hstep]
        constructor
        · intro h
          cases h
        · rintro ⟨k, rest, h⟩
          rw [List.replicate_succ, List.cons_append] at h
          cases (List.cons.inj h).1
      · have hstep : RootPipeline.run RootPipeline.start (.Stop :: es) =
            some ⟨true, false, false⟩ := by
          simp [RootPipeline.run, RootPipeline.step, RootPipeline.Stop,
            RootPipeline.start, closeChannel, RootPipeline.run_settled]
        rw [hstep]
        constructor
        · intro h
          cases h
        · rintro ⟨k, rest, h⟩
          rw [List.replicate_succ, List.cons_append] at h
          cases (List.cons.inj h).1

/-! ## The number of workers of an executor -/

theorem Group.step_sem (g g' : Group) (e : GroupEvent) (h : g.step e = some g') :
    g'.sem = g.sem := by
  cases e
  · simp only [Group.step] at h
    cases hs : g.sem with
    | none =>
      rw [hs] at h
      cases h
      rfl
    | some n =>
      rw [hs] at h
      simp only at h
      split_ifs at h
      cases h
      rfl
  · simp only [Group.step] at h
    split_ifs at h
    cases h
    rfl

theorem Group.step_bound (g g' : Group) (e : GroupEvent) (n : Nat) (hsem : g.sem = some n)
    (hactive : g.active ≤ n) (h : g.step e = some g') : g'.active ≤ n := by
  cases e
  · simp only [Group.step, hsem] at h
    split_ifs at h with hlt
    cases h
    exact hlt
  · simp only [Group.step] at h
    split_ifs at h
    cases h
    exact le_trans (Nat.sub_le _ _) hactive

theorem Group.run_bound (events : List GroupEvent) (g g' : Group) (n : Nat)
    (hsem : g.sem = some n) (hactive : g.active ≤ n) (h : g.run events = some g') :
    g'.sem = some n ∧ g'.active ≤ n := by
  induction events generalizing g with
  | nil =>
    cases h
    exact ⟨hsem, hactive⟩
  | cons e es ih =>
    unfold Group.run at h
    split at h
    · cases h
    · rename_i g1 hstep
      exact ih g1 ((Group.step_sem g g1 e hstep).trans hsem)
        (Group.step_bound g g1 e n hsem hactive hstep) h

theorem Group.run_append (g : Group) (xs ys : List GroupEvent) :
    g.run (xs ++ ys) = (g.run xs).bind (fun g' => g'.run ys) := by
  induction xs generalizing g with
  | nil => rfl
  | cons e es ih =>
    simp only [List.cons_append, Group.run]
    cases g.step e with
    | none => rfl
    | some g1 => exact ih g1

theorem Group.run_go_unlimited (n active : Nat) :
    Group.run ⟨none, active⟩ (List.replicate n .Go) = some ⟨none, active + n⟩ := by
  induction n generalizing active with
  | zero => rfl
  | succ n ih =>
    rw [List.replicate_succ]
    simp only [Group.run, Group.step]
    rw [ih]
    congr 2
    omega

/-- C23, as stated, fails for the root executor, whose group has no limit: three calls of
`Go` with no worker returning can happen, and leave three workers running, more than a
limit of two; and so for any number. -/
theorem root_workers_counterexample :
    Root.errGroup.sem = none ∧
    Root.errGroup.run [.Go, .Go, .Go] = some ⟨none, 3⟩ ∧
    (SearchType.errGroup 2).run [.Go, .Go, .Go] = none ∧
    ∀ n : Nat, Root.errGroup.run (List.replicate (n + 1) .Go) = some ⟨none, n + 1⟩ := by
  refine ⟨rfl, by decide, by decide, fun n => ?_⟩
  have h := Group.run_go_unlimited (n + 1) 0
  simpa [Root.errGroup, Group.zero] using h

/-- C23, amended: in the searchType executor, whose `Run` sets the limit of its group to
`GoErrGroupLimiter`, a number the configuration takes only when it is positive, at every
point of every sequence of calls of `Go` and returns of workers that can happen, at most
`GoErrGroupLimiter` workers are running: a call of `Go` with that many running cannot
happen before a worker returns. -/
theorem searchType_workers_bounded (GoErrGroupLimiter : Int) (hpos : 0 < GoErrGroupLimiter)
    (events : List GroupEvent) (g : Group)
    (hrun : (SearchType.errGroup GoErrGroupLimiter).run events = some g) :
    (g.active : Int) ≤ GoErrGroupLimiter ∧
    (∀ (before after : List GroupEvent) (g1 : Group), events = before ++ after →
      (SearchType.errGroup GoErrGroupLimiter).run before = some g1 →
        (g1.active : Int) ≤ GoErrGroupLimiter) ∧
    ((g.active : Int) = GoErrGroupLimiter → g.step .Go = none) := by
  have hn : ¬ GoErrGroupLimiter < 0 := by omega
  have hsem : (SearchType.errGroup GoErrGroupLimiter).sem = some GoErrGroupLimiter.toNat := by
    simp [SearchType.errGroup, Group.SetLimit, hn]
  have hzero : (SearchType.errGroup GoErrGroupLimiter).active ≤ GoErrGroupLimiter.toNat := by
    simp [SearchType.errGroup, Group.SetLimit, hn, Group.zero]
  have hbound : ∀ (evs : List GroupEvent) (g1 : Group),
      (SearchType.errGroup GoErrGroupLimiter).run evs = some g1 →
        (g1.active : Int) ≤ GoErrGroupLimiter := by
    intro evs g1 h1
    have := (Group.run_bound evs _ g1 _ hsem hzero h1).2
    omega
  refine ⟨hbound events g hrun, fun before after g1 _ h1 => hbound before g1 h1, ?_⟩
  intro hfull
  have hsem1 := (Group.run_bound events _ g _ hsem hzero hrun).1
  have hnot : ¬ g.active < GoErrGroupLimiter.toNat := by omega
  simp [Group.step, hsem1, hnot]

/-- Witness of C23 on the limit 2 and the events `Go`, `Go`, a return, `Go`. -/
theorem searchType_workers_bounded_witness :
    (SearchType.errGroup 2).run [.Go, .Go, .workerReturns, .Go] = some ⟨some 2, 2⟩ ∧
    (((⟨some 2, 2⟩ : Group).active : Int) ≤ 2) ∧
    (⟨some 2, 2⟩ : Group).step .Go = none :=
  ⟨by decide,
    (searchType_workers_bounded 2 (by decide) [.Go, .Go, .workerReturns, .Go] ⟨some 2, 2⟩
      (by decide)).1,
    (searchType_workers_bounded 2 (by decide) [.Go, .Go, .workerReturns, .Go] ⟨some 2, 2⟩
      (by decide)).2.2 rfl⟩

/-! ## The visualizer executor: the errors a worker ignores -/

theorem Visualizer.Error.Is_ErrWrapStack (text : Str) (err target : Visualizer.Error)
    (h : ∀ t e, target ≠ .ErrWrapStack t e) :
    (Visualizer.Error.ErrWrapStack text err).Is target = err.Is target := by
  rw [Visualizer.Error.Is]
  simp [(h text err).symm]

theorem Visualizer.processQueryBody_reply (line : Visualizer.Line) (queryParams : Values)
    (response : Visualizer.BucketResponse)
    (hparse : ParseQuery line.query = (queryParams, none)) (hwait : line.wait = none)
    (hreply : line.reply = .ok response) :
    Visualizer.processQueryBody line =
      if !response.IsSuccess then
        if response.StatusCode = Visualizer.StatusBadRequest ∧
            response.String = Visualizer.badPresetMsg then
          some (.noOnBucket ((queryParams.get "preset".toList).getD []))
        else some (.ErrBadResponseStatus response.StatusCode response.String)
      else Visualizer.process line response := by
  simp only [Visualizer.processQueryBody, hparse, hwait, hreply]

theorem whiteSpace_pos : ∀ space ∈ whiteSpace, 0 < space.length := by decide

theorem trimLeftLoop_done (fuel : Nat) (s : Str) (h : s.length ≤ fuel) :
    whiteSpace.find? (fun space => space.isPrefixOf (trimLeftLoop fuel s)) = none := by
  induction fuel generalizing s with
  | zero =>
    have hs : s = [] := List.length_eq_zero.1 (Nat.le_zero.1 h)
    subst hs
    decide
  | succ fuel ih =>
    unfold trimLeftLoop
    cases hf : whiteSpace.find? (fun space => space.isPrefixOf s) with
    | none => simpa using hf
    | some space =>
      have hpos := whiteSpace_pos space (List.mem_of_find?_eq_some hf)
      have hlen : (s.drop space.length).length ≤ fuel := by
        rw [List.length_drop]
        omega
      simpa using ih _ hlen

theorem trimRightLoop_done (fuel : Nat) (s : Str) (h : s.length ≤ fuel) :
    whiteSpace.find? (fun space => space.isSuffixOf (trimRightLoop fuel s)) = none := by
  induction fuel generalizing s with
  | zero =>
    have hs : s = [] := List.length_eq_zero.1 (Nat.le_zero.1 h)
    subst hs
    decide
  | succ fuel ih =>
    unfold trimRightLoop
    cases hf : whiteSpace.find? (fun space => space.isSuffixOf s) with
    | none => simpa using hf
    | some space =>
      have hpos := whiteSpace_pos space (List.mem_of_find?_eq_some hf)
      have hlen : (s.take (s.length - space.length)).length ≤ fuel := by
        rw [List.length_take]
        omega
      simpa using ih _ hlen

theorem trimLeftLoop_length (fuel : Nat) (s : Str) : (trimLeftLoop fuel s).length ≤ s.length := by
  induction fuel generalizing s with
  | zero => simp [trimLeftLoop]
  | succ fuel ih =>
    unfold trimLeftLoop
    cases hf : whiteSpace.find? (fun space => space.isPrefixOf s) with
    | none => simp
    | some space =>
      have := ih (s.drop space.length)
      rw [List.length_drop] at this
      simp only
      omega

/-- The loops of `TrimSpace` run to their end: the result ends with no white space. -/
theorem TrimSpace_no_trailing_space (s : Str) :
    whiteSpace.find? (fun space => space.isSuffixOf (TrimSpace s)) = none :=
  trimRightLoop_done _ _ (trimLeftLoop_length _ _)

theorem trimRightLoop_isPrefix (fuel : Nat) (s : Str) : trimRightLoop fuel s <+: s := by
  induction fuel generalizing s with
  | zero => exact List.prefix_refl s
  | succ fuel ih =>
    unfold trimRightLoop
    cases hf : whiteSpace.find? (fun space => space.isSuffixOf s) with
    | none => exact List.prefix_refl s
    | some space => exact (ih _).trans (List.take_prefix _ s)

/-- The loops of `TrimSpace` run to their end: the result begins with no white space. -/
theorem TrimSpace_no_leading_space (s : Str) :
    whiteSpace.find? (fun space => space.isPrefixOf (TrimSpace s)) = none := by
  have hleft := trimLeftLoop_done s.length s (le_refl _)
  rw [List.find?_eq_none] at hleft ⊢
  intro space hspace hpre
  apply hleft space hspace
  rw [List.isPrefixOf_iff_prefix] at hpre ⊢
  exact hpre.trans (trimRightLoop_isPrefix _ _)

/-- C22, as stated, fails: the reply with the status 400 and the body
`preset param malformed` followed by a newline has a body that is not exactly the
message, yet the worker returns `nil`, because `response.String()`, which the code
compares, is the body without the white space around it. -/
theorem worker_trimmed_body_counterexample :
    ("preset param malformed\n".toList ≠ Visualizer.badPresetMsg) ∧
    Visualizer.BucketResponse.String ⟨400, "preset param malformed\n".toList, .error []⟩ =
      Visualizer.badPresetMsg ∧
    Visualizer.worker
      ⟨"shoes".toList, "preset=7".toList, none,
        .ok ⟨400, "preset param malformed\n".toList, .error []⟩, none, none, none⟩ = none ∧
    Visualizer.worker
      ⟨"shoes".toList, "preset=7".toList, none,
        .ok ⟨400, " \tpreset param malformed\r\n".toList, .error []⟩, none, none, none⟩ =
      none := by
  decide

/-- C22, amended: a worker of the visualizer executor whose query parsed, whose wait ended
with a tick and whose request got a response. When the response is not a success, the
worker returns `nil` if and only if the status is 400 and the body without its leading and
trailing white space, which is what `response.String()` returns, is
`preset param malformed`; otherwise it returns `ErrBadResponseStatus` of the status and
that string, wrapped by `ErrWrapStack`, in whose chain `errors.Is` finds
`ErrResponseStatus`. When the response is a success, the directory of the results could be
made and the body decodes to an empty list of products, `processQuery` returns
`ErrEmptyResponse` wrapped by `ErrWrapStack`, which `doWeIgnoreTheseMistakes` still
recognises, and the worker returns `nil`. -/
theorem worker_ignores_known_mistakes (line : Visualizer.Line) (queryParams : Values)
    (response : Visualizer.BucketResponse)
    (hparse : ParseQuery line.query = (queryParams, none)) (hwait : line.wait = none)
    (hreply : line.reply = .ok response) :
    (response.IsSuccess = false →
      (Visualizer.worker line = none ↔
        response.StatusCode = 400 ∧ TrimSpace response.Body = Visualizer.badPresetMsg) ∧
      (¬ (response.StatusCode = 400 ∧ TrimSpace response.Body = Visualizer.badPresetMsg) →
        Visualizer.worker line =
          some (.ErrWrapStack line.text
            (.ErrBadResponseStatus response.StatusCode response.String)) ∧
        (Visualizer.Error.ErrWrapStack line.text
          (.ErrBadResponseStatus response.StatusCode response.String)).Is
            .ErrResponseStatus = true)) ∧
    (response.IsSuccess = true → line.mkdirAll = none → response.Products = .ok [] →
      Visualizer.processQuery line = some (.ErrWrapStack line.text .ErrEmptyResponse) ∧
      Visualizer.doWeIgnoreTheseMistakes
        (some (.ErrWrapStack line.text .ErrEmptyResponse)) = true ∧
      Visualizer.worker line = none) := by
  have hbody := Visualizer.processQueryBody_reply line queryParams response hparse hwait hreply
  constructor
  · intro hfail
    rw [hfail] at hbody
    simp only [Bool.not_false, if_true] at hbody
    by_cases hbad : response.StatusCode = 400 ∧ TrimSpace response.Body = Visualizer.badPresetMsg
    · have hw : Visualizer.worker line = none := by
        have hb : response.StatusCode = Visualizer.StatusBadRequest ∧
            response.String = Visualizer.badPresetMsg := hbad
        rw [if_pos hb] at hbody
        simp [Visualizer.worker, Visualizer.processQuery, hbody,
          Visualizer.doWeIgnoreTheseMistakes, Visualizer.Error.Is]
      exact ⟨⟨fun _ => hbad, fun _ => hw⟩, fun h => absurd hbad h⟩
    · have hb : ¬ (response.StatusCode = Visualizer.StatusBadRequest ∧
            response.String = Visualizer.badPresetMsg) := hbad
      rw [if_neg hb] at hbody
      have hw : Visualizer.worker line =
          some (.ErrWrapStack line.text
            (.ErrBadResponseStatus response.StatusCode response.String)) := by
        simp [Visualizer.worker, Visualizer.processQuery, hbody,
          Visualizer.doWeIgnoreTheseMistakes, Visualizer.Error.Is]
      refine ⟨⟨fun h => ?_, fun h => absurd h hbad⟩, fun _ => ⟨hw, ?_⟩⟩
      · rw [hw] at h
        cases h
      · simp [Visualizer.Error.Is]
  · intro hok hdir hproducts
    rw [hok] at hbody
    have hprocess : Visualizer.process line response = some .ErrEmptyResponse := by
      simp [Visualizer.process, hdir, Visualizer.writePresets, Visualizer.validateData,
        hproducts]
    have hq : Visualizer.processQuery line =
        some (.ErrWrapStack line.text .ErrEmptyResponse) := by
      simp [Visualizer.processQuery, hbody, hprocess]
    refine ⟨hq, ?_, ?_⟩
    · simp [Visualizer.doWeIgnoreTheseMistakes, Visualizer.Error.Is]
    · simp [Visualizer.worker, hq, Visualizer.doWeIgnoreTheseMistakes, Visualizer.Error.Is]

/-- Witness of C22 on the line `shoes`, `preset=7`, answered with the status 400 and the
text `preset param malformed`. -/
theorem worker_ignores_known_mistakes_witness :
    Visualizer.worker
        ⟨"shoes".toList, "preset=7".toList, none,
          .ok ⟨400, "preset param malformed".toList, .error []⟩, none, none, none⟩ = none ↔
      (400 : Int) = 400 ∧
        TrimSpace "preset param malformed".toList = Visualizer.badPresetMsg :=
  ((worker_ignores_known_mistakes
    ⟨"shoes".toList, "preset=7".toList, none,
      .ok ⟨400, "preset param malformed".toList, .error []⟩, none, none, none⟩
    [("preset".toList, ["7".toList])]
    ⟨400, "preset param malformed".toList, .error []⟩
    (by decide) rfl rfl).1 (by decide)).1

end Wbx
